import Mathlib

/-!
# A verification development for the terminal text editor `editor.c`

The editor keeps one global `struct editorConfig e`.  Every C function that reads or
writes `e` is embedded here as a Lean function that takes the state and returns the new
state.

Conventions of the embedding.

* C `int` and `size_t` values are `Int`; no 32-bit wrap-around is modelled, so the
  results speak about buffers whose sizes stay below `2^31`.
* A byte (`char`) is a `Nat`, read as the unsigned value `0 .. 255`.
* `erow.chars` and `erow.render` hold the bytes that the C pointers address,
  without the terminating NUL.  The C fields `size` and `rsize` are kept as separate
  fields, exactly as in the struct.
* The row array `e.row` is the list of the `numrows` rows in use.  A function whose C
  body would dereference a row slot outside that array, or pass a negative length
  to `memmove`/`memcpy` (undefined behaviour), returns `none`.
* `free` leaves the fields of a slot as they are; the model does not track that the
  bytes behind a freed pointer are gone.
* The C remainder operator `%` is `Int.tmod` (truncation toward zero).
* The `static` locals of the functions are the record `Statics`, passed along with the
  state.  Keys are the values that `editorReadKey` returns; a function that reads keys
  takes the list of the keys still to come.
* What the program reads from outside is an argument: the value `now` of `time(NULL)`,
  held fixed during a call, and the outcome `io` of writing the file.  The frame written
  to the terminal is not part of the state.
* The append buffer `struct abuf` is the list of its bytes `b[0 .. len)`; `realloc` and
  `malloc` return the block asked for.
-/

namespace Editor

/-! ## Constants (`/*** defines ***/`) -/

/-- The `#define TAB_STOP 8`. -/
def TAB_STOP : Int := 8

/-- The `#define QUIT_TIMES 3`. -/
def QUIT_TIMES : Int := 3

/-- The `CTRL_KEY(k)` macro, `(k) & 0x1f`, on a key code in `0 .. 255`. -/
def CTRL_KEY (k : Int) : Int := k % 32

/-- Key code `BACKSPACE = 127` of `enum editorKey`. -/
def BACKSPACE : Int := 127
/-- Key code `ARROW_LEFT = 1000` of `enum editorKey`. -/
def ARROW_LEFT : Int := 1000
/-- Key code `ARROW_RIGHT` of `enum editorKey`. -/
def ARROW_RIGHT : Int := 1001
/-- Key code `ARROW_DOWN` of `enum editorKey`. -/
def ARROW_DOWN : Int := 1002
/-- Key code `ARROW_UP` of `enum editorKey`. -/
def ARROW_UP : Int := 1003
/-- Key code `DEL_KEY` of `enum editorKey`. -/
def DEL_KEY : Int := 1004
/-- Key code `HOME_KEY` of `enum editorKey`. -/
def HOME_KEY : Int := 1005
/-- Key code `END_KEY` of `enum editorKey`. -/
def END_KEY : Int := 1006
/-- Key code `PAGE_UP` of `enum editorKey`. -/
def PAGE_UP : Int := 1007
/-- Key code `PAGE_DOWN` of `enum editorKey`. -/
def PAGE_DOWN : Int := 1008

/-- The byte `'\t'`. -/
def TAB : Nat := 9
/-- The byte `' '`. -/
def SPACE : Nat := 32
/-- The byte `'\n'`. -/
def NL : Nat := 10
/-- The byte `'\r'`. -/
def CR : Nat := 13

/-! ## Data (`/*** data ***/`) -/

/-- The `struct erow`: one line of the buffer. -/
structure erow where
  size : Int
  rsize : Int
  chars : List Nat
  render : List Nat
deriving DecidableEq, Repr

/-- The `struct editorConfig`, the global state `e` (the saved terminal attributes
`orig_termios` are left out). -/
structure editorConfig where
  cx : Int
  cy : Int
  rx : Int
  rowoff : Int
  coloff : Int
  screenrows : Int
  screencols : Int
  numrows : Int
  row : List erow
  dirty : Int
  filename : Option (List Nat)
  statusmsg : List Nat
  statusmsg_time : Int
deriving DecidableEq, Repr

/-! ## Row operations -/

/-- The body of both column loops: a tab first advances the column to one short of the
next tab stop, then every byte advances it by one.
`if (chars[j] == '\t') rx += (TAB_STOP - 1) - (rx % TAB_STOP); rx++;` -/
def advance (b : Nat) (rx : Int) : Int :=
  (if b = TAB then rx + ((TAB_STOP - 1) - Int.tmod rx TAB_STOP) else rx) + 1

/-- The loop `for (j = 0; j < cx; j++)` of `editorRowCxtoRx`; the first argument is the
number of iterations still to run, `cx - j`.  A read past the stored bytes yields the
NUL that terminates the C buffer. -/
def editorRowCxtoRx.loop (chars : List Nat) : Nat → Int → Int → Int
  | 0, _, rx => rx
  | n + 1, j, rx => editorRowCxtoRx.loop chars n (j + 1) (advance (chars.getD j.toNat 0) rx)

/-- The function `editorRowCxtoRx`: converts a char index to a render index. -/
def editorRowCxtoRx (row : erow) (cx : Int) : Int :=
  editorRowCxtoRx.loop row.chars cx.toNat 0 0

/-- The loop `for (cx = 0; cx < row->size; cx++)` of `editorRowRxtoCx`; the first numeric
argument is the number of iterations still to run, `row->size - cx`. -/
def editorRowRxtoCx.loop (chars : List Nat) (rx : Int) : Nat → Int → Int → Int
  | 0, cx, _ => cx
  | n + 1, cx, cur_rx =>
    let cur_rx1 := advance (chars.getD cx.toNat 0) cur_rx
    if cur_rx1 > rx then cx else editorRowRxtoCx.loop chars rx n (cx + 1) cur_rx1

/-- The function `editorRowRxtoCx`: converts a render index to a char index. -/
def editorRowRxtoCx (row : erow) (rx : Int) : Int :=
  editorRowRxtoCx.loop row.chars rx row.size.toNat 0 0

/-- The row slot `e.row[i]`, when `i` lies inside the array. -/
def rowAt (rows : List erow) (i : Int) : Option erow :=
  if 0 ≤ i then rows[i.toNat]? else none

/-- The library call `memmove(mem + dst, mem + src, n)` on an array of units of one
size: the `n` units that start at `src` land at `dst`, as if copied through a
temporary buffer; everything else stays. -/
def memmove {α : Type} (mem : List α) (dst src n : Nat) : List α :=
  mem.take dst ++ ((mem.drop src).take n ++ mem.drop (dst + n))

/-- The inner loop `while (idx % TAB_STOP != 0) render[idx++] = ' ';` of
`editorUpdateRow`, where `idx` is the number of bytes rendered so far.  The first
argument bounds the iterations; the loop runs fewer than `TAB_STOP` times. -/
def editorUpdateRow.pad : Nat → List Nat → List Nat
  | 0, render => render
  | n + 1, render =>
    if Int.tmod render.length TAB_STOP ≠ 0 then editorUpdateRow.pad n (render ++ [SPACE])
    else render

/-- The second loop of `editorUpdateRow` over the bytes `chars[0 .. size)`: a tab is
rendered as one space and then spaces up to the next tab stop, any other byte is
copied. -/
def editorUpdateRow.loop : List Nat → List Nat → List Nat
  | [], render => render
  | b :: bs, render =>
    if b = TAB then
      editorUpdateRow.loop bs (editorUpdateRow.pad TAB_STOP.toNat (render ++ [SPACE]))
    else editorUpdateRow.loop bs (render ++ [b])

/-- The function `editorUpdateRow`: rebuilds `render` and `rsize` from `chars` and
`size`. -/
def editorUpdateRow (row : erow) : erow :=
  let render := editorUpdateRow.loop (row.chars.take row.size.toNat) []
  { row with render := render, rsize := render.length }

/-- The function `editorInsertRow`.  After `realloc` the array has one more slot;
`memmove` shifts the slots `at .. numrows - 1` up by one, counted in units of
`sizeof(erow)`; then slot `at` is filled with the first `len` bytes of `s`. -/
def editorInsertRow (e : editorConfig) (at_ : Int) (s : List Nat) (len : Int) : editorConfig :=
  if at_ < 0 ∨ at_ > e.numrows then e
  else
    let arr := memmove (e.row ++ [erow.mk 0 0 [] []]) (at_.toNat + 1) at_.toNat
      (e.numrows - at_).toNat
    let fresh := editorUpdateRow { size := len, chars := s.take len.toNat, rsize := 0, render := [] }
    { e with row := arr.set at_.toNat fresh, numrows := e.numrows + 1, dirty := e.dirty + 1 }

/-- The function `editorFreeRow`: releases the two buffers of a slot.  The fields of the
slot keep their values. -/
def editorFreeRow (row : erow) : erow := row

/-- One pointer-sized unit of the row array.  On an LP64 target `sizeof(erow)` is 24 and
`sizeof(erow *)` is 8, so a slot is three such units: the two `int`s `size` and `rsize`,
the pointer `chars`, the pointer `render`. -/
inductive Cell where
  | ints (size rsize : Int)
  | ptr (bytes : List Nat)
deriving DecidableEq, Repr

/-- The number of pointer-sized units in one `erow` slot, `sizeof(erow) / sizeof(erow *)`. -/
def EROW_UNITS : Nat := 3

/-- The three units of a slot, in memory order. -/
def erow.toCells (r : erow) : List Cell :=
  [Cell.ints r.size r.rsize, Cell.ptr r.chars, Cell.ptr r.render]

/-- The row array seen as an array of pointer-sized units. -/
def cellsOfRows : List erow → List Cell
  | [] => []
  | r :: rs => r.toCells ++ cellsOfRows rs

/-- The row array read back from its units. -/
def rowsOfCells : List Cell → List erow
  | Cell.ints s r :: Cell.ptr c :: Cell.ptr d :: rest => erow.mk s r c d :: rowsOfCells rest
  | _ => []

/-- The function `editorDelRow`.  The guard lets `at == numrows` through.  The `memmove`
count is `sizeof(e.row) * (numrows - at - 1)`: `e.row` is the pointer `erow *`, so the
count is in pointer-sized units, one per following row instead of one whole slot per
following row.  A negative count (`at == numrows`) converts to a huge `size_t`. -/
def editorDelRow (e : editorConfig) (at_ : Int) : Option editorConfig :=
  if at_ < 0 ∨ at_ > e.numrows then some e
  else
    match rowAt e.row at_ with
    | none => none
    | some r =>
      let arr := e.row.set at_.toNat (editorFreeRow r)
      if e.numrows - at_ - 1 < 0 then none
      else
        let mem := memmove (cellsOfRows arr) (EROW_UNITS * at_.toNat)
          (EROW_UNITS * (at_.toNat + 1)) (e.numrows - at_ - 1).toNat
        some { e with
          row := (rowsOfCells mem).take (e.numrows - 1).toNat
          numrows := e.numrows - 1
          dirty := e.dirty + 1 }

/-- The byte stored by the assignment `row->chars[at] = c` of an `int` to a `char`. -/
def byteOfInt (c : Int) : Nat := (c % 256).toNat

/-- The function `editorRowInsertChar` on the slot `&e.row[ri]`: `memmove` shifts the
bytes `chars[at .. size]` up by one and `c` is stored at `at`. -/
def editorRowInsertChar (e : editorConfig) (ri : Int) (at_ : Int) (c : Int) :
    Option editorConfig :=
  match rowAt e.row ri with
  | none => none
  | some row =>
    let at1 := if at_ < 0 ∨ at_ > row.size then row.size else at_
    let chars := row.chars.take at1.toNat ++ byteOfInt c :: row.chars.drop at1.toNat
    let row1 := editorUpdateRow { row with chars := chars, size := row.size + 1 }
    some { e with row := e.row.set ri.toNat row1, dirty := e.dirty + 1 }

/-- The function `editorRowAppendString` on the slot `&e.row[ri]`: `memcpy` puts the
first `len` bytes of `s` behind the bytes of the row. -/
def editorRowAppendString (e : editorConfig) (ri : Int) (s : List Nat) (len : Int) :
    Option editorConfig :=
  match rowAt e.row ri with
  | none => none
  | some row =>
    if len < 0 then none
    else
      let chars := row.chars.take row.size.toNat ++ s.take len.toNat
      let row1 := editorUpdateRow { row with chars := chars, size := row.size + len }
      some { e with row := e.row.set ri.toNat row1, dirty := e.dirty + 1 }

/-- The function `editorRowDelChar` on the slot `&e.row[ri]`: `memmove` shifts the bytes
`chars[at + 1 .. size]` down by one. -/
def editorRowDelChar (e : editorConfig) (ri : Int) (at_ : Int) : Option editorConfig :=
  match rowAt e.row ri with
  | none => none
  | some row =>
    if at_ < 0 ∨ at_ ≥ row.size then some e
    else
      let row1 := editorUpdateRow
        { row with chars := row.chars.eraseIdx at_.toNat, size := row.size - 1 }
      some { e with row := e.row.set ri.toNat row1, dirty := e.dirty + 1 }

/-! ## Editor operations -/

/-- The function `editorInsertChar`. -/
def editorInsertChar (e : editorConfig) (c : Int) : Option editorConfig :=
  let e1 := if e.cy = e.numrows then editorInsertRow e e.numrows [] 0 else e
  match editorRowInsertChar e1 e1.cy e1.cx c with
  | none => none
  | some e2 => some { e2 with cx := e2.cx + 1 }

/-- The function `editorInsertNewLine`.  In the `else` branch the pointer
`&row->chars[e.cx]` and the length `row->size - e.cx` have to lie inside the row. -/
def editorInsertNewLine (e : editorConfig) : Option editorConfig :=
  let r :=
    if e.cx = 0 then some (editorInsertRow e e.cy [] 0)
    else
      match rowAt e.row e.cy with
      | none => none
      | some row =>
        if e.cx < 0 ∨ row.size - e.cx < 0 then none
        else
          let e1 := editorInsertRow e (e.cy + 1) (row.chars.drop e.cx.toNat) (row.size - e.cx)
          match rowAt e1.row e1.cy with
          | none => none
          | some row1 =>
            let row2 := editorUpdateRow
              { row1 with size := e1.cx, chars := row1.chars.take e1.cx.toNat }
            some { e1 with row := e1.row.set e1.cy.toNat row2 }
  match r with
  | none => none
  | some e2 => some { e2 with cy := e2.cy + 1, cx := 0 }

/-- The function `editorDelChar`. -/
def editorDelChar (e : editorConfig) : Option editorConfig :=
  if e.cy = e.numrows then some e
  else if e.cx = 0 ∧ e.cy = 0 then some e
  else
    match rowAt e.row e.cy with
    | none => none
    | some row =>
      if e.cx > 0 then
        match editorRowDelChar e e.cy (e.cx - 1) with
        | none => none
        | some e1 => some { e1 with cx := e1.cx - 1 }
      else
        match rowAt e.row (e.cy - 1) with
        | none => none
        | some prev =>
          let e1 := { e with cx := prev.size }
          match editorRowAppendString e1 (e1.cy - 1) row.chars row.size with
          | none => none
          | some e2 =>
            match editorDelRow e2 e2.cy with
            | none => none
            | some e3 => some { e3 with cy := e3.cy - 1 }

/-! ## File i/o -/

/-- The function `editorRowsToString`: the buffer it fills and the length it stores in
`*buflen`.  Both loops run over the rows `j < numrows`. -/
def editorRowsToString (e : editorConfig) : List Nat × Int :=
  let rows := e.row.take e.numrows.toNat
  let totlen := rows.foldl (fun t r => t + (r.size + 1)) 0
  let buf := rows.foldl (fun b r => b ++ (r.chars.take r.size.toNat ++ [NL])) []
  (buf, totlen)

/-- The inner loop of `editorOpen`,
`while (linelen > 0 && (line[linelen - 1] == '\n' || line[linelen - 1] == '\r')) linelen--;`
as a function of `linelen`. -/
def editorOpen.strip (line : List Nat) : Nat → Nat
  | 0 => 0
  | n + 1 =>
    if line.getD n 0 = NL ∨ line.getD n 0 = CR then editorOpen.strip line n else n + 1

/-- The body of the reading loop of `editorOpen` for one record returned by `getline`. -/
def editorOpen.addLine (e : editorConfig) (line : List Nat) : editorConfig :=
  editorInsertRow e e.numrows line (editorOpen.strip line line.length)

/-- The loop `while ((linelen = getline(&line, &linecap, fp)) != -1)` of `editorOpen`
over the bytes of the file still unread.  The library call `getline` returns the bytes
up to and including the next `'\n'`, or up to the end of the file when no `'\n'` is
left, and `-1` when no byte is left; `line` collects the record being read. -/
def editorOpen.loop (e : editorConfig) (line : List Nat) : List Nat → editorConfig
  | [] => if line = [] then e else editorOpen.addLine e line
  | b :: bs =>
    if b = NL then editorOpen.loop (editorOpen.addLine e (line ++ [b])) [] bs
    else editorOpen.loop e (line ++ [b]) bs

/-- The function `editorOpen`, given the bytes of the file that `fopen` opened: every
record becomes a row, then `dirty` is cleared. -/
def editorOpen (e : editorConfig) (filename : List Nat) (file : List Nat) : editorConfig :=
  let e1 := editorOpen.loop { e with filename := some filename } [] file
  { e1 with dirty := 0 }

/-! ## Output -/

/-- The function `editorScroll`. -/
def editorScroll (e : editorConfig) : Option editorConfig :=
  let e0 := { e with rx := 0 }
  let r :=
    if e0.cy < e0.numrows then
      match rowAt e0.row e0.cy with
      | none => none
      | some row => some { e0 with rx := editorRowCxtoRx row e0.cx }
    else some e0
  match r with
  | none => none
  | some e1 =>
    let e2 := if e1.cy < e1.rowoff then { e1 with rowoff := e1.cy } else e1
    let e3 :=
      if e2.cy ≥ e2.rowoff + e2.screenrows then { e2 with rowoff := e2.cy - e2.screenrows + 1 }
      else e2
    let e4 := if e3.rx < e3.coloff then { e3 with coloff := e3.rx } else e3
    let e5 :=
      if e4.rx ≥ e4.coloff + e4.screencols then { e4 with coloff := e4.rx - e4.screencols + 1 }
      else e4
    some e5

/-! ## Input -/

/-- The pointer `(e.cy >= e.numrows) ? NULL : &e.row[e.cy]` of `editorMoveCursor`:
the outer `none` is a slot outside the array, the inner `none` is `NULL`. -/
def currentRow (e : editorConfig) : Option (Option erow) :=
  if e.cy ≥ e.numrows then some none
  else
    match rowAt e.row e.cy with
    | none => none
    | some row => some (some row)

/-- The `switch (key)` of `editorMoveCursor`, with `row` the pointer computed before it. -/
def editorMoveCursor.move (e : editorConfig) (row : Option erow) (key : Int) :
    Option editorConfig :=
  if key = ARROW_LEFT then
    if e.cx ≠ 0 then some { e with cx := e.cx - 1 }
    else if e.cy > 0 then
      match rowAt e.row (e.cy - 1) with
      | none => none
      | some prev => some { e with cy := e.cy - 1, cx := prev.size }
    else some e
  else if key = ARROW_DOWN then
    if e.cy < e.numrows then some { e with cy := e.cy + 1 } else some e
  else if key = ARROW_RIGHT then
    match row with
    | none => some e
    | some r =>
      if e.cx < r.size then some { e with cx := e.cx + 1 }
      else if e.cx = r.size then some { e with cy := e.cy + 1, cx := 0 }
      else some e
  else if key = ARROW_UP then
    if e.cy ≠ 0 then some { e with cy := e.cy - 1 } else some e
  else some e

/-- The function `editorMoveCursor`: the move, then the clamp of `cx` to the length of
the row the cursor is on now. -/
def editorMoveCursor (e : editorConfig) (key : Int) : Option editorConfig :=
  match currentRow e with
  | none => none
  | some row =>
    match editorMoveCursor.move e row key with
    | none => none
    | some e1 =>
      match currentRow e1 with
      | none => none
      | some row1 =>
        let rowlen := match row1 with
          | none => 0
          | some r => r.size
        if e1.cx > rowlen then some { e1 with cx := rowlen } else some e1

/-! ## Well-formed states -/

/-- A buffer as the row operations build it: `numrows` counts the rows and every `size`
is the number of bytes in `chars`. -/
def BufferOK (e : editorConfig) : Prop :=
  e.numrows = e.row.length ∧ ∀ r ∈ e.row, r.size = r.chars.length

instance (e : editorConfig) : Decidable (BufferOK e) := by
  unfold BufferOK; infer_instance

/-- The cursor invariant: `0 ≤ cy ≤ numrows`; on a row, `0 ≤ cx ≤ size`; on the virtual
line behind the last row, `cx = 0`. -/
def CursorOK (e : editorConfig) : Prop :=
  0 ≤ e.cy ∧ e.cy ≤ e.numrows ∧
    (e.cy < e.numrows →
      match rowAt e.row e.cy with
      | some r => 0 ≤ e.cx ∧ e.cx ≤ r.size
      | none => False) ∧
    (e.cy = e.numrows → e.cx = 0)

instance (e : editorConfig) : Decidable (CursorOK e) := by
  unfold CursorOK
  cases rowAt e.row e.cy <;> infer_instance

/-- The raw contents of the lines, in document order. -/
def lines (e : editorConfig) : List (List Nat) := e.row.map erow.chars

/-- A row that holds the bytes `s`, rendered. -/
def mkRow (s : List Nat) : erow :=
  editorUpdateRow { size := s.length, rsize := 0, chars := s, render := [] }

/-- An editor state with the given rows and cursor, an 80 by 22 window scrolled to the
top left, and a clean buffer. -/
def mkState (rows : List erow) (cy cx : Int) : editorConfig :=
  { cx := cx, cy := cy, rx := 0, rowoff := 0, coloff := 0, screenrows := 22, screencols := 80,
    numrows := rows.length, row := rows, dirty := 0, filename := none, statusmsg := [],
    statusmsg_time := 0 }

/-- The state after `n` successive calls of an operation, `none` once a call is
undefined. -/
def callTimes (f : editorConfig → Option editorConfig) : Nat → editorConfig → Option editorConfig
  | 0, e => some e
  | n + 1, e =>
    match f e with
    | none => none
    | some e1 => callTimes f n e1

/-- The byte `'\x1b'` as a key code. -/
def ESC : Int := 27
/-- The byte `'\r'`, the Enter key, as a key code. -/
def ENTER : Int := 13

/-- The `static` locals of the program: `last_match` and `direction` of
`editorFindCallback`, and `quit_times` of `editorProcessKeypress`. -/
structure Statics where
  last_match : Int
  direction : Int
  quit_times : Int
deriving DecidableEq, Repr

/-- The initial values of the static locals. -/
def Statics.init : Statics := { last_match := -1, direction := 1, quit_times := QUIT_TIMES }

/-! ## Terminal -/

/-- One `read(STDIN_FILENO, &c, 1)` inside an escape sequence: the next read result,
`none` for a read that times out; when nothing more arrives the read times out. -/
def readByte : List (Option Nat) → Option Nat × List (Option Nat)
  | [] => (none, [])
  | r :: rest => (r, rest)

/-- The loop `while ((nread = read(STDIN_FILENO, &c, 1)) != 1)` of `editorReadKey`: reads
that time out are retried; `none` when no byte ever arrives (the loop keeps polling). -/
def editorReadKey.wait : List (Option Nat) → Option (Nat × List (Option Nat))
  | [] => none
  | none :: rest => editorReadKey.wait rest
  | some c :: rest => some (c, rest)

/-- The function `editorReadKey` on the stream of read results: the key it returns and
the rest of the stream; `none` when it never returns.  A byte that is not ESC is returned
with its unsigned value (where `char` is signed, the bytes 128 .. 255 come back as
negative numbers). -/
def editorReadKey (input : List (Option Nat)) : Option (Int × List (Option Nat)) :=
  match editorReadKey.wait input with
  | none => none
  | some (c, in1) =>
    if c = 27 then
      match readByte in1 with
      | (none, in2) => some (ESC, in2)
      | (some seq0, in2) =>
        match readByte in2 with
        | (none, in3) => some (ESC, in3)
        | (some seq1, in3) =>
          if seq0 = 91 then
            if seq1 ≥ 48 ∧ seq1 ≤ 57 then
              match readByte in3 with
              | (none, in4) => some (ESC, in4)
              | (some seq2, in4) =>
                if seq2 = 126 then
                  if seq1 = 49 then some (HOME_KEY, in4)
                  else if seq1 = 51 then some (DEL_KEY, in4)
                  else if seq1 = 52 then some (END_KEY, in4)
                  else if seq1 = 53 then some (PAGE_UP, in4)
                  else if seq1 = 54 then some (PAGE_DOWN, in4)
                  else if seq1 = 55 then some (HOME_KEY, in4)
                  else if seq1 = 56 then some (END_KEY, in4)
                  else some (ESC, in4)
                else some (ESC, in4)
            else
              if seq1 = 65 then some (ARROW_UP, in3)
              else if seq1 = 66 then some (ARROW_DOWN, in3)
              else if seq1 = 67 then some (ARROW_RIGHT, in3)
              else if seq1 = 68 then some (ARROW_LEFT, in3)
              else if seq1 = 72 then some (HOME_KEY, in3)
              else if seq1 = 70 then some (END_KEY, in3)
              else some (ESC, in3)
          else if seq0 = 79 then
            if seq1 = 72 then some (HOME_KEY, in3)
            else if seq1 = 70 then some (END_KEY, in3)
            else some (ESC, in3)
          else some (ESC, in3)
    else some ((c : Int), in1)

/-! ## Find -/

/-- The bytes of a C string: the bytes in front of the first NUL. -/
def cstring (s : List Nat) : List Nat := s.takeWhile (fun b => b ≠ 0)

/-- The scan of `strstr` over the haystack: the offset of the first place where the
needle starts, `none` for `NULL`. -/
def strstr.scan (needle : List Nat) : List Nat → Nat → Option Nat
  | [], off => if needle <+: [] then some off else none
  | b :: bs, off =>
    if needle <+: b :: bs then some off else strstr.scan needle bs (off + 1)

/-- The library call `strstr(haystack, needle)` on two NUL-terminated buffers: the offset
`match - haystack` of the first occurrence, `none` for `NULL`. -/
def strstr (haystack needle : List Nat) : Option Nat :=
  strstr.scan (cstring needle) (cstring haystack) 0

/-- The loop `for (i = 0; i < e.numrows; i++)` of `editorFindCallback`; the first numeric
argument is the number of iterations still to run.  The result is the state and the new
`last_match`. -/
def editorFindCallback.loop (e : editorConfig) (query : List Nat) (direction : Int) :
    Nat → Int → Int → Option (editorConfig × Int)
  | 0, _, last_match => some (e, last_match)
  | n + 1, current, last_match =>
    let current1 := current + direction
    let current2 :=
      if current1 = -1 then e.numrows - 1
      else if current1 = e.numrows then 0
      else current1
    match rowAt e.row current2 with
    | none => none
    | some row =>
      match strstr row.render query with
      | some off =>
        some ({ e with cy := current2, cx := editorRowRxtoCx row off, rowoff := e.numrows },
          current2)
      | none => editorFindCallback.loop e query direction n current2 last_match

/-- The function `editorFindCallback`. -/
def editorFindCallback (e : editorConfig) (st : Statics) (query : List Nat) (key : Int) :
    Option (editorConfig × Statics) :=
  if key = ENTER ∨ key = ESC then some (e, { st with last_match := -1, direction := 1 })
  else
    let st1 :=
      if key = ARROW_RIGHT ∨ key = ARROW_DOWN then { st with direction := 1 }
      else if key = ARROW_LEFT ∨ key = ARROW_UP then { st with direction := -1 }
      else { st with last_match := -1, direction := 1 }
    let st2 := if st1.last_match = -1 then { st1 with direction := 1 } else st1
    match editorFindCallback.loop e query st2.direction e.numrows.toNat st2.last_match
        st2.last_match with
    | none => none
    | some (e1, last_match) => some (e1, { st2 with last_match := last_match })

/-! ## Status message and refresh -/

/-- The bytes of a string literal. -/
def bytes (s : String) : List Nat := s.toList.map Char.toNat

/-- The text that the conversion `%d` prints for an `int`. -/
def fmtInt (n : Int) : List Nat :=
  if n < 0 then 45 :: (Nat.toDigits 10 n.natAbs).map Char.toNat
  else (Nat.toDigits 10 n.toNat).map Char.toNat

/-- The function `editorSetStatusMessage`, given the text `msg` that the format and its
arguments expand to and the value `now` of `time(NULL)`: `vsnprintf` keeps what fits in
the 80-byte `statusmsg`. -/
def editorSetStatusMessage (e : editorConfig) (msg : List Nat) (now : Int) : editorConfig :=
  { e with statusmsg := msg.take 79, statusmsg_time := now }

/-- The effect of `editorRefreshScreen` on the state, which is that of `editorScroll`; the
frame it writes to the terminal is not part of the state. -/
def editorRefreshScreen (e : editorConfig) : Option editorConfig := editorScroll e

/-! ## Prompt -/

/-- How a call of `editorPrompt` ends: it returns the input, it returns `NULL`, or it is
still inside `editorReadKey` because no key is left. -/
inductive PromptResult where
  | input (buf : List Nat)
  | cancelled
  | reading (buf : List Nat)
deriving DecidableEq, Repr

/-- The library call `iscntrl` in the "C" locale.  For an argument that is not a byte
value the model answers false. -/
def iscntrl (c : Int) : Bool := (0 ≤ c ∧ c < 32) ∨ c = 127

/-- A callback of `editorPrompt`, `void (*callback)(char *, int)`, acting on the state and
the static locals. -/
abbrev Callback := editorConfig → Statics → List Nat → Int → Option (editorConfig × Statics)

/-- The call `if (callback) callback(buf, c);`. -/
def callCallback (callback : Option Callback) (e : editorConfig) (st : Statics)
    (buf : List Nat) (c : Int) : Option (editorConfig × Statics) :=
  match callback with
  | none => some (e, st)
  | some f => f e st buf c

/-- The loop `while (1)` of `editorPrompt` over the keys that `editorReadKey` returns.
The prompt format is given as the text before and after its `%s`; `now` is the value of
`time(NULL)`.  The result is how the call ends, the state, the static locals and the keys
not read. -/
def editorPrompt.loop (prompt : List Nat × List Nat) (callback : Option Callback) (now : Int) :
    List Int → List Nat → editorConfig → Statics →
      Option (PromptResult × editorConfig × Statics × List Int)
  | [], buf, e, st =>
    match editorRefreshScreen (editorSetStatusMessage e (prompt.1 ++ buf ++ prompt.2) now) with
    | none => none
    | some e1 => some (PromptResult.reading buf, e1, st, [])
  | c :: keys, buf, e, st =>
    match editorRefreshScreen (editorSetStatusMessage e (prompt.1 ++ buf ++ prompt.2) now) with
    | none => none
    | some e1 =>
      if c = DEL_KEY ∨ c = CTRL_KEY 104 ∨ c = BACKSPACE then
        let buf1 := if buf.length ≠ 0 then buf.dropLast else buf
        match callCallback callback e1 st buf1 c with
        | none => none
        | some (e2, st2) => editorPrompt.loop prompt callback now keys buf1 e2 st2
      else if c = ESC then
        match callCallback callback (editorSetStatusMessage e1 [] now) st buf c with
        | none => none
        | some (e2, st2) => some (PromptResult.cancelled, e2, st2, keys)
      else if c = ENTER then
        if buf.length ≠ 0 then
          match callCallback callback (editorSetStatusMessage e1 [] now) st buf c with
          | none => none
          | some (e2, st2) => some (PromptResult.input buf, e2, st2, keys)
        else
          match callCallback callback e1 st buf c with
          | none => none
          | some (e2, st2) => editorPrompt.loop prompt callback now keys buf e2 st2
      else if ¬ iscntrl c ∧ c < 128 then
        match callCallback callback e1 st (buf ++ [byteOfInt c]) c with
        | none => none
        | some (e2, st2) => editorPrompt.loop prompt callback now keys (buf ++ [byteOfInt c]) e2 st2
      else
        match callCallback callback e1 st buf c with
        | none => none
        | some (e2, st2) => editorPrompt.loop prompt callback now keys buf e2 st2

/-- The function `editorPrompt`: the input starts empty. -/
def editorPrompt (prompt : List Nat × List Nat) (callback : Option Callback) (now : Int)
    (keys : List Int) (e : editorConfig) (st : Statics) :
    Option (PromptResult × editorConfig × Statics × List Int) :=
  editorPrompt.loop prompt callback now keys [] e st

/-- How a call of a key handler ends: it returns (with the keys not read), it is still
inside `editorReadKey` because no key is left, or the process has exited. -/
inductive Outcome where
  | returned (e : editorConfig) (st : Statics) (keys : List Int)
  | reading (e : editorConfig) (st : Statics)
  | exited (e : editorConfig) (status : Int)
deriving DecidableEq, Repr

/-- The function `editorFind`. -/
def editorFind (e : editorConfig) (st : Statics) (keys : List Int) (now : Int) :
    Option Outcome :=
  let saved_cx := e.cx
  let saved_cy := e.cy
  let saved_rowoff := e.rowoff
  let saved_coloff := e.coloff
  match editorPrompt (bytes "Search: ", bytes " (Use ESC / Arrows / Enter)")
      (some editorFindCallback) now keys e st with
  | none => none
  | some (PromptResult.input _, e1, st1, rest) => some (Outcome.returned e1 st1 rest)
  | some (PromptResult.cancelled, e1, st1, rest) =>
    some (Outcome.returned
      { e1 with cx := saved_cx, cy := saved_cy, rowoff := saved_rowoff, coloff := saved_coloff }
      st1 rest)
  | some (PromptResult.reading _, e1, st1, _) => some (Outcome.reading e1 st1)

/-- The part of `editorSave` behind the file name: `io` is `none` when `open`, `ftruncate`
and `write` succeed, and the text of `strerror(errno)` when one of them fails. -/
def editorSave.write (e : editorConfig) (st : Statics) (keys : List Int) (now : Int)
    (io : Option (List Nat)) : Outcome :=
  match io with
  | none =>
    Outcome.returned
      (editorSetStatusMessage { e with dirty := 0 }
        (fmtInt (editorRowsToString e).2 ++ bytes " bytes written to disk") now) st keys
  | some err =>
    Outcome.returned
      (editorSetStatusMessage e (bytes "Can not save the file due to I/O error: " ++ err) now)
      st keys

/-- The function `editorSave`. -/
def editorSave (e : editorConfig) (st : Statics) (keys : List Int) (now : Int)
    (io : Option (List Nat)) : Option Outcome :=
  match e.filename with
  | some _ => some (editorSave.write e st keys now io)
  | none =>
    match editorPrompt (bytes "Save as: ", bytes " (ESC to cancel)") none now keys e st with
    | none => none
    | some (PromptResult.input name, e1, st1, rest) =>
      some (editorSave.write { e1 with filename := some name } st1 rest now io)
    | some (PromptResult.cancelled, e1, st1, rest) =>
      some (Outcome.returned (editorSetStatusMessage e1 (bytes "Save aborted") now) st1 rest)
    | some (PromptResult.reading _, e1, st1, _) => some (Outcome.reading e1 st1)

/-- The `switch (c)` of `editorProcessKeypress` for every key but Ctrl-Q.  `keys` are the
keys that later calls of `editorReadKey` return. -/
def editorProcessKeypress.switch (e : editorConfig) (st : Statics) (c : Int) (keys : List Int)
    (now : Int) (io : Option (List Nat)) : Option Outcome :=
  if c = ENTER then
    match editorInsertNewLine e with
    | none => none
    | some e1 => some (Outcome.returned e1 st keys)
  else if c = CTRL_KEY 115 then editorSave e st keys now io
  else if c = CTRL_KEY 102 then editorFind e st keys now
  else if c = HOME_KEY then some (Outcome.returned { e with cx := 0 } st keys)
  else if c = END_KEY then
    if e.cy < e.numrows then
      match rowAt e.row e.cy with
      | none => none
      | some row => some (Outcome.returned { e with cx := row.size } st keys)
    else some (Outcome.returned e st keys)
  else if c = BACKSPACE ∨ c = CTRL_KEY 104 ∨ c = DEL_KEY then
    let moved := if c = DEL_KEY then editorMoveCursor e ARROW_RIGHT else some e
    match moved with
    | none => none
    | some e1 =>
      match editorDelChar e1 with
      | none => none
      | some e2 => some (Outcome.returned e2 st keys)
  else if c = PAGE_UP ∨ c = PAGE_DOWN then
    let e1 :=
      if c = PAGE_UP then { e with cy := e.rowoff }
      else
        let e2 := { e with cy := e.rowoff + e.screenrows - 1 }
        if e2.cy > e2.numrows then { e2 with cy := e2.numrows } else e2
    if e1.screenrows < 0 then none
    else
      match callTimes (fun s => editorMoveCursor s (if c = PAGE_UP then ARROW_UP else ARROW_DOWN))
          e1.screenrows.toNat e1 with
      | none => none
      | some e2 => some (Outcome.returned e2 st keys)
  else if c = ARROW_LEFT ∨ c = ARROW_DOWN ∨ c = ARROW_RIGHT ∨ c = ARROW_UP then
    match editorMoveCursor e c with
    | none => none
    | some e1 => some (Outcome.returned e1 st keys)
  else if c = CTRL_KEY 108 ∨ c = ESC then some (Outcome.returned e st keys)
  else
    match editorInsertChar e c with
    | none => none
    | some e1 => some (Outcome.returned e1 st keys)

/-- The warning of the quit guard,
`"Warning! File has unsaved changes. Press ctrl-q %d more times to quit. "`. -/
def quitWarning (quit_times : Int) : List Nat :=
  bytes "Warning! File has unsaved changes. Press ctrl-q " ++ fmtInt quit_times ++
    bytes " more times to quit. "

/-- The function `editorProcessKeypress` for the key `c` that `editorReadKey` returned.
Ctrl-Q with unsaved changes and `quit_times > 0` sets the warning, decrements
`quit_times` and returns at once; otherwise Ctrl-Q exits with status 0.  After every
other key `quit_times = QUIT_TIMES;` runs. -/
def editorProcessKeypress (e : editorConfig) (st : Statics) (c : Int) (keys : List Int)
    (now : Int) (io : Option (List Nat)) : Option Outcome :=
  if c = CTRL_KEY 113 then
    if e.dirty ≠ 0 ∧ st.quit_times > 0 then
      some (Outcome.returned (editorSetStatusMessage e (quitWarning st.quit_times) now)
        { st with quit_times := st.quit_times - 1 } keys)
    else some (Outcome.exited e 0)
  else
    match editorProcessKeypress.switch e st c keys now io with
    | some (Outcome.returned e1 st1 keys1) =>
      some (Outcome.returned e1 { st1 with quit_times := QUIT_TIMES } keys1)
    | other => other

/-- The outcome of handing the keys of a list to successive calls of
`editorProcessKeypress`, as long as the calls return; no further key arrives. -/
def pressSequence (now : Int) (io : Option (List Nat)) :
    List Int → editorConfig → Statics → Option Outcome
  | [], e, st => some (Outcome.returned e st [])
  | c :: cs, e, st =>
    match editorProcessKeypress e st c [] now io with
    | some (Outcome.returned e1 st1 _) => pressSequence now io cs e1 st1
    | other => other

/-! ## Invariants of a prompt session -/

/-- The static `last_match` is `-1` or the index of a row. -/
def FindOK (e : editorConfig) (st : Statics) : Prop :=
  st.last_match = -1 ∨ (0 ≤ st.last_match ∧ st.last_match < e.numrows)

instance (e : editorConfig) (st : Statics) : Decidable (FindOK e st) := by
  unfold FindOK; infer_instance

/-- The second state has the buffer, the file name and the window size of the first. -/
def SameBuffer (e e1 : editorConfig) : Prop :=
  e1.row = e.row ∧ e1.numrows = e.numrows ∧ e1.dirty = e.dirty ∧ e1.filename = e.filename ∧
    e1.screenrows = e.screenrows ∧ e1.screencols = e.screencols

/-! ## The render buffer -/

/-- The first loop of `editorUpdateRow`: the number of tabs among `chars[0 .. size)`. -/
def editorUpdateRow.tabs (row : erow) : Int :=
  ((row.chars.take row.size.toNat).count TAB : Nat)

/-- The number of bytes that `editorUpdateRow` allocates for `render`,
`malloc(row->size + tabs * (TAB_STOP - 1) + 1)`. -/
def editorUpdateRow.capacity (row : erow) : Int :=
  row.size + editorUpdateRow.tabs row * (TAB_STOP - 1) + 1

/-! ## The status bar -/

/-- A value that the C type `int` holds (32 bits). -/
def IsInt (x : Int) : Prop := -2147483648 ≤ x ∧ x ≤ 2147483647

instance (x : Int) : Decidable (IsInt x) := by
  unfold IsInt; infer_instance

/-- The function `abAppend` on the bytes `b[0 .. len)` of the append buffer, when `realloc`
returns the block asked for: the first `len` bytes of `s` are copied behind them.  `s`
holds the bytes in front of the terminating NUL of the source; a negative `len`, or one
that reaches the NUL or beyond, is outside the model. -/
def abAppend (ab : List Nat) (s : List Nat) (len : Int) : Option (List Nat) :=
  if len < 0 ∨ len > s.length then none else some (ab ++ s.take len.toNat)

/-- The library call `snprintf(buf, size, ...)`, given the text that the format and its
arguments expand to: the buffer keeps the first `size - 1` bytes, the value returned is
the length of the whole text. -/
def snprintf (size : Nat) (text : List Nat) : List Nat × Int :=
  (text.take (size - 1), text.length)

/-- The text of `"%.20s - %d lines %s"` with the arguments
`e.filename ? e.filename : "[No Name]"`, `e.numrows`, `e.dirty ? "modified" : ""`. -/
def statusText (e : editorConfig) : List Nat :=
  (cstring (match e.filename with
    | some name => name
    | none => bytes "[No Name]")).take 20 ++ bytes " - " ++ fmtInt e.numrows ++ bytes " lines " ++
    (if e.dirty ≠ 0 then bytes "modified" else [])

/-- The text of `"%d/%d"` with the arguments `e.cy + 1`, `e.numrows`. -/
def counterText (e : editorConfig) : List Nat :=
  fmtInt (e.cy + 1) ++ bytes "/" ++ fmtInt e.numrows

/-- The loop `while (len < e.screencols)` of `editorDrawStatusBar`; the first argument is
the number of iterations still possible, `screencols - len`. -/
def editorDrawStatusBar.loop (rstatus : List Nat) (rlen : Int) (screencols : Int) :
    Nat → Int → List Nat → Option (List Nat)
  | 0, _, ab => some ab
  | n + 1, len, ab =>
    if len < screencols then
      if screencols - len = rlen then abAppend ab rstatus rlen
      else
        match abAppend ab [SPACE] 1 with
        | none => none
        | some ab1 => editorDrawStatusBar.loop rstatus rlen screencols n (len + 1) ab1
    else some ab

/-- The function `editorDrawStatusBar`, appending to the buffer `ab`. -/
def editorDrawStatusBar (e : editorConfig) (ab : List Nat) : Option (List Nat) :=
  match abAppend ab [27, 91, 55, 109] 4 with
  | none => none
  | some ab1 =>
    let status := snprintf 80 (statusText e)
    let rstatus := snprintf 80 (counterText e)
    let len := if status.2 > e.screencols then e.screencols else status.2
    match abAppend ab1 status.1 len with
    | none => none
    | some ab2 =>
      match editorDrawStatusBar.loop rstatus.1 rstatus.2 e.screencols
          (e.screencols - len).toNat len ab2 with
      | none => none
      | some ab3 =>
        match abAppend ab3 [27, 91, 109] 3 with
        | none => none
        | some ab4 => abAppend ab4 [13, 10] 2

/-! ## The window -/

/-- The viewport invariant: the cursor `(cy, rx)` lies in the window
`[rowoff, rowoff + screenrows) × [coloff, coloff + screencols)`. -/
def ViewportOK (e : editorConfig) : Prop :=
  e.rowoff ≤ e.cy ∧ e.cy < e.rowoff + e.screenrows ∧
    e.coloff ≤ e.rx ∧ e.rx < e.coloff + e.screencols

instance (e : editorConfig) : Decidable (ViewportOK e) := by
  unfold ViewportOK; infer_instance

/-! ## Reference definitions taken from the specification -/

/-- The tab expansion of the specification: a tab becomes spaces up to the next multiple
of the tab width (at least one), any other byte is kept; `col` is the column reached. -/
def tabExpansion.go (col : Nat) : List Nat → List Nat
  | [] => []
  | b :: bs =>
    if b = TAB then
      List.replicate (8 - col % 8) SPACE ++ tabExpansion.go (col + (8 - col % 8)) bs
    else b :: tabExpansion.go (col + 1) bs

/-- The tab expansion of a line, from column 0. -/
def tabExpansion (s : List Nat) : List Nat := tabExpansion.go 0 s

/-- The order in which the specification visits the rows of a search: from `start`, `n`
steps of `direction`, wrapping round a buffer of `n` rows. -/
def cyclicOrder (start direction : Int) (n : Nat) : List Int :=
  (List.range n).map fun (i : Nat) => (start + direction * ((i : Int) + 1)) % (n : Int)

/-- A row matches when the query occurs in its render text, both read as C strings. -/
def rowMatches (e : editorConfig) (query : List Nat) (r : Int) : Bool :=
  match rowAt e.row r with
  | none => false
  | some row => decide (cstring query <:+: cstring row.render)

/-- The prompt of the specification on a key sequence, from the input `buf`. -/
def promptReference.go : List Int → List Nat → PromptResult
  | [], buf => PromptResult.reading buf
  | c :: keys, buf =>
    if c = BACKSPACE ∨ c = CTRL_KEY 104 ∨ c = DEL_KEY then promptReference.go keys buf.dropLast
    else if c = ESC then PromptResult.cancelled
    else if c = ENTER then
      if buf = [] then promptReference.go keys buf else PromptResult.input buf
    else if c < 128 ∧ ¬ iscntrl c then promptReference.go keys (buf ++ [byteOfInt c])
    else promptReference.go keys buf

/-- The prompt of the specification: the input starts empty. -/
def promptReference (keys : List Int) : PromptResult := promptReference.go keys []

/-- The escape sequences of the specification: the bytes behind ESC and the key. -/
def escapeTable : List (List Nat × Int) :=
  [([91, 65], ARROW_UP), ([91, 66], ARROW_DOWN), ([91, 67], ARROW_RIGHT), ([91, 68], ARROW_LEFT),
   ([91, 72], HOME_KEY), ([91, 70], END_KEY),
   ([91, 49, 126], HOME_KEY), ([91, 51, 126], DEL_KEY), ([91, 52, 126], END_KEY),
   ([91, 53, 126], PAGE_UP), ([91, 54, 126], PAGE_DOWN), ([91, 55, 126], HOME_KEY),
   ([91, 56, 126], END_KEY),
   ([79, 72], HOME_KEY), ([79, 70], END_KEY)]

/-- The key of the specification for the read results behind an ESC byte: the key of the
escape sequence that these results start with, ESC when there is none. -/
def escapeReference (rest : List (Option Nat)) : Int :=
  match escapeTable.find? (fun entry => decide (rest.take entry.1.length = entry.1.map some)) with
  | some entry => entry.2
  | none => ESC

/-! ## Facts about the column mapping -/

theorem advance_gt (b : Nat) (rx : Int) (h : 0 ≤ rx) : rx < advance b rx := by
  unfold advance TAB_STOP
  rw [Int.tmod_eq_emod h (by decide)]
  split <;> omega

theorem cxtoRx_loop_ge (chars : List Nat) :
    ∀ (n : Nat) (j rx : Int), 0 ≤ rx → rx + n ≤ editorRowCxtoRx.loop chars n j rx := by
  intro n
  induction n with
  | zero => intro j rx _; simp [editorRowCxtoRx.loop]
  | succ n ih =>
    intro j rx h
    have h1 := advance_gt (chars.getD j.toNat 0) rx h
    have h2 := ih (j + 1) (advance (chars.getD j.toNat 0) rx) (by omega)
    simp only [editorRowCxtoRx.loop]
    push_cast
    omega

/-- Scanning for the column reached after `k` more bytes stops exactly `k` bytes later. -/
theorem rxtoCx_loop_of_cxtoRx (chars : List Nat) :
    ∀ (k m : Nat) (cx cur : Int), 0 ≤ cur → k ≤ m →
      editorRowRxtoCx.loop chars (editorRowCxtoRx.loop chars k cx cur) m cx cur = cx + k := by
  intro k
  induction k with
  | zero =>
    intro m cx cur hcur _
    cases m with
    | zero => simp [editorRowRxtoCx.loop]
    | succ m =>
      have h1 := advance_gt (chars.getD cx.toNat 0) cur hcur
      simp only [editorRowRxtoCx.loop, editorRowCxtoRx.loop]
      rw [if_pos h1]
      simp
  | succ k ih =>
    intro m cx cur hcur hkm
    cases m with
    | zero => omega
    | succ m =>
      have h1 := advance_gt (chars.getD cx.toNat 0) cur hcur
      have h2 := cxtoRx_loop_ge chars k (cx + 1) (advance (chars.getD cx.toNat 0) cur) (by omega)
      have h3 := ih m (cx + 1) (advance (chars.getD cx.toNat 0) cur) (by omega) (by omega)
      simp only [editorRowRxtoCx.loop, editorRowCxtoRx.loop]
      rw [if_neg (by omega), h3]
      push_cast
      omega

/-- C1: for every line and every `cx` with `0 ≤ cx ≤ size`, mapping `cx` to its render
column with `editorRowCxtoRx` and back with `editorRowRxtoCx` returns `cx`. -/
theorem editorRowRxtoCx_editorRowCxtoRx (row : erow) (cx : Int)
    (h0 : 0 ≤ cx) (h1 : cx ≤ row.size) :
    editorRowRxtoCx row (editorRowCxtoRx row cx) = cx := by
  unfold editorRowRxtoCx editorRowCxtoRx
  rw [rxtoCx_loop_of_cxtoRx row.chars cx.toNat row.size.toNat 0 0 (le_refl 0) (by omega)]
  omega

/-- The round trip of C1 on the line `"\ta"` at `cx = 1`, which sits at render column 8. -/
theorem editorRowRxtoCx_editorRowCxtoRx_witness :
    (0 : Int) ≤ 1 ∧ (1 : Int) ≤ (erow.mk 2 9 [9, 97] [32, 32, 32, 32, 32, 32, 32, 32, 97]).size ∧
      editorRowRxtoCx (erow.mk 2 9 [9, 97] [32, 32, 32, 32, 32, 32, 32, 32, 97])
        (editorRowCxtoRx (erow.mk 2 9 [9, 97] [32, 32, 32, 32, 32, 32, 32, 32, 97]) 1) = 1 :=
  ⟨by decide, by decide,
    editorRowRxtoCx_editorRowCxtoRx _ 1 (by decide) (by decide)⟩

/-! ## Facts about the row array -/

theorem rowAt_of_lt (rows : List erow) (i : Int) (h0 : 0 ≤ i) (h1 : i < rows.length) :
    ∃ r, rowAt rows i = some r ∧ r ∈ rows ∧ rows[i.toNat]? = some r := by
  have h : i.toNat < rows.length := by omega
  refine ⟨rows[i.toNat], ?_, List.getElem_mem _, ?_⟩
  · simp [rowAt, h0, List.getElem?_eq_getElem h]
  · simp [List.getElem?_eq_getElem h]

theorem rowAt_of_ge (rows : List erow) (i : Int) (h : (rows.length : Int) ≤ i) :
    rowAt rows i = none := by
  unfold rowAt
  split
  · simp; omega
  · rfl

theorem rowAt_some (rows : List erow) (i : Int) (r : erow) (h : rowAt rows i = some r) :
    0 ≤ i ∧ i < rows.length ∧ r ∈ rows ∧ rows[i.toNat]? = some r := by
  unfold rowAt at h
  split at h
  · have h2 := List.getElem?_eq_some.mp h
    obtain ⟨hlt, heq⟩ := h2
    refine ⟨by assumption, by omega, ?_, h⟩
    rw [← heq]; exact List.getElem_mem _
  · cases h

/-! ## The cursor invariant under `editorMoveCursor` -/

theorem currentRow_of_ok (e : editorConfig) (hb : BufferOK e) (h0 : 0 ≤ e.cy)
    (h1 : e.cy ≤ e.numrows) : currentRow e = some (rowAt e.row e.cy) := by
  unfold currentRow
  by_cases h : e.cy ≥ e.numrows
  · rw [if_pos h, rowAt_of_ge e.row e.cy (by rw [← hb.1]; omega)]
  · rw [if_neg h]
    obtain ⟨r, hr, _⟩ := rowAt_of_lt e.row e.cy h0 (by rw [← hb.1]; omega)
    rw [hr]

theorem move_bounds (e : editorConfig) (key : Int) (hb : BufferOK e) (hc : CursorOK e) :
    ∃ e1, editorMoveCursor.move e (rowAt e.row e.cy) key = some e1 ∧ e1.row = e.row ∧
      e1.numrows = e.numrows ∧ e1.dirty = e.dirty ∧ 0 ≤ e1.cy ∧ e1.cy ≤ e1.numrows ∧ 0 ≤ e1.cx := by
  obtain ⟨hcy0, hcy1, hrow, hend⟩ := hc
  have hcx0 : 0 ≤ e.cx := by
    by_cases h : e.cy < e.numrows
    · have := hrow h
      obtain ⟨r, hr, _⟩ := rowAt_of_lt e.row e.cy hcy0 (by rw [← hb.1]; omega)
      rw [hr] at this
      exact this.1
    · have := hend (by omega)
      omega
  unfold editorMoveCursor.move
  by_cases hL : key = ARROW_LEFT
  · rw [if_pos hL]
    by_cases h1 : e.cx ≠ 0
    · rw [if_pos h1]
      exact ⟨_, rfl, rfl, rfl, rfl, hcy0, hcy1, by show 0 ≤ e.cx - 1; omega⟩
    · rw [if_neg h1]
      by_cases h2 : e.cy > 0
      · rw [if_pos h2]
        obtain ⟨r, hr, hmem, _⟩ := rowAt_of_lt e.row (e.cy - 1) (by omega) (by rw [← hb.1]; omega)
        rw [hr]
        have hs := hb.2 r hmem
        exact ⟨_, rfl, rfl, rfl, rfl, by show 0 ≤ e.cy - 1; omega, by show e.cy - 1 ≤ e.numrows; omega,
          by show 0 ≤ r.size; omega⟩
      · rw [if_neg h2]
        exact ⟨_, rfl, rfl, rfl, rfl, hcy0, hcy1, hcx0⟩
  · rw [if_neg hL]
    by_cases hD : key = ARROW_DOWN
    · rw [if_pos hD]
      by_cases h1 : e.cy < e.numrows
      · rw [if_pos h1]
        exact ⟨_, rfl, rfl, rfl, rfl, by show 0 ≤ e.cy + 1; omega, by show e.cy + 1 ≤ e.numrows; omega,
          hcx0⟩
      · rw [if_neg h1]
        exact ⟨_, rfl, rfl, rfl, rfl, hcy0, hcy1, hcx0⟩
    · rw [if_neg hD]
      by_cases hR : key = ARROW_RIGHT
      · rw [if_pos hR]
        cases hrow1 : rowAt e.row e.cy with
        | none => exact ⟨_, rfl, rfl, rfl, rfl, hcy0, hcy1, hcx0⟩
        | some r =>
          have hlt := (rowAt_some e.row e.cy r hrow1).2.1
          simp only []
          by_cases h1 : e.cx < r.size
          · rw [if_pos h1]
            exact ⟨_, rfl, rfl, rfl, rfl, hcy0, hcy1, by show 0 ≤ e.cx + 1; omega⟩
          · rw [if_neg h1]
            by_cases h2 : e.cx = r.size
            · rw [if_pos h2]
              exact ⟨_, rfl, rfl, rfl, rfl, by show 0 ≤ e.cy + 1; omega,
                by show e.cy + 1 ≤ e.numrows; rw [hb.1]; omega, by show (0 : Int) ≤ 0; omega⟩
            · rw [if_neg h2]
              exact ⟨_, rfl, rfl, rfl, rfl, hcy0, hcy1, hcx0⟩
      · rw [if_neg hR]
        by_cases hU : key = ARROW_UP
        · rw [if_pos hU]
          by_cases h1 : e.cy ≠ 0
          · rw [if_pos h1]
            exact ⟨_, rfl, rfl, rfl, rfl, by show 0 ≤ e.cy - 1; omega,
              by show e.cy - 1 ≤ e.numrows; omega, hcx0⟩
          · rw [if_neg h1]
            exact ⟨_, rfl, rfl, rfl, rfl, hcy0, hcy1, hcx0⟩
        · rw [if_neg hU]
          exact ⟨_, rfl, rfl, rfl, rfl, hcy0, hcy1, hcx0⟩

/-- One call of `editorMoveCursor`, with any key, returns and keeps the buffer and the
cursor invariant. -/
theorem editorMoveCursor_step (e : editorConfig) (key : Int) (hb : BufferOK e)
    (hc : CursorOK e) :
    ∃ e1, editorMoveCursor e key = some e1 ∧ e1.row = e.row ∧ e1.numrows = e.numrows ∧
      e1.dirty = e.dirty ∧ CursorOK e1 := by
  obtain ⟨e1, hm, hrow, hnum, hd1, h0, h1, hx⟩ := move_bounds e key hb hc
  have hb1 : BufferOK e1 := by
    unfold BufferOK; rw [hrow, hnum]; exact hb
  unfold editorMoveCursor
  rw [currentRow_of_ok e hb hc.1 hc.2.1]
  simp only [hm]
  rw [currentRow_of_ok e1 hb1 h0 h1]
  simp only []
  by_cases hlt : e1.cy < e1.numrows
  · obtain ⟨r, hr, hmem, _⟩ := rowAt_of_lt e1.row e1.cy h0 (by rw [← hb1.1]; omega)
    have hs := hb1.2 r hmem
    rw [hr]
    simp only []
    by_cases hgt : e1.cx > r.size
    · rw [if_pos hgt]
      refine ⟨_, rfl, hrow, hnum, hd1, h0, h1, ?_, ?_⟩
      · intro _
        show match rowAt e1.row e1.cy with
          | some r1 => 0 ≤ r.size ∧ r.size ≤ r1.size
          | none => False
        rw [hr]
        exact ⟨by omega, le_refl _⟩
      · intro h; exact absurd h (by show ¬ e1.cy = e1.numrows; omega)
    · rw [if_neg hgt]
      refine ⟨_, rfl, hrow, hnum, hd1, h0, h1, ?_, ?_⟩
      · intro _
        rw [hr]
        exact ⟨hx, by omega⟩
      · intro h; omega
  · rw [rowAt_of_ge e1.row e1.cy (by rw [← hb1.1]; omega)]
    simp only []
    by_cases hgt : e1.cx > 0
    · rw [if_pos hgt]
      refine ⟨_, rfl, hrow, hnum, hd1, h0, h1, ?_, ?_⟩
      · intro h; exact absurd h hlt
      · intro _; rfl
    · rw [if_neg hgt]
      refine ⟨_, rfl, hrow, hnum, hd1, h0, h1, ?_, ?_⟩
      · intro h; exact absurd h hlt
      · intro _; omega

/-- C2: from a buffer with a valid cursor (`0 ≤ cy ≤ numrows`, `0 ≤ cx ≤ size` on a row,
`cx = 0` on the virtual last line), every finite sequence of keys (the four arrows, and
any other key code as well) fed to `editorMoveCursor` one after the other returns a state
with the same buffer whose cursor satisfies the same bounds. -/
theorem editorMoveCursor_seq_cursorOK (keys : List Int) :
    ∀ e : editorConfig, BufferOK e → CursorOK e →
      ∃ e1, keys.foldlM editorMoveCursor e = some e1 ∧ e1.row = e.row ∧
        e1.numrows = e.numrows ∧ CursorOK e1 := by
  induction keys with
  | nil => intro e _ hc; exact ⟨e, rfl, rfl, rfl, hc⟩
  | cons k ks ih =>
    intro e hb hc
    obtain ⟨e1, h1, hrow, hnum, _, hc1⟩ := editorMoveCursor_step e k hb hc
    have hb1 : BufferOK e1 := by
      unfold BufferOK; rw [hrow, hnum]; exact hb
    obtain ⟨e2, h2, hrow2, hnum2, hc2⟩ := ih e1 hb1 hc1
    refine ⟨e2, ?_, by rw [hrow2, hrow], by rw [hnum2, hnum], hc2⟩
    rw [List.foldlM_cons, h1]
    exact h2

/-- The walk Right, Right, Down, Left, Up from the end of the first of the lines
`"abc"`, `"d"` keeps the cursor inside the buffer. -/
theorem editorMoveCursor_seq_cursorOK_witness :
    BufferOK (mkState [mkRow [97, 98, 99], mkRow [100]] 0 3) ∧
    CursorOK (mkState [mkRow [97, 98, 99], mkRow [100]] 0 3) ∧
    ∃ e1, [ARROW_RIGHT, ARROW_RIGHT, ARROW_DOWN, ARROW_LEFT, ARROW_UP].foldlM editorMoveCursor
        (mkState [mkRow [97, 98, 99], mkRow [100]] 0 3) = some e1 ∧
      e1.row = (mkState [mkRow [97, 98, 99], mkRow [100]] 0 3).row ∧
      e1.numrows = (mkState [mkRow [97, 98, 99], mkRow [100]] 0 3).numrows ∧ CursorOK e1 :=
  ⟨by decide, by decide,
    editorMoveCursor_seq_cursorOK [ARROW_RIGHT, ARROW_RIGHT, ARROW_DOWN, ARROW_LEFT, ARROW_UP]
      (mkState [mkRow [97, 98, 99], mkRow [100]] 0 3) (by decide) (by decide)⟩

/-! ## The viewport invariant -/

/-- C3: for a buffer with a valid cursor and a window of at least one row and one column,
`editorScroll` returns a state in which `rx` is `editorRowCxtoRx` of the cursor row at `cx`
(`0` on the virtual last line), the cursor and the window size are as before, and the
cursor lies in the window: `rowoff ≤ cy < rowoff + screenrows` and
`coloff ≤ rx < coloff + screencols`. -/
theorem editorScroll_cursor_in_window (e : editorConfig) (hb : BufferOK e) (hc : CursorOK e)
    (hr : 1 ≤ e.screenrows) (hcol : 1 ≤ e.screencols) :
    ∃ e1, editorScroll e = some e1 ∧
      e1.rx = (match rowAt e.row e.cy with
        | some r => editorRowCxtoRx r e.cx
        | none => 0) ∧
      e1.cy = e.cy ∧ e1.cx = e.cx ∧ e1.row = e.row ∧ e1.numrows = e.numrows ∧
      e1.screenrows = e.screenrows ∧ e1.screencols = e.screencols ∧
      e1.rowoff ≤ e1.cy ∧ e1.cy < e1.rowoff + e1.screenrows ∧
      e1.coloff ≤ e1.rx ∧ e1.rx < e1.coloff + e1.screencols := by
  obtain ⟨hcy0, hcy1, _, _⟩ := hc
  unfold editorScroll
  by_cases hlt : e.cy < e.numrows
  · obtain ⟨r, hrow, _, _⟩ := rowAt_of_lt e.row e.cy hcy0 (by rw [← hb.1]; omega)
    simp only [hlt, hrow, if_true]
    split_ifs <;> simp at * <;> omega
  · simp only [hlt, if_false, rowAt_of_ge e.row e.cy (by rw [← hb.1]; omega)]
    split_ifs <;> simp at * <;> omega

/-- The viewport invariant of C3 on the lines `"abc"` and twelve tabs, cursor behind the
eleventh tab (render column 88) in an 80 by 22 window. -/
theorem editorScroll_cursor_in_window_witness :
    BufferOK (mkState [mkRow [97, 98, 99], mkRow [9, 9, 9, 9, 9, 9, 9, 9, 9, 9, 9, 9]] 1 11) ∧
    CursorOK (mkState [mkRow [97, 98, 99], mkRow [9, 9, 9, 9, 9, 9, 9, 9, 9, 9, 9, 9]] 1 11) ∧
    ∃ e1, editorScroll
        (mkState [mkRow [97, 98, 99], mkRow [9, 9, 9, 9, 9, 9, 9, 9, 9, 9, 9, 9]] 1 11) = some e1 ∧
      e1.rx = 88 ∧ e1.rowoff ≤ e1.cy ∧ e1.cy < e1.rowoff + e1.screenrows ∧
      e1.coloff ≤ e1.rx ∧ e1.rx < e1.coloff + e1.screencols := by
  refine ⟨by decide, by decide, ?_⟩
  obtain ⟨e1, h1, h2, _, _, _, _, _, _, h3, h4, h5, h6⟩ :=
    editorScroll_cursor_in_window
      (mkState [mkRow [97, 98, 99], mkRow [9, 9, 9, 9, 9, 9, 9, 9, 9, 9, 9, 9]] 1 11)
      (by decide) (by decide) (by decide) (by decide)
  exact ⟨e1, h1, by rw [h2]; decide, h3, h4, h5, h6⟩

/-! ## Facts about `memmove`, `editorUpdateRow` and `editorInsertRow` -/

theorem memmove_cons_succ {α : Type} (r : α) (mem : List α) (dst src n : Nat) :
    memmove (r :: mem) (dst + 1) (src + 1) n = r :: memmove mem dst src n := by
  unfold memmove
  have h : dst + 1 + n = (dst + n) + 1 := by omega
  rw [h]
  simp

/-- Shifting the slots from `k` on up by one and filling slot `k` is list insertion. -/
theorem memmove_insert {α : Type} (b fresh : α) (k : Nat) :
    ∀ rows : List α, k ≤ rows.length →
      (memmove (rows ++ [b]) (k + 1) k (rows.length - k)).set k fresh =
        rows.take k ++ fresh :: rows.drop k := by
  induction k with
  | zero =>
    intro rows _
    cases rows with
    | nil => simp [memmove]
    | cons r rs =>
      have h : List.take (rs.length + 1) (r :: (rs ++ [b])) = r :: rs := by simp
      simp [memmove, h]
      omega
  | succ k ih =>
    intro rows hk
    cases rows with
    | nil => simp at hk
    | cons r rs =>
      have hk1 : k ≤ rs.length := by simpa using hk
      have hlen : (r :: rs).length - (k + 1) = rs.length - k := by simp
      rw [hlen, List.cons_append, memmove_cons_succ, List.set_cons_succ, ih rs hk1]
      simp

theorem editorUpdateRow_chars (row : erow) : (editorUpdateRow row).chars = row.chars := rfl

theorem editorUpdateRow_size (row : erow) : (editorUpdateRow row).size = row.size := rfl

/-- Inside its guard `editorInsertRow` is list insertion of the rendered new row. -/
theorem editorInsertRow_eq (e : editorConfig) (at_ : Int) (s : List Nat) (len : Int)
    (hn : e.numrows = e.row.length) (h0 : 0 ≤ at_) (h1 : at_ ≤ e.numrows) :
    editorInsertRow e at_ s len =
      { e with
        row := e.row.take at_.toNat ++
          editorUpdateRow { size := len, chars := s.take len.toNat, rsize := 0, render := [] } ::
            e.row.drop at_.toNat
        numrows := e.numrows + 1
        dirty := e.dirty + 1 } := by
  unfold editorInsertRow
  rw [if_neg (by omega)]
  have hk : at_.toNat ≤ e.row.length := by omega
  have hlen : (e.numrows - at_).toNat = e.row.length - at_.toNat := by omega
  simp only [hlen]
  rw [memmove_insert _ _ _ e.row hk]

theorem editorInsertRow_end (e : editorConfig) (s : List Nat) (len : Int)
    (hn : e.numrows = e.row.length) :
    editorInsertRow e e.numrows s len =
      { e with
        row := e.row ++
          [editorUpdateRow { size := len, chars := s.take len.toNat, rsize := 0, render := [] }]
        numrows := e.numrows + 1
        dirty := e.dirty + 1 } := by
  rw [editorInsertRow_eq e e.numrows s len hn (by omega) (le_refl _)]
  have h : e.numrows.toNat = e.row.length := by omega
  simp [h]

/-! ## The round trip through `editorRowsToString` and `editorOpen` -/

theorem strip_line (l : List Nat) (hnl : NL ∉ l) (hcr : l.getLast? ≠ some CR) :
    editorOpen.strip (l ++ [NL]) (l.length + 1) = l.length := by
  have h0 : (l ++ [NL]).getD l.length 0 = NL := by
    rw [List.getD_eq_getElem?_getD, List.getElem?_concat_length]; rfl
  rw [editorOpen.strip, if_pos (Or.inl h0)]
  rcases List.eq_nil_or_concat l with h | ⟨l1, x, h⟩
  · subst h; rfl
  · subst h
    rw [List.concat_eq_append] at *
    have hx : ((l1 ++ [x]) ++ [NL]).getD l1.length 0 = x := by
      rw [List.append_assoc, List.getD_eq_getElem?_getD,
        List.getElem?_append_right (le_refl _)]
      simp
    have hlen : (l1 ++ [x]).length = l1.length + 1 := by simp
    rw [hlen, editorOpen.strip, hx, if_neg]
    intro h
    rcases h with h | h
    · apply hnl; rw [← h]; simp
    · apply hcr; rw [List.getLast?_concat, h]

theorem addLine_eq (e : editorConfig) (l : List Nat) (hn : e.numrows = e.row.length)
    (hnl : NL ∉ l) (hcr : l.getLast? ≠ some CR) :
    editorOpen.addLine e (l ++ [NL]) =
      { e with row := e.row ++ [mkRow l], numrows := e.numrows + 1, dirty := e.dirty + 1 } := by
  unfold editorOpen.addLine
  have hlen : (l ++ [NL]).length = l.length + 1 := by simp
  rw [hlen, strip_line l hnl hcr, editorInsertRow_end e _ _ hn]
  simp [mkRow]

theorem loop_line (l : List Nat) (hnl : NL ∉ l) :
    ∀ (e : editorConfig) (line rest : List Nat),
      editorOpen.loop e line (l ++ NL :: rest) =
        editorOpen.loop (editorOpen.addLine e (line ++ l ++ [NL])) [] rest := by
  induction l with
  | nil => intro e line rest; simp [editorOpen.loop]
  | cons b bs ih =>
    intro e line rest
    have hb : b ≠ NL := fun h => hnl (by rw [h]; simp)
    have hbs : NL ∉ bs := fun h => hnl (List.mem_cons_of_mem _ h)
    rw [List.cons_append, editorOpen.loop, if_neg hb, ih hbs]
    simp

theorem loop_rows (rows : List erow) :
    ∀ e : editorConfig, e.numrows = e.row.length →
      (∀ r ∈ rows, NL ∉ r.chars ∧ r.chars.getLast? ≠ some CR) →
      lines (editorOpen.loop e [] (rows.map fun r => r.chars ++ [NL]).flatten) =
          lines e ++ rows.map erow.chars ∧
        (editorOpen.loop e [] (rows.map fun r => r.chars ++ [NL]).flatten).numrows =
          e.numrows + rows.length := by
  induction rows with
  | nil => intro e _ _; simp [editorOpen.loop]
  | cons r rs ih =>
    intro e hn hgood
    have hr := hgood r (List.mem_cons_self _ _)
    have hrs : ∀ r1 ∈ rs, NL ∉ r1.chars ∧ r1.chars.getLast? ≠ some CR :=
      fun r1 h1 => hgood r1 (List.mem_cons_of_mem _ h1)
    rw [List.map_cons, List.flatten_cons, List.append_assoc, List.singleton_append,
      loop_line r.chars hr.1, List.nil_append, addLine_eq e r.chars hn hr.1 hr.2]
    have h := ih
      { e with row := e.row ++ [mkRow r.chars], numrows := e.numrows + 1, dirty := e.dirty + 1 }
      (by simp [hn]) hrs
    refine ⟨?_, ?_⟩
    · rw [h.1]; simp [lines, mkRow, editorUpdateRow_chars]
    · rw [h.2]; simp; omega

theorem rowsToString_foldl (rows : List erow) (h : ∀ r ∈ rows, r.size = r.chars.length) :
    ∀ acc : List Nat,
      rows.foldl (fun b r => b ++ (r.chars.take r.size.toNat ++ [NL])) acc =
        acc ++ (rows.map fun r => r.chars ++ [NL]).flatten := by
  induction rows with
  | nil => intro acc; simp
  | cons r rs ih =>
    intro acc
    have hr := h r (List.mem_cons_self _ _)
    have ht : r.size.toNat = r.chars.length := by omega
    rw [List.foldl_cons, ih (fun r1 h1 => h r1 (List.mem_cons_of_mem _ h1)), ht]
    simp

/-- C4, counterexample: the one-line buffer `"a\r"` is written as `"a\r\n"`, and loading
those bytes strips the carriage return too, so the line read back is `"a"`. -/
theorem roundtrip_loses_trailing_cr :
    lines (editorOpen (mkState [] 0 0) [] (editorRowsToString (mkState [mkRow [97, 13]] 0 0)).1) ≠
        lines (mkState [mkRow [97, 13]] 0 0) ∧
      lines (editorOpen (mkState [] 0 0) [] (editorRowsToString (mkState [mkRow [97, 13]] 0 0)).1) =
        [[97]] := by
  decide

/-- C4, amended: for every buffer in which no line contains a `'\n'` byte and no line
ends in a `'\r'` byte, loading the bytes produced by `editorRowsToString` with
`editorOpen` into an empty buffer yields the same sequence of line contents and the
same number of rows. -/
theorem roundtrip_lines (e e0 : editorConfig) (filename : List Nat) (hb : BufferOK e)
    (hgood : ∀ r ∈ e.row, NL ∉ r.chars ∧ r.chars.getLast? ≠ some CR)
    (hrow0 : e0.row = []) (hnum0 : e0.numrows = 0) :
    lines (editorOpen e0 filename (editorRowsToString e).1) = lines e ∧
      (editorOpen e0 filename (editorRowsToString e).1).numrows = e.numrows := by
  have hser : (editorRowsToString e).1 = (e.row.map fun r => r.chars ++ [NL]).flatten := by
    unfold editorRowsToString
    have ht : List.take e.numrows.toNat e.row = e.row := by
      rw [hb.1]; simp
    simp only [ht]
    rw [rowsToString_foldl e.row hb.2 []]
    simp
  have h := loop_rows e.row { e0 with filename := some filename } (by simp [hrow0, hnum0]) hgood
  unfold editorOpen
  rw [hser]
  refine ⟨?_, ?_⟩
  · show lines (editorOpen.loop _ [] _) = lines e
    rw [h.1]; simp [lines, hrow0]
  · show (editorOpen.loop _ [] _).numrows = e.numrows
    rw [h.2, hb.1]; simp [hnum0]

/-- The round trip of C4 also fails on a line with an embedded `'\n'` byte (typed as
Ctrl-J): the line `"a\nb"` comes back as the two lines `"a"` and `"b"`. -/
theorem roundtrip_splits_embedded_nl :
    lines (editorOpen (mkState [] 0 0) []
        (editorRowsToString (mkState [mkRow [97, 10, 98]] 0 0)).1) = [[97], [98]] := by
  decide

/-- The round trip of C4 on the buffer `"abc"`, `""`, `"d\re"` (a carriage return inside a
line is kept). -/
theorem roundtrip_lines_witness :
    BufferOK (mkState [mkRow [97, 98, 99], mkRow [], mkRow [100, 13, 101]] 0 0) ∧
    (∀ r ∈ (mkState [mkRow [97, 98, 99], mkRow [], mkRow [100, 13, 101]] 0 0).row,
      NL ∉ r.chars ∧ r.chars.getLast? ≠ some CR) ∧
    (mkState [] 0 0).row = [] ∧ (mkState [] 0 0).numrows = 0 ∧
    lines (editorOpen (mkState [] 0 0) [116]
        (editorRowsToString
          (mkState [mkRow [97, 98, 99], mkRow [], mkRow [100, 13, 101]] 0 0)).1) =
      [[97, 98, 99], [], [100, 13, 101]] :=
  ⟨by decide, by decide, rfl, rfl,
    (roundtrip_lines (mkState [mkRow [97, 98, 99], mkRow [], mkRow [100, 13, 101]] 0 0)
      (mkState [] 0 0) [116] (by decide) (by decide) rfl rfl).1⟩

/-! ## Deleting a row -/

/-- C6, evaluation at the failing input: deleting row 0 of `"a"`, `"b"`, `"cc"` moves only
two pointer-sized units (`size`/`rsize` and `chars` of `"b"`) into slot 0; slot 1 still
holds `"b"` and the row `"cc"` is cut off by `numrows--`.  The line sequence should be
`"b"`, `"cc"`. -/
theorem editorDelRow_shift_incomplete :
    (editorDelRow (mkState [mkRow [97], mkRow [98], mkRow [99, 99]] 0 0) 0).map
        (fun e => (lines e, e.numrows, e.dirty)) = some ([[98], [98]], 2, 1) ∧
      (editorDelRow (mkState [mkRow [97], mkRow [98], mkRow [99, 99]] 0 0) 0).map lines ≠
        some ((lines (mkState [mkRow [97], mkRow [98], mkRow [99, 99]] 0 0)).eraseIdx 0) := by
  decide

/-- C5, evaluation at the failing input: with the lines `"a"`, `"b"`, `"cc"`, `"d"` and the
cursor at `(cy, cx) = (1, 0)`, `editorDelChar` merges `"b"` into `"a"` and moves the cursor
to `(0, 1)`, but the rows behind the deleted one are not all shifted: the result is `"ab"`,
`"cc"`, `"cc"` where it should be `"ab"`, `"cc"`, `"d"`. -/
theorem editorDelChar_merge_shift_incomplete :
    (editorDelChar (mkState [mkRow [97], mkRow [98], mkRow [99, 99], mkRow [100]] 1 0)).map
        (fun e => (lines e, e.numrows, e.cy, e.cx)) =
      some ([[97, 98], [99, 99], [99, 99]], 3, 0, 1) := by
  decide

theorem rowsOfCells_cellsOfRows (rows : List erow) : rowsOfCells (cellsOfRows rows) = rows := by
  induction rows with
  | nil => rfl
  | cons r rs ih => simp [cellsOfRows, erow.toCells, rowsOfCells, ih]

theorem memmove_zero {α : Type} (mem : List α) (dst src : Nat) : memmove mem dst src 0 = mem := by
  simp [memmove]

theorem set_getElem?_self {α : Type} (r : α) (k : Nat) :
    ∀ rows : List α, rows[k]? = some r → rows.set k r = rows := by
  induction k with
  | zero =>
    intro rows h
    cases rows with
    | nil => rfl
    | cons a as => simp at h; simp [h]
  | succ k ih =>
    intro rows h
    cases rows with
    | nil => rfl
    | cons a as =>
      have h1 : as[k]? = some r := by simpa using h
      simp [ih as h1]

/-- Deleting the last row is right: nothing has to be shifted. -/
theorem editorDelRow_last (e : editorConfig) (at_ : Int) (hn : e.numrows = e.row.length)
    (hpos : 0 ≤ at_) (hat : at_ = e.numrows - 1) :
    editorDelRow e at_ = some { e with
      row := e.row.take at_.toNat
      numrows := e.numrows - 1
      dirty := e.dirty + 1 } := by
  obtain ⟨r, hr, _, hget⟩ := rowAt_of_lt e.row at_ hpos (by omega)
  unfold editorDelRow
  rw [if_neg (by omega)]
  simp only [hr]
  rw [if_neg (by omega)]
  have h0 : (e.numrows - at_ - 1).toNat = 0 := by omega
  have h1 : (e.numrows - 1).toNat = at_.toNat := by omega
  rw [h0, h1, memmove_zero, editorFreeRow, set_getElem?_self r _ e.row hget,
    rowsOfCells_cellsOfRows]

/-! ## Inserting a byte -/

theorem editorUpdateRow_eq_mkRow (row : erow) (s : List Nat) (hs : row.size = s.length)
    (hc : row.chars = s) : editorUpdateRow row = mkRow s := by
  cases row with
  | mk size rsize chars render =>
    simp only at hs hc
    subst hc
    simp [editorUpdateRow, mkRow, hs]

theorem mkRow_chars (s : List Nat) : (mkRow s).chars = s := rfl

theorem mkRow_size (s : List Nat) : (mkRow s).size = s.length := rfl

theorem cursor_row (e : editorConfig) (hb : BufferOK e) (hc : CursorOK e)
    (hcy : e.cy < e.numrows) :
    ∃ row, rowAt e.row e.cy = some row ∧ row ∈ e.row ∧ e.row[e.cy.toNat]? = some row ∧
      row.size = row.chars.length ∧ 0 ≤ e.cx ∧ e.cx ≤ row.size ∧
      (lines e).getD e.cy.toNat [] = row.chars ∧ e.cy.toNat < e.row.length := by
  obtain ⟨hcy0, _, hrow, _⟩ := hc
  obtain ⟨row, hr, hmem, hget⟩ := rowAt_of_lt e.row e.cy hcy0 (by rw [← hb.1]; omega)
  have h := hrow hcy
  rw [hr] at h
  refine ⟨row, hr, hmem, hget, hb.2 row hmem, h.1, h.2, ?_, ?_⟩
  · rw [List.getD_eq_getElem?_getD]
    simp [lines, hget]
  · have := hb.1; omega

/-- What `editorInsertChar` does on an existing row. -/
theorem editorInsertChar_row (e : editorConfig) (c : Int) (hb : BufferOK e) (hc : CursorOK e)
    (hcy : e.cy < e.numrows) :
    editorInsertChar e c = some { e with
      row := e.row.set e.cy.toNat
        (mkRow (((lines e).getD e.cy.toNat []).take e.cx.toNat ++
          byteOfInt c :: ((lines e).getD e.cy.toNat []).drop e.cx.toNat))
      dirty := e.dirty + 1
      cx := e.cx + 1 } := by
  obtain ⟨row, hr, _, _, hsz, hcx0, hcx1, hline, _⟩ := cursor_row e hb hc hcy
  unfold editorInsertChar
  rw [if_neg (by omega)]
  unfold editorRowInsertChar
  simp only [hr]
  rw [if_neg (by omega), hline]
  rw [editorUpdateRow_eq_mkRow _ (row.chars.take e.cx.toNat ++
    byteOfInt c :: row.chars.drop e.cx.toNat) (by simp; omega) rfl]

/-- What `editorInsertChar` does on the virtual line behind the last row. -/
theorem editorInsertChar_end (e : editorConfig) (c : Int) (hb : BufferOK e) (hc : CursorOK e)
    (hcy : e.cy = e.numrows) :
    editorInsertChar e c = some { e with
      row := e.row ++ [mkRow [byteOfInt c]]
      numrows := e.numrows + 1
      dirty := e.dirty + 1 + 1
      cx := 1 } := by
  have hcx : e.cx = 0 := hc.2.2.2 hcy
  have hlen : e.cy.toNat = e.row.length := by have := hb.1; omega
  unfold editorInsertChar
  rw [if_pos hcy, editorInsertRow_end e [] 0 hb.1]
  unfold editorRowInsertChar rowAt
  simp only [hcx, hlen]
  rw [if_pos hc.1]
  simp only [List.getElem?_concat_length]
  have h1 : editorUpdateRow (erow.mk 0 0 (List.take (0 : Int).toNat []) []) = mkRow [] := rfl
  rw [h1]
  simp only [mkRow_size, mkRow_chars]
  rw [editorUpdateRow_eq_mkRow _ [byteOfInt c] (by simp) (by simp)]
  simp

/-- C7: for every buffer, every cursor on an existing row (`cy < numrows`,
`0 ≤ cx ≤ size`) and every byte `c`, `editorInsertChar` returns; line `cy` becomes its
first `cx` bytes, then `c`, then its remaining bytes (as a rendered row of the right
size), every other row and `numrows` are unchanged, and the cursor is `(cy, cx + 1)`. -/
theorem editorInsertChar_inserts (e : editorConfig) (c : Int) (hb : BufferOK e)
    (hc : CursorOK e) (hcy : e.cy < e.numrows) (hc0 : 0 ≤ c) (hc1 : c < 256) :
    ∃ e1, editorInsertChar e c = some e1 ∧
      e1.row = e.row.set e.cy.toNat
        (mkRow (((lines e).getD e.cy.toNat []).take e.cx.toNat ++
          c.toNat :: ((lines e).getD e.cy.toNat []).drop e.cx.toNat)) ∧
      lines e1 = (lines e).set e.cy.toNat
        (((lines e).getD e.cy.toNat []).take e.cx.toNat ++
          c.toNat :: ((lines e).getD e.cy.toNat []).drop e.cx.toNat) ∧
      e1.numrows = e.numrows ∧ e1.cy = e.cy ∧ e1.cx = e.cx + 1 := by
  have hbyte : byteOfInt c = c.toNat := by unfold byteOfInt; omega
  refine ⟨_, editorInsertChar_row e c hb hc hcy, ?_, ?_, rfl, rfl, rfl⟩
  · simp only [hbyte]
  · simp only [hbyte, lines, List.map_set, mkRow_chars]

/-- The scenario of C7: lines `"abc"`, `"def"`, cursor `(0, 3)`, byte `'X'`; line 0
becomes `"abcX"`. -/
theorem editorInsertChar_inserts_witness :
    BufferOK (mkState [mkRow [97, 98, 99], mkRow [100, 101, 102]] 0 3) ∧
    CursorOK (mkState [mkRow [97, 98, 99], mkRow [100, 101, 102]] 0 3) ∧
    ∃ e1, editorInsertChar (mkState [mkRow [97, 98, 99], mkRow [100, 101, 102]] 0 3) 88 = some e1 ∧
      lines e1 = [[97, 98, 99, 88], [100, 101, 102]] ∧ e1.numrows = 2 ∧ e1.cy = 0 ∧
      e1.cx = 4 := by
  refine ⟨by decide, by decide, ?_⟩
  obtain ⟨e1, h1, _, h2, h3, h4, h5⟩ :=
    editorInsertChar_inserts (mkState [mkRow [97, 98, 99], mkRow [100, 101, 102]] 0 3) 88
      (by decide) (by decide) (by decide) (by decide) (by decide)
  exact ⟨e1, h1, by rw [h2]; decide, by rw [h3]; decide, by rw [h4]; decide,
    by rw [h5]; decide⟩

/-- C8, counterexample: on the empty buffer the cursor is on the virtual last line;
`editorInsertChar` first appends a row (`dirty++` in `editorInsertRow`) and then inserts
the byte (`dirty++` in `editorRowInsertChar`), so `dirty` goes from 0 to 2. -/
theorem editorInsertChar_dirty_twice :
    CursorOK (mkState [] 0 0) ∧
      (editorInsertChar (mkState [] 0 0) 88).map (fun e => e.dirty) = some 2 ∧
      (editorInsertChar (mkState [] 0 0) 88).map (fun e => e.dirty) ≠
        some ((mkState [] 0 0).dirty + 1) := by
  decide

/-- C8, amended: for every valid cursor state and every byte `c`, one call of
`editorInsertChar` returns and increases `dirty` by exactly 1 when the cursor is on an
existing row, and by exactly 2 when it is on the virtual line behind the last row. -/
theorem editorInsertChar_dirty (e : editorConfig) (c : Int) (hb : BufferOK e)
    (hc : CursorOK e) :
    ∃ e1, editorInsertChar e c = some e1 ∧
      e1.dirty = e.dirty + (if e.cy = e.numrows then 2 else 1) := by
  by_cases hcy : e.cy = e.numrows
  · refine ⟨_, editorInsertChar_end e c hb hc hcy, ?_⟩
    rw [if_pos hcy]
    show e.dirty + 1 + 1 = e.dirty + 2
    omega
  · have hlt : e.cy < e.numrows := by have := hc.2.1; omega
    refine ⟨_, editorInsertChar_row e c hb hc hlt, ?_⟩
    rw [if_neg hcy]

/-- The scenario of C8: lines `"abc"`, `"def"`, cursor `(0, 3)`, byte `'X'`; `dirty` goes
from 0 to 1. -/
theorem editorInsertChar_dirty_witness :
    BufferOK (mkState [mkRow [97, 98, 99], mkRow [100, 101, 102]] 0 3) ∧
    CursorOK (mkState [mkRow [97, 98, 99], mkRow [100, 101, 102]] 0 3) ∧
    ∃ e1, editorInsertChar (mkState [mkRow [97, 98, 99], mkRow [100, 101, 102]] 0 3) 88 = some e1 ∧
      e1.dirty = 1 := by
  refine ⟨by decide, by decide, ?_⟩
  obtain ⟨e1, h1, h2⟩ :=
    editorInsertChar_dirty (mkState [mkRow [97, 98, 99], mkRow [100, 101, 102]] 0 3) 88
      (by decide) (by decide)
  exact ⟨e1, h1, by rw [h2]; decide⟩

/-! ## Inserting a line break -/

theorem set_take_succ {α : Type} (row row2 fresh : α) (k : Nat) :
    ∀ rows : List α, rows[k]? = some row →
      (rows.take (k + 1) ++ fresh :: rows.drop (k + 1)).set k row2 =
        rows.take k ++ row2 :: fresh :: rows.drop (k + 1) := by
  induction k with
  | zero =>
    intro rows h
    cases rows with
    | nil => simp at h
    | cons r rs => simp
  | succ k ih =>
    intro rows h
    cases rows with
    | nil => simp at h
    | cons r rs =>
      have h1 : rs[k]? = some row := by simpa using h
      have := ih rs h1
      simp only [List.take_succ_cons, List.drop_succ_cons, List.cons_append, List.set_cons_succ]
      rw [this]

theorem getElem?_take_succ_append {α : Type} (row : α) (k : Nat) (rows rest : List α)
    (h : rows[k]? = some row) : (rows.take (k + 1) ++ rest)[k]? = some row := by
  have hlt : k < rows.length := by
    by_contra hge
    rw [List.getElem?_eq_none (by omega)] at h
    cases h
  rw [List.getElem?_append_left (by simp; omega), List.getElem?_take_of_lt (by omega)]
  exact h

theorem drop_lines (e : editorConfig) (row : erow) (k : Nat) (h : e.row[k]? = some row) :
    (lines e).drop k = row.chars :: (lines e).drop (k + 1) := by
  have hlt : k < e.row.length := by
    by_contra hge
    rw [List.getElem?_eq_none (by omega)] at h
    cases h
  have hk : k < (lines e).length := by simp [lines]; exact hlt
  rw [List.drop_eq_getElem_cons hk]
  have : (lines e)[k] = row.chars := by
    have h2 : (lines e)[k]? = some row.chars := by simp [lines, h]
    rw [List.getElem?_eq_getElem hk] at h2
    exact Option.some.inj h2
  rw [this]

/-- What `editorInsertNewLine` does at the start of a row or on the virtual last line. -/
theorem editorInsertNewLine_cx0 (e : editorConfig) (hb : BufferOK e) (hc : CursorOK e)
    (hcx : e.cx = 0) :
    editorInsertNewLine e = some { e with
      row := e.row.take e.cy.toNat ++ mkRow [] :: e.row.drop e.cy.toNat
      numrows := e.numrows + 1
      dirty := e.dirty + 1
      cy := e.cy + 1
      cx := 0 } := by
  unfold editorInsertNewLine
  simp only [hcx, if_true]
  rw [editorInsertRow_eq e e.cy [] 0 hb.1 hc.1 hc.2.1]
  rfl

/-- What `editorInsertNewLine` does inside or at the end of a row. -/
theorem editorInsertNewLine_split (e : editorConfig) (hb : BufferOK e) (hc : CursorOK e)
    (hcy : e.cy < e.numrows) (hcx : e.cx ≠ 0) :
    editorInsertNewLine e = some { e with
      row := e.row.take e.cy.toNat ++
        mkRow (((lines e).getD e.cy.toNat []).take e.cx.toNat) ::
        mkRow (((lines e).getD e.cy.toNat []).drop e.cx.toNat) :: e.row.drop (e.cy.toNat + 1)
      numrows := e.numrows + 1
      dirty := e.dirty + 1
      cy := e.cy + 1
      cx := 0 } := by
  obtain ⟨row, hr, _, hget, hsz, hcx0, hcx1, hline, hlt⟩ := cursor_row e hb hc hcy
  have hcy0 := hc.1
  unfold editorInsertNewLine
  simp only [hcx, if_false, hr]
  rw [if_neg (by omega), editorInsertRow_eq e (e.cy + 1) _ _ hb.1 (by omega) (by omega)]
  have hk : (e.cy + 1).toNat = e.cy.toNat + 1 := by omega
  have hrow1 : rowAt (e.row.take (e.cy.toNat + 1) ++
      editorUpdateRow (erow.mk (row.size - e.cx) 0
        ((row.chars.drop e.cx.toNat).take (row.size - e.cx).toNat) []) ::
        e.row.drop (e.cy.toNat + 1)) e.cy = some row := by
    unfold rowAt
    rw [if_pos hcy0]
    exact getElem?_take_succ_append row _ _ _ hget
  simp only [hk, hrow1]
  rw [set_take_succ row _ _ _ e.row hget, hline]
  have htake : (row.chars.drop e.cx.toNat).take (row.size - e.cx).toNat =
      row.chars.drop e.cx.toNat := by
    apply List.take_of_length_le
    simp; omega
  rw [htake, editorUpdateRow_eq_mkRow _ (row.chars.take e.cx.toNat) (by simp; omega) rfl,
    editorUpdateRow_eq_mkRow _ (row.chars.drop e.cx.toNat) (by simp; omega) rfl]

/-- C9: for every buffer and every cursor on an existing row (`cy < numrows`,
`0 ≤ cx ≤ size`), `editorInsertNewLine` returns; the new line `cy` is the first `cx` bytes
of the old line `cy`, the new line `cy + 1` is the old line from `cx` to its end, the lines
before and after keep their content and order, `numrows` grows by 1, every `size` still
matches its line, and the cursor is `(cy + 1, 0)`.  The two new lines concatenate to the
old line, and with `cx = 0` the old row itself, untouched, is row `cy + 1`. -/
theorem editorInsertNewLine_splits (e : editorConfig) (hb : BufferOK e) (hc : CursorOK e)
    (hcy : e.cy < e.numrows) :
    ∃ e1, editorInsertNewLine e = some e1 ∧
      lines e1 = (lines e).take e.cy.toNat ++
        ((lines e).getD e.cy.toNat []).take e.cx.toNat ::
        ((lines e).getD e.cy.toNat []).drop e.cx.toNat :: (lines e).drop (e.cy.toNat + 1) ∧
      (lines e1).getD e.cy.toNat [] ++ (lines e1).getD (e.cy.toNat + 1) [] =
        (lines e).getD e.cy.toNat [] ∧
      (e.cx = 0 → rowAt e1.row (e.cy + 1) = rowAt e.row e.cy) ∧
      e1.numrows = e.numrows + 1 ∧ BufferOK e1 ∧ e1.cy = e.cy + 1 ∧ e1.cx = 0 := by
  obtain ⟨row, hr, hmem, hget, hsz, hcx0, hcx1, hline, hlt⟩ := cursor_row e hb hc hcy
  have hcy0 := hc.1
  have hlen : ((lines e).take e.cy.toNat).length = e.cy.toNat := by
    simp [lines]; omega
  have hconcat : ∀ (a b : List Nat) (rest : List (List Nat)),
      ((lines e).take e.cy.toNat ++ a :: b :: rest).getD e.cy.toNat [] ++
        ((lines e).take e.cy.toNat ++ a :: b :: rest).getD (e.cy.toNat + 1) [] = a ++ b := by
    intro a b rest
    rw [List.getD_eq_getElem?_getD, List.getD_eq_getElem?_getD,
      List.getElem?_append_right (by omega), List.getElem?_append_right (by omega), hlen]
    simp
  have hbuf : ∀ (a b : erow), a.size = a.chars.length → b.size = b.chars.length →
      ∀ rest : List erow, (∀ r ∈ rest, r ∈ e.row) →
      ∀ r ∈ e.row.take e.cy.toNat ++ a :: b :: rest, r.size = r.chars.length := by
    intro a b ha hb1 rest hrest r hrmem
    rcases List.mem_append.mp hrmem with h | h
    · exact hb.2 r (List.mem_of_mem_take h)
    · rcases List.mem_cons.mp h with h | h
      · rw [h]; exact ha
      · rcases List.mem_cons.mp h with h | h
        · rw [h]; exact hb1
        · exact hb.2 r (hrest r h)
  by_cases hcx : e.cx = 0
  · refine ⟨_, editorInsertNewLine_cx0 e hb hc hcx, ?_, ?_, ?_, rfl, ?_, rfl, rfl⟩
    · simp only [lines, List.map_append, List.map_cons, List.map_take, List.map_drop, mkRow_chars]
      have := drop_lines e row e.cy.toNat hget
      simp only [lines] at this hline
      rw [this, hcx, hline]
      simp
    · show (lines _).getD e.cy.toNat [] ++ (lines _).getD (e.cy.toNat + 1) [] = _
      simp only [lines, List.map_append, List.map_cons, List.map_take, List.map_drop, mkRow_chars]
      have := drop_lines e row e.cy.toNat hget
      simp only [lines] at this hline hconcat
      rw [this, hconcat, hline]
      simp
    · intro _
      show rowAt (e.row.take e.cy.toNat ++ mkRow [] :: e.row.drop e.cy.toNat) (e.cy + 1) = _
      rw [hr]
      unfold rowAt
      rw [if_pos (by omega)]
      have hk : (e.cy + 1).toNat = e.cy.toNat + 1 := by omega
      have hlen2 : (e.row.take e.cy.toNat).length = e.cy.toNat := by simp; omega
      rw [hk, List.getElem?_append_right (by omega), hlen2]
      simp [hget]
    · refine ⟨?_, ?_⟩
      · show e.numrows + 1 = ((e.row.take e.cy.toNat ++ mkRow [] :: e.row.drop e.cy.toNat).length : Int)
        have := hb.1
        simp
        omega
      · show ∀ r ∈ e.row.take e.cy.toNat ++ mkRow [] :: e.row.drop e.cy.toNat, _
        rw [List.drop_eq_getElem_cons hlt]
        apply hbuf _ _ rfl (hb.2 _ (List.getElem_mem _))
        intro r h
        exact List.mem_of_mem_drop h
  · refine ⟨_, editorInsertNewLine_split e hb hc hcy hcx, ?_, ?_, ?_, rfl, ?_, rfl, rfl⟩
    · simp only [lines, List.map_append, List.map_cons, List.map_take, List.map_drop, mkRow_chars]
    · show (lines _).getD e.cy.toNat [] ++ (lines _).getD (e.cy.toNat + 1) [] = _
      simp only [lines, List.map_append, List.map_cons, List.map_take, List.map_drop, mkRow_chars]
      simp only [lines] at hconcat
      rw [hconcat]
      simp
    · intro h; exact absurd h hcx
    · refine ⟨?_, ?_⟩
      · show e.numrows + 1 = ((e.row.take e.cy.toNat ++ _ :: _ :: e.row.drop (e.cy.toNat + 1)).length : Int)
        have := hb.1
        simp
        omega
      · show ∀ r ∈ e.row.take e.cy.toNat ++ _ :: _ :: e.row.drop (e.cy.toNat + 1), _
        apply hbuf _ _ rfl rfl
        intro r h
        exact List.mem_of_mem_drop h

/-- The scenario of C9 on the lines `"abc"`, `"def"` with the cursor at `(0, 2)`: the
result is `"ab"`, `"c"`, `"def"` with the cursor at `(1, 0)`. -/
theorem editorInsertNewLine_splits_witness :
    BufferOK (mkState [mkRow [97, 98, 99], mkRow [100, 101, 102]] 0 2) ∧
    CursorOK (mkState [mkRow [97, 98, 99], mkRow [100, 101, 102]] 0 2) ∧
    ∃ e1, editorInsertNewLine (mkState [mkRow [97, 98, 99], mkRow [100, 101, 102]] 0 2) = some e1 ∧
      lines e1 = [[97, 98], [99], [100, 101, 102]] ∧ e1.numrows = 3 ∧ e1.cy = 1 ∧ e1.cx = 0 := by
  refine ⟨by decide, by decide, ?_⟩
  obtain ⟨e1, h1, h2, _, _, h3, _, h4, h5⟩ :=
    editorInsertNewLine_splits (mkState [mkRow [97, 98, 99], mkRow [100, 101, 102]] 0 2)
      (by decide) (by decide) (by decide)
  exact ⟨e1, h1, by rw [h2]; decide, by rw [h3]; decide, by rw [h4]; decide, h5⟩

theorem editorInsertNewLine_empty_step (k : Nat) (e : editorConfig)
    (hrow : e.row = List.replicate k (mkRow [])) (hnum : e.numrows = k) (hcy : e.cy = k)
    (hcx : e.cx = 0) :
    ∃ e1, editorInsertNewLine e = some e1 ∧ e1.row = List.replicate (k + 1) (mkRow []) ∧
      e1.numrows = (k + 1 : Nat) ∧ e1.cy = (k + 1 : Nat) ∧ e1.cx = 0 ∧
      e1.dirty = e.dirty + 1 := by
  have hb : BufferOK e := by
    refine ⟨by rw [hnum, hrow]; simp, ?_⟩
    intro r hr
    rw [hrow] at hr
    rw [List.eq_of_mem_replicate hr]
    rfl
  have hc : CursorOK e :=
    ⟨by omega, by omega, fun h => absurd h (by omega), fun _ => hcx⟩
  have hk : e.cy.toNat = k := by omega
  refine ⟨_, editorInsertNewLine_cx0 e hb hc hcx, ?_, ?_, ?_, rfl, rfl⟩
  · show e.row.take e.cy.toNat ++ mkRow [] :: e.row.drop e.cy.toNat = _
    rw [hk, hrow, List.replicate_succ']
    simp
  · show e.numrows + 1 = _
    rw [hnum]; push_cast; rfl
  · show e.cy + 1 = _
    rw [hcy]; push_cast; rfl

theorem editorInsertNewLine_empty_times (n : Nat) :
    ∀ (k : Nat) (e : editorConfig), e.row = List.replicate k (mkRow []) → e.numrows = k →
      e.cy = k → e.cx = 0 →
      ∃ e1, callTimes editorInsertNewLine n e = some e1 ∧
        e1.row = List.replicate (k + n) (mkRow []) ∧ e1.numrows = (k + n : Nat) ∧
        e1.cy = (k + n : Nat) ∧ e1.cx = 0 ∧ e1.dirty = e.dirty + n := by
  induction n with
  | zero =>
    intro k e hrow hnum hcy hcx
    exact ⟨e, rfl, hrow, hnum, hcy, hcx, by simp⟩
  | succ n ih =>
    intro k e hrow hnum hcy hcx
    obtain ⟨e1, h1, hrow1, hnum1, hcy1, hcx1, hd1⟩ :=
      editorInsertNewLine_empty_step k e hrow hnum hcy hcx
    obtain ⟨e2, h2, hrow2, hnum2, hcy2, hcx2, hd2⟩ := ih (k + 1) e1 hrow1 hnum1 hcy1 hcx1
    have hkn : k + 1 + n = k + (n + 1) := by omega
    refine ⟨e2, ?_, by rw [hrow2, hkn], by rw [hnum2, hkn], by rw [hcy2, hkn], hcx2, ?_⟩
    · simp only [callTimes, h1]
      exact h2
    · rw [hd2, hd1]; push_cast; omega

/-- C10: for every `n`, `n` successive calls of `editorInsertNewLine` on the empty buffer
with the cursor at `(0, 0)` all return, and leave `numrows = n`, every row empty (raw and
rendered, with `size = 0`) and the cursor at `(cy, cx) = (n, 0)`. -/
theorem editorInsertNewLine_times_empty (n : Nat) (e : editorConfig) (hrow : e.row = [])
    (hnum : e.numrows = 0) (hcy : e.cy = 0) (hcx : e.cx = 0) :
    ∃ e1, callTimes editorInsertNewLine n e = some e1 ∧ e1.numrows = n ∧
      e1.row = List.replicate n (mkRow []) ∧ (∀ l ∈ lines e1, l = []) ∧
      e1.cy = n ∧ e1.cx = 0 := by
  obtain ⟨e1, h1, hrow1, hnum1, hcy1, hcx1, _⟩ :=
    editorInsertNewLine_empty_times n 0 e (by rw [hrow]; rfl) (by rw [hnum]; rfl)
      (by rw [hcy]; rfl) hcx
  rw [Nat.zero_add] at hrow1 hnum1 hcy1
  refine ⟨e1, h1, hnum1, hrow1, ?_, hcy1, hcx1⟩
  intro l hl
  rw [lines, hrow1, List.map_replicate] at hl
  rw [List.eq_of_mem_replicate hl]
  rfl

/-- The scenario of C10 with `n = 2`: two line breaks on the empty buffer give two empty
lines and the cursor at `(2, 0)`. -/
theorem editorInsertNewLine_times_empty_witness :
    (mkState [] 0 0).row = [] ∧ (mkState [] 0 0).numrows = 0 ∧ (mkState [] 0 0).cy = 0 ∧
    (mkState [] 0 0).cx = 0 ∧
    ∃ e1, callTimes editorInsertNewLine 2 (mkState [] 0 0) = some e1 ∧ e1.numrows = 2 ∧
      lines e1 = [[], []] ∧ e1.cy = 2 ∧ e1.cx = 0 := by
  refine ⟨rfl, rfl, rfl, rfl, ?_⟩
  obtain ⟨e1, h1, h2, h3, _, h4, h5⟩ :=
    editorInsertNewLine_times_empty 2 (mkState [] 0 0) rfl rfl rfl rfl
  exact ⟨e1, h1, h2, by rw [lines, h3]; decide, h4, h5⟩

/-! ## Merging a row into the one before it -/

/-- The merge of C5 where it is right, on the last row of the buffer: with the cursor at
`(cy, 0)`, `0 < cy = numrows - 1`, `editorDelChar` returns; the lines before `cy - 1` are
unchanged, line `cy - 1` is the concatenation of the old lines `cy - 1` and `cy`, `numrows`
shrinks by 1 and the cursor is `(cy - 1, former length of line cy - 1)`. -/
theorem editorDelChar_merge_last (e : editorConfig) (hb : BufferOK e) (hc : CursorOK e)
    (hcx : e.cx = 0) (hcy0 : 0 < e.cy) (hlast : e.cy = e.numrows - 1) :
    ∃ e1, editorDelChar e = some e1 ∧
      lines e1 = (lines e).take (e.cy.toNat - 1) ++
        [(lines e).getD (e.cy.toNat - 1) [] ++ (lines e).getD e.cy.toNat []] ∧
      e1.numrows = e.numrows - 1 ∧ e1.cy = e.cy - 1 ∧
      e1.cx = ((lines e).getD (e.cy.toNat - 1) []).length := by
  obtain ⟨row, hr, _, hget, hsz, _, _, hline, hlt⟩ := cursor_row e hb hc (by omega)
  obtain ⟨prev, hp, hpmem, hpget⟩ := rowAt_of_lt e.row (e.cy - 1) (by omega)
    (by have := hb.1; omega)
  have hpsz := hb.2 prev hpmem
  have hk : (e.cy - 1).toNat = e.cy.toNat - 1 := by omega
  have hpget2 : e.row[e.cy.toNat - 1]? = some prev := by rw [← hk]; exact hpget
  have hpline : (lines e).getD (e.cy.toNat - 1) [] = prev.chars := by
    rw [List.getD_eq_getElem?_getD]
    simp [lines, hpget2]
  have hmerged : editorUpdateRow { prev with
      chars := prev.chars.take prev.size.toNat ++ row.chars.take row.size.toNat
      size := prev.size + row.size } = mkRow (prev.chars ++ row.chars) := by
    apply editorUpdateRow_eq_mkRow
    · simp; omega
    · have h1 : prev.size.toNat = prev.chars.length := by omega
      have h2 : row.size.toNat = row.chars.length := by omega
      simp [h1, h2]
  have hdel : editorDelRow
      { e with cx := prev.size, row := e.row.set (e.cy - 1).toNat (mkRow (prev.chars ++ row.chars)),
               dirty := e.dirty + 1 } e.cy =
      some { e with cx := prev.size,
                    row := (e.row.set (e.cy - 1).toNat (mkRow (prev.chars ++ row.chars))).take
                      e.cy.toNat,
                    numrows := e.numrows - 1, dirty := e.dirty + 1 + 1 } :=
    editorDelRow_last
      { e with cx := prev.size, row := e.row.set (e.cy - 1).toNat (mkRow (prev.chars ++ row.chars)),
               dirty := e.dirty + 1 }
      e.cy (by simp; exact hb.1) (by omega) hlast
  unfold editorDelChar
  rw [if_neg (by omega), if_neg (by omega)]
  simp only [hr]
  rw [if_neg (by omega)]
  simp only [hp]
  unfold editorRowAppendString
  simp only [hp]
  rw [if_neg (by omega), hmerged]
  simp only [hdel]
  refine ⟨_, rfl, ?_, rfl, rfl, ?_⟩
  · rw [hpline, hline]
    have hn1 : e.cy.toNat = (e.cy.toNat - 1) + 1 := by omega
    have hlt2 : e.cy.toNat - 1 < e.row.length := by omega
    simp only [lines, hk]
    rw [hn1]
    simp only [Nat.add_sub_cancel]
    rw [List.set_eq_take_append_cons_drop, if_pos hlt2, List.take_append_eq_append_take]
    simp [List.length_take, Nat.min_eq_left (Nat.le_of_lt hlt2), List.map_take]
    rw [List.take_take, mkRow_chars]
    simp
  · show prev.size = _
    rw [hpline]; exact hpsz

/-- The scenario of C5: lines `"abc"`, `"def"`, cursor `(1, 0)`; `editorDelChar` leaves the
single line `"abcdef"` and the cursor at `(0, 3)`. -/
theorem editorDelChar_merge_last_witness :
    BufferOK (mkState [mkRow [97, 98, 99], mkRow [100, 101, 102]] 1 0) ∧
    CursorOK (mkState [mkRow [97, 98, 99], mkRow [100, 101, 102]] 1 0) ∧
    ∃ e1, editorDelChar (mkState [mkRow [97, 98, 99], mkRow [100, 101, 102]] 1 0) = some e1 ∧
      lines e1 = [[97, 98, 99, 100, 101, 102]] ∧ e1.numrows = 1 ∧ e1.cy = 0 ∧ e1.cx = 3 := by
  refine ⟨by decide, by decide, ?_⟩
  obtain ⟨e1, h1, h2, h3, h4, h5⟩ :=
    editorDelChar_merge_last (mkState [mkRow [97, 98, 99], mkRow [100, 101, 102]] 1 0)
      (by decide) (by decide) (by decide) (by decide) (by decide)
  exact ⟨e1, h1, by rw [h2]; decide, by rw [h3]; decide, by rw [h4]; decide,
    by rw [h5]; decide⟩


/-! ## Deleting a byte -/

/-- What `editorDelChar` does behind a byte of a row. -/
theorem editorDelChar_row (e : editorConfig) (hb : BufferOK e) (hc : CursorOK e)
    (hcy : e.cy < e.numrows) (hcx : 0 < e.cx) :
    editorDelChar e = some { e with
      row := e.row.set e.cy.toNat
        (mkRow (((lines e).getD e.cy.toNat []).eraseIdx (e.cx.toNat - 1)))
      dirty := e.dirty + 1
      cx := e.cx - 1 } := by
  obtain ⟨row, hr, _, _, hsz, hcx0, hcx1, hline, _⟩ := cursor_row e hb hc hcy
  unfold editorDelChar
  rw [if_neg (by omega), if_neg (by omega)]
  simp only [hr]
  rw [if_pos (by omega)]
  unfold editorRowDelChar
  simp only [hr]
  rw [if_neg (by omega), hline]
  have hk : (e.cx - 1).toNat = e.cx.toNat - 1 := by omega
  rw [hk, editorUpdateRow_eq_mkRow _ (row.chars.eraseIdx (e.cx.toNat - 1))
    (by simp [List.length_eraseIdx]; split <;> omega) rfl]

/-- C11: for every buffer and every cursor behind a byte of an existing row
(`cy < numrows`, `0 < cx ≤ size`), `editorDelChar` returns; line `cy` loses exactly the
byte at index `cx - 1` (the bytes before and after it keep their order), every other row
and `numrows` are unchanged, and the cursor is `(cy, cx - 1)`.  With the cursor at
`(0, 0)` `editorDelChar` returns the state as it is: buffer, cursor and `dirty`. -/
theorem editorDelChar_deletes (e : editorConfig) (hb : BufferOK e) (hc : CursorOK e) :
    (e.cy < e.numrows → 0 < e.cx →
      ∃ e1, editorDelChar e = some e1 ∧
        e1.row = e.row.set e.cy.toNat
          (mkRow (((lines e).getD e.cy.toNat []).take (e.cx.toNat - 1) ++
            ((lines e).getD e.cy.toNat []).drop e.cx.toNat)) ∧
        lines e1 = (lines e).set e.cy.toNat
          (((lines e).getD e.cy.toNat []).take (e.cx.toNat - 1) ++
            ((lines e).getD e.cy.toNat []).drop e.cx.toNat) ∧
        e1.numrows = e.numrows ∧ e1.cy = e.cy ∧ e1.cx = e.cx - 1) ∧
    (e.cy = 0 → e.cx = 0 → editorDelChar e = some e) := by
  refine ⟨?_, ?_⟩
  · intro hcy hcx
    have hk : e.cx.toNat - 1 + 1 = e.cx.toNat := by omega
    have herase : ∀ l : List Nat, l.eraseIdx (e.cx.toNat - 1) =
        l.take (e.cx.toNat - 1) ++ l.drop e.cx.toNat := by
      intro l
      rw [List.eraseIdx_eq_take_drop_succ, hk]
    refine ⟨_, editorDelChar_row e hb hc hcy hcx, ?_, ?_, rfl, rfl, rfl⟩
    · simp only [herase]
    · simp only [herase, lines, List.map_set, mkRow_chars]
  · intro hcy hcx
    unfold editorDelChar
    by_cases h : e.cy = e.numrows
    · rw [if_pos h]
    · rw [if_neg h, if_pos ⟨hcx, hcy⟩]

/-- The deletion of C11 on the lines `"abc"`, `"def"` with the cursor at `(1, 2)`: the
result is `"abc"`, `"df"` with the cursor at `(1, 1)`; and at `(0, 0)` nothing changes. -/
theorem editorDelChar_deletes_witness :
    BufferOK (mkState [mkRow [97, 98, 99], mkRow [100, 101, 102]] 1 2) ∧
    CursorOK (mkState [mkRow [97, 98, 99], mkRow [100, 101, 102]] 1 2) ∧
    ∃ e1, editorDelChar (mkState [mkRow [97, 98, 99], mkRow [100, 101, 102]] 1 2) = some e1 ∧
      lines e1 = [[97, 98, 99], [100, 102]] ∧ e1.numrows = 2 ∧ e1.cy = 1 ∧ e1.cx = 1 := by
  refine ⟨by decide, by decide, ?_⟩
  obtain ⟨e1, h1, _, h2, h3, h4, h5⟩ :=
    (editorDelChar_deletes (mkState [mkRow [97, 98, 99], mkRow [100, 101, 102]] 1 2)
      (by decide) (by decide)).1 (by decide) (by decide)
  exact ⟨e1, h1, by rw [h2]; decide, by rw [h3]; decide, by rw [h4]; decide,
    by rw [h5]; decide⟩

/-! ## The render form is the tab expansion -/

theorem pad_eq (n : Nat) : ∀ render : List Nat, (8 - render.length % 8) % 8 ≤ n →
    editorUpdateRow.pad n render =
      render ++ List.replicate ((8 - render.length % 8) % 8) SPACE := by
  induction n with
  | zero =>
    intro render h
    have h0 : (8 - render.length % 8) % 8 = 0 := by omega
    simp [editorUpdateRow.pad, h0]
  | succ n ih =>
    intro render h
    unfold editorUpdateRow.pad TAB_STOP
    rw [Int.tmod_eq_emod (Int.ofNat_nonneg _) (by decide)]
    by_cases hz : ((render.length : Int) % 8) ≠ 0
    · rw [if_pos hz]
      have hlen : (render ++ [SPACE]).length = render.length + 1 := by simp
      rw [ih (render ++ [SPACE]) (by rw [hlen]; omega), hlen]
      have hk : (8 - render.length % 8) % 8 = (8 - (render.length + 1) % 8) % 8 + 1 := by omega
      rw [hk, List.replicate_succ]
      simp
    · rw [if_neg hz]
      have h0 : (8 - render.length % 8) % 8 = 0 := by omega
      simp [h0]

theorem updateRow_loop_eq (bs : List Nat) : ∀ render : List Nat,
    editorUpdateRow.loop bs render = render ++ tabExpansion.go render.length bs := by
  induction bs with
  | nil => intro render; simp [editorUpdateRow.loop, tabExpansion.go]
  | cons b bs ih =>
    intro render
    unfold editorUpdateRow.loop tabExpansion.go
    by_cases hb : b = TAB
    · rw [if_pos hb, if_pos hb]
      have hfuel : TAB_STOP.toNat = 8 := by decide
      have hlen : (render ++ [SPACE]).length = render.length + 1 := by simp
      rw [hfuel, pad_eq 8 (render ++ [SPACE]) (by omega), ih, hlen]
      have hk : 8 - render.length % 8 = (8 - (render.length + 1) % 8) % 8 + 1 := by omega
      have hl : (render ++ [SPACE] ++ List.replicate ((8 - (render.length + 1) % 8) % 8) SPACE).length
          = render.length + (8 - render.length % 8) := by
        simp; omega
      rw [hl, hk, List.replicate_succ]
      simp
    · rw [if_neg hb, if_neg hb, ih]
      simp

/-- The row that `editorUpdateRow` builds from the bytes `s` has the tab expansion of `s`
as its render form. -/
theorem mkRow_eq (s : List Nat) :
    mkRow s = erow.mk s.length (tabExpansion s).length s (tabExpansion s) := by
  have h := updateRow_loop_eq s []
  simp only [List.nil_append, List.length_nil] at h
  simp [mkRow, editorUpdateRow, tabExpansion, h]

/-! ## Inserting a row -/

/-- C17: for every buffer, every index `0 ≤ at ≤ numrows` and every byte string `s`,
`editorInsertRow(at, s, len(s))` yields the rows before `at`, then the new row with raw
content `s` and render form the tab expansion of `s`, then the old rows from `at` on;
`numrows` and `dirty` grow by 1.  For `at < 0` or `at > numrows` the state is unchanged. -/
theorem editorInsertRow_inserts (e : editorConfig) (at_ : Int) (s : List Nat)
    (hn : e.numrows = e.row.length) :
    (0 ≤ at_ → at_ ≤ e.numrows →
      (editorInsertRow e at_ s s.length).row =
          e.row.take at_.toNat ++
            erow.mk s.length (tabExpansion s).length s (tabExpansion s) ::
              e.row.drop at_.toNat ∧
        lines (editorInsertRow e at_ s s.length) =
          (lines e).take at_.toNat ++ s :: (lines e).drop at_.toNat ∧
        (editorInsertRow e at_ s s.length).numrows = e.numrows + 1 ∧
        (editorInsertRow e at_ s s.length).dirty = e.dirty + 1) ∧
    (at_ < 0 ∨ at_ > e.numrows → editorInsertRow e at_ s s.length = e) := by
  refine ⟨?_, ?_⟩
  · intro h0 h1
    have hrow : editorUpdateRow (erow.mk (s.length : Int) 0
        (List.take ((s.length : Int)).toNat s) []) = mkRow s := by
      apply editorUpdateRow_eq_mkRow
      · rfl
      · simp
    rw [editorInsertRow_eq e at_ s s.length hn h0 h1, hrow, mkRow_eq]
    refine ⟨rfl, ?_, rfl, rfl⟩
    simp [lines, List.map_take, List.map_drop]
  · intro h
    unfold editorInsertRow
    rw [if_pos h]

/-- The insertion of C17 of the row `"\tx"` at index 1 of `"abc"`, `"def"`. -/
theorem editorInsertRow_inserts_witness :
    (mkState [mkRow [97, 98, 99], mkRow [100, 101, 102]] 0 0).numrows =
      ((mkState [mkRow [97, 98, 99], mkRow [100, 101, 102]] 0 0).row.length : Int) ∧
    lines (editorInsertRow (mkState [mkRow [97, 98, 99], mkRow [100, 101, 102]] 0 0) 1
      [9, 120] ([9, 120] : List Nat).length) = [[97, 98, 99], [9, 120], [100, 101, 102]] := by
  refine ⟨by decide, ?_⟩
  have h := ((editorInsertRow_inserts
    (mkState [mkRow [97, 98, 99], mkRow [100, 101, 102]] 0 0) 1 [9, 120] (by decide)).1
      (by decide) (by decide)).2.1
  rw [h]
  decide

/-! ## Serialising the buffer -/

theorem rowsToString_totlen (rows : List erow) : ∀ acc : Int,
    rows.foldl (fun t r => t + (r.size + 1)) acc = acc + (rows.map fun r => r.size + 1).sum := by
  induction rows with
  | nil => intro acc; simp
  | cons r rs ih =>
    intro acc
    rw [List.foldl_cons, ih]
    simp
    omega

theorem flatten_lines_length (rows : List erow) (h : ∀ r ∈ rows, r.size = r.chars.length) :
    (((rows.map fun r => r.chars ++ [NL]).flatten.length : Nat) : Int) =
      (rows.map fun r => r.size + 1).sum := by
  induction rows with
  | nil => simp
  | cons r rs ih =>
    have hr := h r (List.mem_cons_self _ _)
    have := ih (fun r1 h1 => h r1 (List.mem_cons_of_mem _ h1))
    simp only [List.map_cons, List.flatten_cons, List.length_append, List.sum_cons,
      List.length_singleton]
    push_cast
    omega

/-- C18: for every buffer `editorRowsToString` returns the concatenation, in document
order, of each line's raw bytes followed by one `'\n'`, and reports as length the sum over
all lines of `size + 1`, which is the length of that byte sequence; for the empty buffer
the result is the empty byte sequence and the length 0. -/
theorem editorRowsToString_concat (e : editorConfig) (hb : BufferOK e) :
    (editorRowsToString e).1 = (e.row.map fun r => r.chars ++ [NL]).flatten ∧
      (editorRowsToString e).2 = (e.row.map fun r => r.size + 1).sum ∧
      (editorRowsToString e).2 = ((editorRowsToString e).1.length : Int) ∧
      (e.row = [] → editorRowsToString e = ([], 0)) := by
  have ht : List.take e.numrows.toNat e.row = e.row := by
    rw [hb.1]; simp
  have h1 : (editorRowsToString e).1 = (e.row.map fun r => r.chars ++ [NL]).flatten := by
    unfold editorRowsToString
    simp only [ht]
    rw [rowsToString_foldl e.row hb.2 []]
    simp
  have h2 : (editorRowsToString e).2 = (e.row.map fun r => r.size + 1).sum := by
    unfold editorRowsToString
    simp only [ht]
    rw [rowsToString_totlen e.row 0]
    simp
  refine ⟨h1, h2, ?_, ?_⟩
  · rw [h2, h1, flatten_lines_length e.row hb.2]
  · intro hrow
    have h3 : editorRowsToString e = ((editorRowsToString e).1, (editorRowsToString e).2) := rfl
    rw [h3, h1, h2, hrow]
    rfl

/-- The serialisation of C18 on the lines `"abc"`, `""`, `"d"`. -/
theorem editorRowsToString_concat_witness :
    BufferOK (mkState [mkRow [97, 98, 99], mkRow [], mkRow [100]] 0 0) ∧
    editorRowsToString (mkState [mkRow [97, 98, 99], mkRow [], mkRow [100]] 0 0) =
      ([97, 98, 99, 10, 10, 100, 10], 7) := by
  refine ⟨by decide, ?_⟩
  have h := editorRowsToString_concat (mkState [mkRow [97, 98, 99], mkRow [], mkRow [100]] 0 0)
    (by decide)
  have h3 : editorRowsToString (mkState [mkRow [97, 98, 99], mkRow [], mkRow [100]] 0 0) =
    ((editorRowsToString (mkState [mkRow [97, 98, 99], mkRow [], mkRow [100]] 0 0)).1,
     (editorRowsToString (mkState [mkRow [97, 98, 99], mkRow [], mkRow [100]] 0 0)).2) := rfl
  rw [h3, h.1, h.2.1]
  decide

/-! ## Inserting a byte on the virtual last line -/

/-- C19: for every buffer with the cursor on the virtual line behind the last row
(`cy = numrows`, `cx = 0`) and every byte `c`, `editorInsertChar` returns; it appends one
row whose raw content is the single byte `c`, leaves every old row unchanged, increases
`numrows` by 1 and leaves the cursor at `(cy, 1)`, on the new row. -/
theorem editorInsertChar_appends (e : editorConfig) (c : Int) (hb : BufferOK e)
    (hc : CursorOK e) (hcy : e.cy = e.numrows) (hc0 : 0 ≤ c) (hc1 : c < 256) :
    ∃ e1, editorInsertChar e c = some e1 ∧ e1.row = e.row ++ [mkRow [c.toNat]] ∧
      lines e1 = lines e ++ [[c.toNat]] ∧ e1.numrows = e.numrows + 1 ∧ e1.cy = e.cy ∧
      e1.cx = 1 ∧ rowAt e1.row e1.cy = some (mkRow [c.toNat]) := by
  have hbyte : byteOfInt c = c.toNat := by unfold byteOfInt; omega
  refine ⟨_, editorInsertChar_end e c hb hc hcy, ?_, ?_, rfl, rfl, rfl, ?_⟩
  · simp only [hbyte]
  · simp only [hbyte, lines, List.map_append, List.map_cons, List.map_nil, mkRow_chars]
  · show rowAt (e.row ++ [mkRow [byteOfInt c]]) e.cy = _
    have hlen : e.cy.toNat = e.row.length := by have := hb.1; omega
    unfold rowAt
    rw [if_pos hc.1, hlen, List.getElem?_concat_length, hbyte]

/-- The insertion of C19 on the lines `"abc"` with the cursor at `(1, 0)` and the byte
`'X'`: the result is `"abc"`, `"X"` with the cursor at `(1, 1)`. -/
theorem editorInsertChar_appends_witness :
    BufferOK (mkState [mkRow [97, 98, 99]] 1 0) ∧ CursorOK (mkState [mkRow [97, 98, 99]] 1 0) ∧
    ∃ e1, editorInsertChar (mkState [mkRow [97, 98, 99]] 1 0) 88 = some e1 ∧
      lines e1 = [[97, 98, 99], [88]] ∧ e1.numrows = 2 ∧ e1.cy = 1 ∧ e1.cx = 1 := by
  refine ⟨by decide, by decide, ?_⟩
  obtain ⟨e1, h1, _, h2, h3, h4, h5, _⟩ :=
    editorInsertChar_appends (mkState [mkRow [97, 98, 99]] 1 0) 88
      (by decide) (by decide) (by decide) (by decide) (by decide)
  exact ⟨e1, h1, by rw [h2]; decide, by rw [h3]; decide, by rw [h4]; decide, h5⟩

/-! ## The scroll is minimal -/

/-- The state that `editorScroll` returns, field by field. -/
theorem editorScroll_fields (e : editorConfig) (hb : BufferOK e) (hc : CursorOK e) :
    ∃ e1, editorScroll e = some e1 ∧
      e1.rx = (match rowAt e.row e.cy with
        | some r => editorRowCxtoRx r e.cx
        | none => 0) ∧
      e1.rowoff = (if e.cy ≥ (if e.cy < e.rowoff then e.cy else e.rowoff) + e.screenrows
        then e.cy - e.screenrows + 1 else (if e.cy < e.rowoff then e.cy else e.rowoff)) ∧
      e1.coloff = (if e1.rx ≥ (if e1.rx < e.coloff then e1.rx else e.coloff) + e.screencols
        then e1.rx - e.screencols + 1 else (if e1.rx < e.coloff then e1.rx else e.coloff)) ∧
      e1.cx = e.cx ∧ e1.cy = e.cy ∧ e1.screenrows = e.screenrows ∧
      e1.screencols = e.screencols ∧ e1.numrows = e.numrows ∧ e1.row = e.row ∧
      e1.dirty = e.dirty ∧ e1.filename = e.filename ∧ e1.statusmsg = e.statusmsg ∧
      e1.statusmsg_time = e.statusmsg_time := by
  obtain ⟨hcy0, hcy1, _, _⟩ := hc
  unfold editorScroll
  by_cases hlt : e.cy < e.numrows
  · obtain ⟨r, hrow, _, _⟩ := rowAt_of_lt e.row e.cy hcy0 (by rw [← hb.1]; omega)
    simp only [hlt, hrow, if_true]
    split_ifs <;> simp at * <;> omega
  · simp only [hlt, if_false, rowAt_of_ge e.row e.cy (by rw [← hb.1]; omega)]
    split_ifs <;> simp at * <;> omega

theorem editorConfig_eq (a b : editorConfig) (h1 : a.cx = b.cx) (h2 : a.cy = b.cy)
    (h3 : a.rx = b.rx) (h4 : a.rowoff = b.rowoff) (h5 : a.coloff = b.coloff)
    (h6 : a.screenrows = b.screenrows) (h7 : a.screencols = b.screencols)
    (h8 : a.numrows = b.numrows) (h9 : a.row = b.row) (h10 : a.dirty = b.dirty)
    (h11 : a.filename = b.filename) (h12 : a.statusmsg = b.statusmsg)
    (h13 : a.statusmsg_time = b.statusmsg_time) : a = b := by
  cases a; cases b; simp_all

/-- C20: for every valid state with a window of at least one row and one column, the
offsets that `editorScroll` chooses put the cursor in the window and are the closest to the
old ones: every row offset `r` with `r ≤ cy < r + screenrows` is at least as far from the
old `rowoff` as the new `rowoff`, and every column offset `c` with
`c ≤ rx < c + screencols` is at least as far from the old `coloff` as the new `coloff`.
When the cursor is inside the window already the offsets are unchanged, and a second
`editorScroll` changes nothing. -/
theorem editorScroll_minimal (e : editorConfig) (hb : BufferOK e) (hc : CursorOK e)
    (hr : 1 ≤ e.screenrows) (hcol : 1 ≤ e.screencols) :
    ∃ e1, editorScroll e = some e1 ∧
      (e1.rowoff ≤ e1.cy ∧ e1.cy < e1.rowoff + e1.screenrows ∧
        e1.coloff ≤ e1.rx ∧ e1.rx < e1.coloff + e1.screencols) ∧
      (∀ r : Int, r ≤ e1.cy → e1.cy < r + e1.screenrows →
        (e1.rowoff - e.rowoff).natAbs ≤ (r - e.rowoff).natAbs) ∧
      (∀ c : Int, c ≤ e1.rx → e1.rx < c + e1.screencols →
        (e1.coloff - e.coloff).natAbs ≤ (c - e.coloff).natAbs) ∧
      (e.rowoff ≤ e.cy → e.cy < e.rowoff + e.screenrows → e1.rowoff = e.rowoff) ∧
      (e.coloff ≤ e1.rx → e1.rx < e.coloff + e.screencols → e1.coloff = e.coloff) ∧
      editorScroll e1 = some e1 := by
  obtain ⟨e1, h1, hrx, hro, hco, hcx, hcy, hsr, hsc, hnum, hrow, hd, hf, hs, ht⟩ :=
    editorScroll_fields e hb hc
  have hb1 : BufferOK e1 := by unfold BufferOK; rw [hnum, hrow]; exact hb
  have hc1 : CursorOK e1 := by unfold CursorOK; rw [hnum, hrow, hcx, hcy]; exact hc
  obtain ⟨e2, h2, hrx2, hro2, hco2, hcx2, hcy2, hsr2, hsc2, hnum2, hrow2, hd2, hf2, hs2, ht2⟩ :=
    editorScroll_fields e1 hb1 hc1
  have hwin : e1.rowoff ≤ e1.cy ∧ e1.cy < e1.rowoff + e1.screenrows ∧
      e1.coloff ≤ e1.rx ∧ e1.rx < e1.coloff + e1.screencols := by
    rw [hro, hco, hcy, hsr, hsc]
    split_ifs <;> omega
  refine ⟨e1, h1, hwin, ?_, ?_, ?_, ?_, ?_⟩
  · intro r hr1 hr2
    rw [hro]
    rw [hcy] at hr1 hr2
    rw [hsr] at hr2
    split_ifs <;> omega
  · intro c hc1 hc2
    rw [hco]
    rw [hsc] at hc2
    split_ifs <;> omega
  · intro h3 h4
    rw [hro]
    split_ifs <;> omega
  · intro h3 h4
    rw [hco]
    split_ifs <;> omega
  · rw [h2]
    congr 1
    have hrxeq : e2.rx = e1.rx := by rw [hrx2, hrx, hrow, hcy, hcx]
    apply editorConfig_eq <;> try assumption
    · rw [hro2]
      split_ifs <;> omega
    · rw [hco2, hrxeq]
      split_ifs <;> omega

/-- The scroll of C20 on the lines `"abc"` and twelve tabs with the cursor behind the
eleventh tab (render column 88) in an 80 by 22 window at the top left: the column offset
becomes 9, the nearest one that shows column 88, and the row offset stays 0. -/
theorem editorScroll_minimal_witness :
    BufferOK (mkState [mkRow [97, 98, 99], mkRow [9, 9, 9, 9, 9, 9, 9, 9, 9, 9, 9, 9]] 1 11) ∧
    CursorOK (mkState [mkRow [97, 98, 99], mkRow [9, 9, 9, 9, 9, 9, 9, 9, 9, 9, 9, 9]] 1 11) ∧
    ∃ e1, editorScroll
        (mkState [mkRow [97, 98, 99], mkRow [9, 9, 9, 9, 9, 9, 9, 9, 9, 9, 9, 9]] 1 11) = some e1 ∧
      editorScroll e1 = some e1 := by
  refine ⟨by decide, by decide, ?_⟩
  obtain ⟨e1, h1, _, _, _, _, _, h2⟩ :=
    editorScroll_minimal
      (mkState [mkRow [97, 98, 99], mkRow [9, 9, 9, 9, 9, 9, 9, 9, 9, 9, 9, 9]] 1 11)
      (by decide) (by decide) (by decide) (by decide)
  exact ⟨e1, h1, h2⟩

/-! ## Decoding keys -/

theorem wait_skips (pre : List (Option Nat)) (hpre : ∀ r ∈ pre, r = none) (b : Nat)
    (rest : List (Option Nat)) :
    editorReadKey.wait (pre ++ some b :: rest) = some (b, rest) := by
  induction pre with
  | nil => rfl
  | cons r pre ih =>
    have hr := hpre r (List.mem_cons_self _ _)
    subst hr
    rw [List.cons_append, editorReadKey.wait]
    exact ih (fun r1 h1 => hpre r1 (List.mem_cons_of_mem _ h1))

set_option maxHeartbeats 1000000 in
/-- Behind an ESC byte `editorReadKey` returns the key of the reference table. -/
theorem readKey_escape (rest : List (Option Nat)) :
    (editorReadKey (some 27 :: rest)).map Prod.fst = some (escapeReference rest) := by
  unfold editorReadKey
  simp only [editorReadKey.wait, if_true]
  rcases rest with _ | ⟨_ | a, rest⟩
  · rfl
  · rfl
  · rcases rest with _ | ⟨_ | b, rest⟩
    · simp [readByte, escapeReference, escapeTable]
    · simp [readByte, escapeReference, escapeTable]
    · have hd : (48 ≤ b ∧ b ≤ 57) → b ≠ 65 ∧ b ≠ 66 ∧ b ≠ 67 ∧ b ≠ 68 ∧ b ≠ 72 ∧ b ≠ 70 := by
        omega
      have hn : ¬ (48 ≤ b ∧ b ≤ 57) → b ≠ 49 ∧ b ≠ 51 ∧ b ≠ 52 ∧ b ≠ 53 ∧ b ≠ 54 ∧ b ≠ 55 ∧
          b ≠ 56 := by omega
      rcases rest with _ | ⟨_ | c, rest⟩
      · simp only [readByte, escapeReference, escapeTable]
        split_ifs <;> simp_all [List.find?, ESC, HOME_KEY, END_KEY, ARROW_UP, ARROW_DOWN, ARROW_LEFT, ARROW_RIGHT, DEL_KEY, PAGE_UP, PAGE_DOWN]
      · simp only [readByte, escapeReference, escapeTable]
        split_ifs <;> simp_all [List.find?, ESC, HOME_KEY, END_KEY, ARROW_UP, ARROW_DOWN, ARROW_LEFT, ARROW_RIGHT, DEL_KEY, PAGE_UP, PAGE_DOWN]
      · simp only [readByte, escapeReference, escapeTable]
        split_ifs <;> simp_all [List.find?, ESC, HOME_KEY, END_KEY, ARROW_UP, ARROW_DOWN, ARROW_LEFT, ARROW_RIGHT, DEL_KEY, PAGE_UP, PAGE_DOWN]

/-- C15: on a stream of read results (a byte or a timeout), `editorReadKey` skips the
timeouts in front of the first byte and returns.  When that byte is ESC the key is the one
of the escape table: the arrows, Home and End for `[` then `A`, `B`, `C`, `D`, `H`, `F`;
Home, Del, End, Page Up, Page Down, Home, End for `[` then `1`, `3`, `4`, `5`, `6`, `7`,
`8` then `~`; Home and End for `O` then `H`, `F`; and ESC for every other continuation, a
timeout at one of the following reads included.  When the first byte is not ESC, it is
the key. -/
theorem editorReadKey_decodes (pre : List (Option Nat)) (hpre : ∀ r ∈ pre, r = none) (b : Nat)
    (rest : List (Option Nat)) :
    (editorReadKey (pre ++ some b :: rest)).map Prod.fst =
      some (if b = 27 then escapeReference rest else (b : Int)) := by
  have hsame : editorReadKey (pre ++ some b :: rest) = editorReadKey (some b :: rest) := by
    unfold editorReadKey
    rw [wait_skips pre hpre b rest]
    rfl
  rw [hsame]
  by_cases hb : b = 27
  · subst hb
    rw [if_pos rfl]
    exact readKey_escape rest
  · rw [if_neg hb]
    unfold editorReadKey
    simp only [editorReadKey.wait, if_neg hb, Option.map_some']

/-- The decoding of C15 behind two timeouts: ESC `[` `5` `~` is Page Up, ESC `[` `A` is the
up arrow, ESC `O` `F` is End, ESC `[` `5` followed by a timeout is ESC, and the byte `a` is
the key 97. -/
theorem editorReadKey_decodes_witness :
    (∀ r ∈ [(none : Option Nat), none], r = none) ∧
    (editorReadKey ([none, none] ++ some 27 :: [some 91, some 53, some 126, some 7])).map
      Prod.fst = some PAGE_UP ∧
    (editorReadKey ([none, none] ++ some 27 :: [some 91, some 65])).map Prod.fst =
      some ARROW_UP ∧
    (editorReadKey ([none, none] ++ some 27 :: [some 79, some 70])).map Prod.fst =
      some END_KEY ∧
    (editorReadKey ([none, none] ++ some 27 :: [some 91, some 53, none])).map Prod.fst =
      some ESC ∧
    (editorReadKey ([none, none] ++ some 97 :: [some 7])).map Prod.fst = some 97 := by
  have hpre : ∀ r ∈ [(none : Option Nat), none], r = none := by decide
  refine ⟨hpre, ?_, ?_, ?_, ?_, ?_⟩
  · rw [editorReadKey_decodes [none, none] hpre 27 [some 91, some 53, some 126, some 7]]
    decide
  · rw [editorReadKey_decodes [none, none] hpre 27 [some 91, some 65]]
    decide
  · rw [editorReadKey_decodes [none, none] hpre 27 [some 79, some 70]]
    decide
  · rw [editorReadKey_decodes [none, none] hpre 27 [some 91, some 53, none]]
    decide
  · rw [editorReadKey_decodes [none, none] hpre 97 [some 7]]
    decide

/-! ## Searching -/

theorem scan_isSome (needle : List Nat) : ∀ (hay : List Nat) (off : Nat),
    (strstr.scan needle hay off).isSome = decide (needle <:+: hay) := by
  intro hay
  induction hay with
  | nil =>
    intro off
    unfold strstr.scan
    by_cases h : needle <+: []
    · rw [if_pos h]
      have : needle <:+: [] := h.isInfix
      simp [this]
    · rw [if_neg h]
      have : ¬ needle <:+: [] := by
        intro h2
        apply h
        have := List.infix_nil.mp h2
        rw [this]
      simp [this]
  | cons b bs ih =>
    intro off
    unfold strstr.scan
    by_cases h : needle <+: b :: bs
    · rw [if_pos h]
      have : needle <:+: b :: bs := h.isInfix
      simp [this]
    · rw [if_neg h, ih]
      have := @List.infix_cons_iff _ needle b bs
      simp [this, h]

theorem strstr_isSome (hay needle : List Nat) :
    (strstr hay needle).isSome = decide (cstring needle <:+: cstring hay) :=
  scan_isSome _ _ _

theorem rxtoCx_loop_bounds (chars : List Nat) (rx : Int) : ∀ (n : Nat) (cx cur : Int),
    cx ≤ editorRowRxtoCx.loop chars rx n cx cur ∧
      editorRowRxtoCx.loop chars rx n cx cur ≤ cx + n := by
  intro n
  induction n with
  | zero => intro cx cur; simp [editorRowRxtoCx.loop]
  | succ n ih =>
    intro cx cur
    simp only [editorRowRxtoCx.loop]
    split
    · constructor <;> push_cast <;> omega
    · have := ih (cx + 1) (advance (chars.getD cx.toNat 0) cur)
      constructor <;> push_cast <;> omega

theorem editorRowRxtoCx_bounds (row : erow) (rx : Int) (h : 0 ≤ row.size) :
    0 ≤ editorRowRxtoCx row rx ∧ editorRowRxtoCx row rx ≤ row.size := by
  have := rxtoCx_loop_bounds row.chars rx row.size.toNat 0 0
  unfold editorRowRxtoCx
  omega

theorem wrap_eq (N c : Int) (hN : 1 ≤ N) (h1 : -1 ≤ c) (h2 : c ≤ N) :
    (if c = -1 then N - 1 else if c = N then 0 else c) = c % N := by
  split_ifs with ha hb
  · subst ha
    have : (-1 : Int) % N = (-1 + N) % N := by rw [Int.add_emod_self]
    rw [this, Int.emod_eq_of_lt (by omega) (by omega)]
    omega
  · subst hb
    rw [Int.emod_self]
  · rw [Int.emod_eq_of_lt (by omega) (by omega)]

/-- The search loop visits the rows in the cyclic order and stops at the first match. -/
theorem findLoop_spec (e : editorConfig) (query : List Nat) (d : Int)
    (hn : e.numrows = e.row.length) (hN : 1 ≤ e.numrows) (hd : d = 1 ∨ d = -1) :
    ∀ (n : Nat) (current lm : Int),
      ((0 ≤ current ∧ current < e.numrows) ∨ (current = -1 ∧ d = 1)) →
      (∀ r, ((List.range n).map fun (i : Nat) => (current + d * ((i : Int) + 1)) % e.numrows).find?
            (rowMatches e query) = some r →
          ∃ row off, rowAt e.row r = some row ∧ strstr row.render query = some off ∧
            editorFindCallback.loop e query d n current lm =
              some ({ e with cy := r, cx := editorRowRxtoCx row off, rowoff := e.numrows }, r)) ∧
      (((List.range n).map fun (i : Nat) => (current + d * ((i : Int) + 1)) % e.numrows).find?
            (rowMatches e query) = none →
          editorFindCallback.loop e query d n current lm = some (e, lm)) := by
  intro n
  induction n with
  | zero =>
    intro current lm _
    simp [editorFindCallback.loop]
  | succ n ih =>
    intro current lm hcur
    have hw := wrap_eq e.numrows (current + d) hN (by omega) (by omega)
    have hrange : 0 ≤ (current + d) % e.numrows ∧ (current + d) % e.numrows < e.numrows :=
      ⟨Int.emod_nonneg _ (by omega), Int.emod_lt_of_pos _ (by omega)⟩
    obtain ⟨row, hrow, _, _⟩ := rowAt_of_lt e.row ((current + d) % e.numrows) hrange.1
      (by rw [← hn]; exact hrange.2)
    have hlist : (List.range (n + 1)).map (fun (i : Nat) => (current + d * ((i : Int) + 1)) % e.numrows) =
        (current + d) % e.numrows ::
          (List.range n).map (fun (i : Nat) => ((current + d) % e.numrows + d * ((i : Int) + 1)) % e.numrows) := by
      rw [List.range_succ_eq_map, List.map_cons, List.map_map]
      congr 1
      · simp
      · apply List.map_congr_left
        intro i _
        simp only [Function.comp, Nat.succ_eq_add_one]
        rw [Int.emod_add_emod]
        push_cast
        ring_nf
    have hm : rowMatches e query ((current + d) % e.numrows) =
        (strstr row.render query).isSome := by
      unfold rowMatches
      rw [hrow, strstr_isSome]
    rw [hlist, List.find?_cons]
    simp only [editorFindCallback.loop, hw, hrow]
    cases hs : strstr row.render query with
    | some off =>
      rw [hs] at hm
      simp only [hm, Option.isSome_some]
      refine ⟨?_, ?_⟩
      · intro r hr
        have : (current + d) % e.numrows = r := Option.some.inj hr
        subst this
        exact ⟨row, off, hrow, hs, rfl⟩
      · intro h; cases h
    | none =>
      rw [hs] at hm
      simp only [hm, Option.isSome_none]
      exact ih ((current + d) % e.numrows) lm (Or.inl hrange)

/-- Behind the keys Enter and ESC, `editorFindCallback` runs its loop from the row and in
the direction that the key and the last match select. -/
theorem findCallback_unfold (e : editorConfig) (st : Statics) (query : List Nat) (key : Int)
    (hk1 : key ≠ ENTER) (hk2 : key ≠ ESC) (start dir : Int)
    (hstart : start = (if key = ARROW_RIGHT ∨ key = ARROW_DOWN ∨ key = ARROW_LEFT ∨ key = ARROW_UP
      then st.last_match else -1))
    (hdir : dir = (if start = -1 then 1
      else if key = ARROW_RIGHT ∨ key = ARROW_DOWN then 1 else -1)) :
    editorFindCallback e st query key =
      (editorFindCallback.loop e query dir e.numrows.toNat start start).map fun p =>
        (p.1, { last_match := p.2, direction := dir, quit_times := st.quit_times }) := by
  subst hdir
  subst hstart
  unfold editorFindCallback
  rw [if_neg (by intro h; rcases h with h | h <;> contradiction)]
  by_cases h1 : key = ARROW_RIGHT ∨ key = ARROW_DOWN
  · have h2 : key = ARROW_RIGHT ∨ key = ARROW_DOWN ∨ key = ARROW_LEFT ∨ key = ARROW_UP := by
      rcases h1 with h | h
      · exact Or.inl h
      · exact Or.inr (Or.inl h)
    simp only [h1, h2, if_true]
    split_ifs <;> simp_all <;> split <;> simp_all
  · by_cases h3 : key = ARROW_LEFT ∨ key = ARROW_UP
    · have h2 : key = ARROW_RIGHT ∨ key = ARROW_DOWN ∨ key = ARROW_LEFT ∨ key = ARROW_UP := by
        rcases h3 with h | h
        · exact Or.inr (Or.inr (Or.inl h))
        · exact Or.inr (Or.inr (Or.inr h))
      simp only [h1, h2, h3, if_true, if_false]
      split_ifs <;> simp_all <;> split <;> simp_all
    · have h2 : ¬ (key = ARROW_RIGHT ∨ key = ARROW_DOWN ∨ key = ARROW_LEFT ∨ key = ARROW_UP) := by
        intro h
        rcases h with h | h | h | h
        · exact h1 (Or.inl h)
        · exact h1 (Or.inr h)
        · exact h3 (Or.inl h)
        · exact h3 (Or.inr h)
      simp only [h1, h2, h3, if_false, if_true]
      split <;> simp_all

/-- Every row index occurs in the cyclic order, so a matching row makes the search of the
order succeed. -/
theorem cyclicOrder_find (e : editorConfig) (query : List Nat) (start dir : Int)
    (hdir : dir = 1 ∨ dir = -1) (r : Int) (hr0 : 0 ≤ r) (hr1 : r < e.numrows)
    (hm : rowMatches e query r = true) :
    ∃ r1, (cyclicOrder start dir e.numrows.toNat).find? (rowMatches e query) = some r1 := by
  have hN : ((e.numrows.toNat : Nat) : Int) = e.numrows := by omega
  have hpos : (0 : Int) < e.numrows := by omega
  have hsome : ((cyclicOrder start dir e.numrows.toNat).find? (rowMatches e query)).isSome := by
    rw [List.find?_isSome]
    refine ⟨r, ?_, hm⟩
    unfold cyclicOrder
    rw [List.mem_map, hN]
    rcases hdir with hd | hd
    · subst hd
      refine ⟨((r - start - 1) % e.numrows).toNat, ?_, ?_⟩
      · rw [List.mem_range]
        have := Int.emod_lt_of_pos (r - start - 1) hpos
        have := Int.emod_nonneg (r - start - 1) (by omega : e.numrows ≠ 0)
        omega
      · have h0 := Int.emod_nonneg (r - start - 1) (by omega : e.numrows ≠ 0)
        rw [Int.toNat_of_nonneg h0]
        have : start + 1 * ((r - start - 1) % e.numrows + 1) =
            (r - start - 1) % e.numrows + (start + 1) := by ring
        rw [this, Int.emod_add_emod]
        have : r - start - 1 + (start + 1) = r := by ring
        rw [this, Int.emod_eq_of_lt hr0 hr1]
    · subst hd
      refine ⟨((start - 1 - r) % e.numrows).toNat, ?_, ?_⟩
      · rw [List.mem_range]
        have := Int.emod_lt_of_pos (start - 1 - r) hpos
        have := Int.emod_nonneg (start - 1 - r) (by omega : e.numrows ≠ 0)
        omega
      · have h0 := Int.emod_nonneg (start - 1 - r) (by omega : e.numrows ≠ 0)
        rw [Int.toNat_of_nonneg h0]
        have : start + -1 * ((start - 1 - r) % e.numrows + 1) =
            (start - 1) - (start - 1 - r) % e.numrows := by ring
        rw [this, Int.sub_emod, Int.emod_emod_of_dvd _ (dvd_refl _), ← Int.sub_emod]
        have : start - 1 - (start - 1 - r) = r := by ring
        rw [this, Int.emod_eq_of_lt hr0 hr1]
  exact Option.isSome_iff_exists.mp hsome

/-- A search keystroke moves the cursor to the first matching row of the cyclic order. -/
theorem findCallback_spec (e : editorConfig) (st : Statics) (query : List Nat) (key : Int)
    (hb : BufferOK e) (hk1 : key ≠ ENTER) (hk2 : key ≠ ESC) (start dir : Int)
    (hstart : start = (if key = ARROW_RIGHT ∨ key = ARROW_DOWN ∨ key = ARROW_LEFT ∨ key = ARROW_UP
      then st.last_match else -1))
    (hdir : dir = (if start = -1 then 1
      else if key = ARROW_RIGHT ∨ key = ARROW_DOWN then 1 else -1))
    (hok : start = -1 ∨ (0 ≤ start ∧ start < e.numrows))
    (r : Int) (hr0 : 0 ≤ r) (hr1 : r < e.numrows) (hm : rowMatches e query r = true) :
    ∃ r1 row off, (cyclicOrder start dir e.numrows.toNat).find? (rowMatches e query) = some r1 ∧
      rowAt e.row r1 = some row ∧ strstr row.render query = some off ∧
      editorFindCallback e st query key =
        some ({ e with cy := r1, cx := editorRowRxtoCx row off, rowoff := e.numrows },
          { last_match := r1, direction := dir, quit_times := st.quit_times }) := by
  have hd : dir = 1 ∨ dir = -1 := by
    rw [hdir]; split_ifs <;> simp
  have hN : ((e.numrows.toNat : Nat) : Int) = e.numrows := by omega
  obtain ⟨r1, hfind⟩ := cyclicOrder_find e query start dir hd r hr0 hr1 hm
  have hcur : (0 ≤ start ∧ start < e.numrows) ∨ (start = -1 ∧ dir = 1) := by
    rcases hok with h | h
    · right
      refine ⟨h, ?_⟩
      rw [hdir, if_pos h]
    · exact Or.inl h
  have hloop := (findLoop_spec e query dir hb.1 (by omega) hd e.numrows.toNat start start hcur).1 r1
    (by unfold cyclicOrder at hfind; rw [hN] at hfind; exact hfind)
  obtain ⟨row, off, hrow, hs, hl⟩ := hloop
  refine ⟨r1, row, off, hfind, hrow, hs, ?_⟩
  rw [findCallback_unfold e st query key hk1 hk2 start dir hstart hdir, hl]
  rfl

theorem cyclicOrder_fresh (n : Nat) :
    cyclicOrder (-1) 1 n = (List.range n).map fun (i : Nat) => (i : Int) := by
  unfold cyclicOrder
  apply List.map_congr_left
  intro i hi
  rw [List.mem_range] at hi
  have h : (-1 : Int) + 1 * ((i : Int) + 1) = i := by ring
  rw [h, Int.emod_eq_of_lt (by omega) (by omega)]

/-- C12, counterexample: in the buffer `"x"`, `"\0foo"` the render content of row 1
contains the query `"foo"`, but `strstr` reads the render buffer as a C string, which
ends at the NUL byte in front of `"foo"`; the search keystroke finds no match and the
cursor stays on row 0. -/
theorem editorFindCallback_stops_at_nul :
    [102, 111, 111] <:+: (mkRow [0, 102, 111, 111]).render ∧
      ¬ [102, 111, 111] <:+: (mkRow [120]).render ∧
      (editorFindCallback (mkState [mkRow [120], mkRow [0, 102, 111, 111]] 0 0) Statics.init
        [102, 111, 111] 111).map (fun p => (p.1.cy, p.2.last_match)) = some (0, -1) := by
  decide

/-- C12, amended: let at least one row match, that is, let its render content read as a C
string (the bytes in front of its first NUL) contain the query as a literal substring.
Then a search keystroke (any key but Enter and ESC) handled by `editorFindCallback`
returns and, with no prior match, moves the cursor to the first matching row in the order
`0, 1, ..., numrows - 1`; with a prior match at row `m` and a forward key (Right, Down) to
the first matching row in the cyclic order `m + 1, ..., numrows - 1, 0, ..., m`; with a
prior match at row `m` and a backward key (Left, Up) to the first matching row in the
cyclic order `m - 1, ..., 0, numrows - 1, ..., m`.  The row found becomes `last_match`. -/
theorem editorFindCallback_first_match (e : editorConfig) (st : Statics) (query : List Nat)
    (key : Int) (hb : BufferOK e) (hk1 : key ≠ ENTER) (hk2 : key ≠ ESC)
    (r : Int) (hr0 : 0 ≤ r) (hr1 : r < e.numrows) (hm : rowMatches e query r = true) :
    (st.last_match = -1 →
      ∃ e1 st1, editorFindCallback e st query key = some (e1, st1) ∧
        ((List.range e.numrows.toNat).map fun (i : Nat) => (i : Int)).find?
          (rowMatches e query) = some e1.cy ∧
        st1.last_match = e1.cy) ∧
    (0 ≤ st.last_match → st.last_match < e.numrows → key = ARROW_RIGHT ∨ key = ARROW_DOWN →
      ∃ e1 st1, editorFindCallback e st query key = some (e1, st1) ∧
        (cyclicOrder st.last_match 1 e.numrows.toNat).find? (rowMatches e query) = some e1.cy ∧
        st1.last_match = e1.cy) ∧
    (0 ≤ st.last_match → st.last_match < e.numrows → key = ARROW_LEFT ∨ key = ARROW_UP →
      ∃ e1 st1, editorFindCallback e st query key = some (e1, st1) ∧
        (cyclicOrder st.last_match (-1) e.numrows.toNat).find? (rowMatches e query) =
          some e1.cy ∧
        st1.last_match = e1.cy) := by
  refine ⟨?_, ?_, ?_⟩
  · intro hlm
    obtain ⟨r1, row, off, hfind, _, _, hcb⟩ :=
      findCallback_spec e st query key hb hk1 hk2 (-1) 1
        (by split_ifs <;> simp [hlm]) (by simp) (Or.inl rfl) r hr0 hr1 hm
    rw [cyclicOrder_fresh] at hfind
    exact ⟨_, _, hcb, hfind, rfl⟩
  · intro h0 h1 hkey
    have harrow : key = ARROW_RIGHT ∨ key = ARROW_DOWN ∨ key = ARROW_LEFT ∨ key = ARROW_UP := by
      rcases hkey with h | h
      · exact Or.inl h
      · exact Or.inr (Or.inl h)
    obtain ⟨r1, row, off, hfind, _, _, hcb⟩ :=
      findCallback_spec e st query key hb hk1 hk2 st.last_match 1
        (by rw [if_pos harrow]) (by rw [if_neg (by omega), if_pos hkey]) (Or.inr ⟨h0, h1⟩)
        r hr0 hr1 hm
    exact ⟨_, _, hcb, hfind, rfl⟩
  · intro h0 h1 hkey
    have harrow : key = ARROW_RIGHT ∨ key = ARROW_DOWN ∨ key = ARROW_LEFT ∨ key = ARROW_UP := by
      rcases hkey with h | h
      · exact Or.inr (Or.inr (Or.inl h))
      · exact Or.inr (Or.inr (Or.inr h))
    have hnot : ¬ (key = ARROW_RIGHT ∨ key = ARROW_DOWN) := by
      intro h
      rcases h with h | h <;> rcases hkey with h2 | h2 <;> rw [h] at h2 <;> revert h2 <;> decide
    obtain ⟨r1, row, off, hfind, _, _, hcb⟩ :=
      findCallback_spec e st query key hb hk1 hk2 st.last_match (-1)
        (by rw [if_pos harrow]) (by rw [if_neg (by omega), if_neg hnot]) (Or.inr ⟨h0, h1⟩)
        r hr0 hr1 hm
    exact ⟨_, _, hcb, hfind, rfl⟩

/-- The scenario of C12 on the lines `"foo"`, `"bar"`, `"foo"` with the query `"foo"`: a
forward key behind a match at row 0 moves the cursor to row 2. -/
theorem editorFindCallback_first_match_witness :
    BufferOK (mkState [mkRow [102, 111, 111], mkRow [98, 97, 114], mkRow [102, 111, 111]] 0 0) ∧
    ARROW_RIGHT ≠ ENTER ∧ ARROW_RIGHT ≠ ESC ∧
    rowMatches (mkState [mkRow [102, 111, 111], mkRow [98, 97, 114], mkRow [102, 111, 111]] 0 0)
      [102, 111, 111] 0 = true ∧
    ∃ e1 st1, editorFindCallback
        (mkState [mkRow [102, 111, 111], mkRow [98, 97, 114], mkRow [102, 111, 111]] 0 0)
        { last_match := 0, direction := 1, quit_times := 3 } [102, 111, 111] ARROW_RIGHT =
          some (e1, st1) ∧ e1.cy = 2 ∧ st1.last_match = 2 := by
  refine ⟨by decide, by decide, by decide, by decide, ?_⟩
  obtain ⟨e1, st1, h1, h2, h3⟩ :=
    (editorFindCallback_first_match
      (mkState [mkRow [102, 111, 111], mkRow [98, 97, 114], mkRow [102, 111, 111]] 0 0)
      { last_match := 0, direction := 1, quit_times := 3 } [102, 111, 111] ARROW_RIGHT
      (by decide) (by decide) (by decide) 0 (by decide) (by decide) (by decide)).2.1
      (by decide) (by decide) (Or.inl rfl)
  have h4 : e1.cy = 2 := by
    have h5 : (cyclicOrder 0 1 3).find? (rowMatches
        (mkState [mkRow [102, 111, 111], mkRow [98, 97, 114], mkRow [102, 111, 111]] 0 0)
        [102, 111, 111]) = some 2 := by decide
    have h6 : some e1.cy = some 2 := by rw [← h2]; exact h5
    exact Option.some.inj h6
  exact ⟨e1, st1, h1, h4, by rw [h3, h4]⟩

/-! ## The prompt -/

theorem SameBuffer.refl (e : editorConfig) : SameBuffer e e := ⟨rfl, rfl, rfl, rfl, rfl, rfl⟩

theorem SameBuffer.trans {a b c : editorConfig} (h1 : SameBuffer a b) (h2 : SameBuffer b c) :
    SameBuffer a c := by
  obtain ⟨p1, p2, p3, p4, p5, p6⟩ := h1
  obtain ⟨q1, q2, q3, q4, q5, q6⟩ := h2
  exact ⟨by rw [q1, p1], by rw [q2, p2], by rw [q3, p3], by rw [q4, p4], by rw [q5, p5],
    by rw [q6, p6]⟩

theorem BufferOK_of_same {e e1 : editorConfig} (h : SameBuffer e e1) (hb : BufferOK e) :
    BufferOK e1 := by
  unfold BufferOK; rw [h.1, h.2.1]; exact hb

theorem CursorOK_of_same {e e1 : editorConfig} (h : SameBuffer e e1) (hx : e1.cx = e.cx)
    (hy : e1.cy = e.cy) (hc : CursorOK e) : CursorOK e1 := by
  unfold CursorOK; rw [h.1, h.2.1, hx, hy]; exact hc

theorem FindOK_of_same {e e1 : editorConfig} {st : Statics} (h : SameBuffer e e1)
    (hf : FindOK e st) : FindOK e1 st := by
  unfold FindOK; rw [h.2.1]; exact hf

/-- The start of every round of the prompt loop, the status message and the refresh,
returns and keeps buffer and cursor. -/
theorem prompt_refresh (e : editorConfig) (msg : List Nat) (now : Int) (hb : BufferOK e)
    (hc : CursorOK e) :
    ∃ e1, editorRefreshScreen (editorSetStatusMessage e msg now) = some e1 ∧ SameBuffer e e1 ∧
      e1.cx = e.cx ∧ e1.cy = e.cy := by
  have hs : SameBuffer e (editorSetStatusMessage e msg now) := ⟨rfl, rfl, rfl, rfl, rfl, rfl⟩
  obtain ⟨e1, h1, _, _, _, hcx, hcy, hsr, hsc, hnum, hrow, hd, hf, _, _⟩ :=
    editorScroll_fields (editorSetStatusMessage e msg now) (BufferOK_of_same hs hb)
      (CursorOK_of_same hs rfl rfl hc)
  exact ⟨e1, h1, ⟨hrow, hnum, hd, hf, hsr, hsc⟩, hcx, hcy⟩

/-- In a valid state `editorFindCallback` returns, keeps the buffer and leaves a valid
cursor and a valid `last_match`. -/
theorem findCallback_ok (e : editorConfig) (st : Statics) (query : List Nat) (key : Int)
    (hb : BufferOK e) (hc : CursorOK e) (hf : FindOK e st) :
    ∃ e1 st1, editorFindCallback e st query key = some (e1, st1) ∧ SameBuffer e e1 ∧
      CursorOK e1 ∧ FindOK e1 st1 ∧ st1.quit_times = st.quit_times := by
  by_cases hk : key = ENTER ∨ key = ESC
  · refine ⟨e, { st with last_match := -1, direction := 1 }, ?_, SameBuffer.refl e, hc,
      Or.inl rfl, rfl⟩
    unfold editorFindCallback
    rw [if_pos hk]
  · have hk1 : key ≠ ENTER := fun h => hk (Or.inl h)
    have hk2 : key ≠ ESC := fun h => hk (Or.inr h)
    have hun := findCallback_unfold e st query key hk1 hk2 _ _ rfl rfl
    generalize hstart : (if key = ARROW_RIGHT ∨ key = ARROW_DOWN ∨ key = ARROW_LEFT ∨
      key = ARROW_UP then st.last_match else -1) = start at hun
    generalize hdir : (if start = -1 then (1 : Int)
      else if key = ARROW_RIGHT ∨ key = ARROW_DOWN then 1 else -1) = dir at hun
    have hok : start = -1 ∨ (0 ≤ start ∧ start < e.numrows) := by
      rw [← hstart]
      split_ifs
      · exact hf
      · exact Or.inl rfl
    have hd : dir = 1 ∨ dir = -1 := by
      rw [← hdir]; split_ifs <;> simp
    by_cases hN : 1 ≤ e.numrows
    · have hcur : (0 ≤ start ∧ start < e.numrows) ∨ (start = -1 ∧ dir = 1) := by
        rcases hok with h | h
        · right
          refine ⟨h, ?_⟩
          rw [← hdir, if_pos h]
        · exact Or.inl h
      have hloop := findLoop_spec e query dir hb.1 hN hd e.numrows.toNat start start hcur
      cases hfind : ((List.range e.numrows.toNat).map fun (i : Nat) =>
          (start + dir * ((i : Int) + 1)) % e.numrows).find? (rowMatches e query) with
      | none =>
        have hl := hloop.2 hfind
        refine ⟨e, { last_match := start, direction := dir, quit_times := st.quit_times }, ?_,
          SameBuffer.refl e, hc, hok, rfl⟩
        rw [hun, hl]
        rfl
      | some r1 =>
        obtain ⟨row, off, hrow, _, hl⟩ := hloop.1 r1 hfind
        obtain ⟨hr0, hr1, hmem, _⟩ := rowAt_some e.row r1 row hrow
        have hsz := hb.2 row hmem
        have hbd := editorRowRxtoCx_bounds row off (by omega)
        refine ⟨{ e with cy := r1, cx := editorRowRxtoCx row off, rowoff := e.numrows },
          { last_match := r1, direction := dir, quit_times := st.quit_times }, ?_,
          ⟨rfl, rfl, rfl, rfl, rfl, rfl⟩, ?_, ?_, rfl⟩
        · rw [hun, hl]
          rfl
        · refine ⟨hr0, ?_, ?_, ?_⟩
          · show r1 ≤ e.numrows
            rw [hb.1]; omega
          · intro _
            show match rowAt e.row r1 with
              | some r => 0 ≤ editorRowRxtoCx row off ∧ editorRowRxtoCx row off ≤ r.size
              | none => False
            rw [hrow]
            exact hbd
          · intro h
            have : r1 = e.numrows := h
            rw [hb.1] at this
            omega
        · right
          show 0 ≤ r1 ∧ r1 < e.numrows
          rw [hb.1]
          exact ⟨hr0, hr1⟩
    · have h0 : e.numrows.toNat = 0 := by omega
      refine ⟨e, { last_match := start, direction := dir, quit_times := st.quit_times }, ?_,
        SameBuffer.refl e, hc, hok, rfl⟩
      rw [hun, h0]
      rfl

/-- The two callbacks the program passes to `editorPrompt`, `NULL` and
`editorFindCallback`, return in a valid state and keep it valid. -/
theorem callCallback_ok (callback : Option Callback)
    (hcb : callback = none ∨ callback = some editorFindCallback) (e : editorConfig)
    (st : Statics) (buf : List Nat) (c : Int) (hb : BufferOK e) (hc : CursorOK e)
    (hf : FindOK e st) :
    ∃ e1 st1, callCallback callback e st buf c = some (e1, st1) ∧ SameBuffer e e1 ∧
      CursorOK e1 ∧ FindOK e1 st1 ∧ st1.quit_times = st.quit_times := by
  rcases hcb with h | h
  · subst h
    exact ⟨e, st, rfl, SameBuffer.refl e, hc, hf, rfl⟩
  · subst h
    exact findCallback_ok e st buf c hb hc hf

/-- In a valid state the prompt loop returns what the reference prompt returns, and keeps
the buffer and the validity of the state. -/
theorem prompt_loop_spec (prompt : List Nat × List Nat) (callback : Option Callback)
    (hcb : callback = none ∨ callback = some editorFindCallback) (now : Int) :
    ∀ (keys : List Int) (buf : List Nat) (e : editorConfig) (st : Statics),
      BufferOK e → CursorOK e → FindOK e st →
      ∃ e1 st1 rest, editorPrompt.loop prompt callback now keys buf e st =
          some (promptReference.go keys buf, e1, st1, rest) ∧
        SameBuffer e e1 ∧ CursorOK e1 ∧ FindOK e1 st1 ∧ st1.quit_times = st.quit_times := by
  intro keys
  induction keys with
  | nil =>
    intro buf e st hb hc hf
    obtain ⟨e1, h1, hs1, hx1, hy1⟩ := prompt_refresh e (prompt.1 ++ buf ++ prompt.2) now hb hc
    refine ⟨e1, st, [], ?_, hs1, CursorOK_of_same hs1 hx1 hy1 hc, FindOK_of_same hs1 hf, rfl⟩
    simp only [editorPrompt.loop, h1, promptReference.go]
  | cons c keys ih =>
    intro buf e st hb hc hf
    obtain ⟨e1, h1, hs1, hx1, hy1⟩ := prompt_refresh e (prompt.1 ++ buf ++ prompt.2) now hb hc
    have hb1 := BufferOK_of_same hs1 hb
    have hc1 := CursorOK_of_same hs1 hx1 hy1 hc
    have hf1 : FindOK e1 st := FindOK_of_same hs1 hf
    have hsm : SameBuffer e1 (editorSetStatusMessage e1 [] now) := ⟨rfl, rfl, rfl, rfl, rfl, rfl⟩
    simp only [editorPrompt.loop, h1]
    by_cases hdel : c = DEL_KEY ∨ c = CTRL_KEY 104 ∨ c = BACKSPACE
    · have href : promptReference.go (c :: keys) buf = promptReference.go keys buf.dropLast := by
        have : c = BACKSPACE ∨ c = CTRL_KEY 104 ∨ c = DEL_KEY := by
          rcases hdel with h | h | h
          · exact Or.inr (Or.inr h)
          · exact Or.inr (Or.inl h)
          · exact Or.inl h
        rw [promptReference.go, if_pos this]
      have hbuf : (if buf.length ≠ 0 then buf.dropLast else buf) = buf.dropLast := by
        split_ifs with h
        · rfl
        · have : buf = [] := List.length_eq_zero.mp (by omega)
          rw [this]; rfl
      rw [if_pos hdel, hbuf, href]
      obtain ⟨e2, st2, h2, hs2, hc2, hf2, hq2⟩ :=
        callCallback_ok callback hcb e1 st buf.dropLast c hb1 hc1 hf1
      simp only [h2]
      obtain ⟨e3, st3, rest, h3, hs3, hc3, hf3, hq3⟩ :=
        ih buf.dropLast e2 st2 (BufferOK_of_same hs2 hb1) hc2 hf2
      exact ⟨e3, st3, rest, h3, (hs1.trans hs2).trans hs3, hc3, hf3, by rw [hq3, hq2]⟩
    · rw [if_neg hdel]
      have hdel2 : ¬ (c = BACKSPACE ∨ c = CTRL_KEY 104 ∨ c = DEL_KEY) := by
        intro h
        apply hdel
        rcases h with h | h | h
        · exact Or.inr (Or.inr h)
        · exact Or.inr (Or.inl h)
        · exact Or.inl h
      by_cases hesc : c = ESC
      · have href : promptReference.go (c :: keys) buf = PromptResult.cancelled := by
          rw [promptReference.go, if_neg hdel2, if_pos hesc]
        rw [if_pos hesc, href]
        obtain ⟨e2, st2, h2, hs2, hc2, hf2, hq2⟩ :=
          callCallback_ok callback hcb (editorSetStatusMessage e1 [] now) st buf c
            (BufferOK_of_same hsm hb1) (CursorOK_of_same hsm rfl rfl hc1)
            (FindOK_of_same hsm hf1)
        simp only [h2]
        exact ⟨e2, st2, keys, rfl, (hs1.trans hsm).trans hs2, hc2, hf2, hq2⟩
      · rw [if_neg hesc]
        by_cases hent : c = ENTER
        · rw [if_pos hent]
          by_cases hlen : buf.length ≠ 0
          · have hne : ¬ buf = [] := fun h => hlen (by rw [h]; rfl)
            have href : promptReference.go (c :: keys) buf = PromptResult.input buf := by
              rw [promptReference.go, if_neg hdel2, if_neg hesc, if_pos hent, if_neg hne]
            rw [if_pos hlen, href]
            obtain ⟨e2, st2, h2, hs2, hc2, hf2, hq2⟩ :=
              callCallback_ok callback hcb (editorSetStatusMessage e1 [] now) st buf c
                (BufferOK_of_same hsm hb1) (CursorOK_of_same hsm rfl rfl hc1)
                (FindOK_of_same hsm hf1)
            simp only [h2]
            exact ⟨e2, st2, keys, rfl, (hs1.trans hsm).trans hs2, hc2, hf2, hq2⟩
          · have hnil : buf = [] := List.length_eq_zero.mp (by omega)
            have href : promptReference.go (c :: keys) buf = promptReference.go keys buf := by
              rw [promptReference.go, if_neg hdel2, if_neg hesc, if_pos hent, if_pos hnil]
            rw [if_neg hlen, href]
            obtain ⟨e2, st2, h2, hs2, hc2, hf2, hq2⟩ :=
              callCallback_ok callback hcb e1 st buf c hb1 hc1 hf1
            simp only [h2]
            obtain ⟨e3, st3, rest, h3, hs3, hc3, hf3, hq3⟩ :=
              ih buf e2 st2 (BufferOK_of_same hs2 hb1) hc2 hf2
            exact ⟨e3, st3, rest, h3, (hs1.trans hs2).trans hs3, hc3, hf3, by rw [hq3, hq2]⟩
        · rw [if_neg hent]
          by_cases happ : ¬ iscntrl c = true ∧ c < 128
          · have href : promptReference.go (c :: keys) buf =
                promptReference.go keys (buf ++ [byteOfInt c]) := by
              rw [promptReference.go, if_neg hdel2, if_neg hesc, if_neg hent,
                if_pos ⟨happ.2, happ.1⟩]
            rw [if_pos happ, href]
            obtain ⟨e2, st2, h2, hs2, hc2, hf2, hq2⟩ :=
              callCallback_ok callback hcb e1 st (buf ++ [byteOfInt c]) c hb1 hc1 hf1
            simp only [h2]
            obtain ⟨e3, st3, rest, h3, hs3, hc3, hf3, hq3⟩ :=
              ih (buf ++ [byteOfInt c]) e2 st2 (BufferOK_of_same hs2 hb1) hc2 hf2
            exact ⟨e3, st3, rest, h3, (hs1.trans hs2).trans hs3, hc3, hf3, by rw [hq3, hq2]⟩
          · have href : promptReference.go (c :: keys) buf = promptReference.go keys buf := by
              rw [promptReference.go, if_neg hdel2, if_neg hesc, if_neg hent,
                if_neg (fun h => happ ⟨h.2, h.1⟩)]
            rw [if_neg happ, href]
            obtain ⟨e2, st2, h2, hs2, hc2, hf2, hq2⟩ :=
              callCallback_ok callback hcb e1 st buf c hb1 hc1 hf1
            simp only [h2]
            obtain ⟨e3, st3, rest, h3, hs3, hc3, hf3, hq3⟩ :=
              ih buf e2 st2 (BufferOK_of_same hs2 hb1) hc2 hf2
            exact ⟨e3, st3, rest, h3, (hs1.trans hs2).trans hs3, hc3, hf3, by rw [hq3, hq2]⟩

/-- The reference prompt never returns an empty input. -/
theorem promptReference_go_nonempty : ∀ (keys : List Int) (buf out : List Nat),
    promptReference.go keys buf = PromptResult.input out → out ≠ [] := by
  intro keys
  induction keys with
  | nil => intro buf out h; simp [promptReference.go] at h
  | cons c keys ih =>
    intro buf out h
    rw [promptReference.go] at h
    split_ifs at h with h1 h2 h3 h4 h5
    · exact ih _ _ h
    · exact ih _ _ h
    · cases h
      exact h4
    · exact ih _ _ h
    · exact ih _ _ h

/-- C14: in every valid state and for every finite key sequence, `editorPrompt`, called
without a callback or with `editorFindCallback`, ends the way the reference prompt ends:
the input starts empty; Backspace, Ctrl-H and Del remove the last input byte (nothing when
the input is empty); a key below 128 that is not a control character is appended; any
other key that does not end the prompt leaves the input unchanged; Enter returns the input
when it is not empty and is ignored when it is empty; ESC returns `NULL`; and when the
keys run out the prompt is still reading.  The prompt never returns an empty input. -/
theorem editorPrompt_reference (prompt : List Nat × List Nat) (callback : Option Callback)
    (hcb : callback = none ∨ callback = some editorFindCallback) (now : Int)
    (keys : List Int) (e : editorConfig) (st : Statics)
    (hb : BufferOK e) (hc : CursorOK e) (hf : FindOK e st) :
    (∃ e1 st1 rest, editorPrompt prompt callback now keys e st =
        some (promptReference keys, e1, st1, rest)) ∧
      ∀ out, promptReference keys = PromptResult.input out → out ≠ [] := by
  refine ⟨?_, ?_⟩
  · obtain ⟨e1, st1, rest, h, _⟩ := prompt_loop_spec prompt callback hcb now keys [] e st hb hc hf
    exact ⟨e1, st1, rest, h⟩
  · intro out h
    exact promptReference_go_nonempty keys [] out h

/-- The prompt of C14 on the keys Enter, `f`, byte 200, `o`, Ctrl-H, Del, `x`, `y`, Enter,
ESC: the first Enter is ignored, byte 200 is not appended, `"fo"` is deleted again, and the
second Enter returns `"xy"`. -/
theorem editorPrompt_reference_witness :
    BufferOK (mkState [mkRow [102, 111, 111], mkRow [98, 97, 114]] 1 2) ∧
    CursorOK (mkState [mkRow [102, 111, 111], mkRow [98, 97, 114]] 1 2) ∧
    FindOK (mkState [mkRow [102, 111, 111], mkRow [98, 97, 114]] 1 2) Statics.init ∧
    ∃ e1 st1 rest, editorPrompt (bytes "Search: ", bytes " (Use ESC / Arrows / Enter)")
        (some editorFindCallback) 0 [13, 102, 200, 111, 8, 1004, 120, 121, 13, 27]
        (mkState [mkRow [102, 111, 111], mkRow [98, 97, 114]] 1 2) Statics.init =
      some (PromptResult.input [120, 121], e1, st1, rest) := by
  refine ⟨by decide, by decide, by decide, ?_⟩
  have h := (editorPrompt_reference (bytes "Search: ", bytes " (Use ESC / Arrows / Enter)")
    (some editorFindCallback) (Or.inr rfl) 0 [13, 102, 200, 111, 8, 1004, 120, 121, 13, 27]
    (mkState [mkRow [102, 111, 111], mkRow [98, 97, 114]] 1 2) Statics.init
    (by decide) (by decide) (by decide)).1
  have href : promptReference [13, 102, 200, 111, 8, 1004, 120, 121, 13, 27] =
      PromptResult.input [120, 121] := by decide
  rw [href] at h
  exact h

/-- C13: in every valid state and for every finite key sequence whose first key that ends
the prompt is ESC, `editorFind` returns with `cx`, `cy`, `rowoff` and `coloff` as they were
before the call, whatever matches the earlier keys moved the cursor to, and with the
buffer contents, `numrows` and `dirty` unchanged. -/
theorem editorFind_cancel_restores (e : editorConfig) (st : Statics) (keys : List Int)
    (now : Int) (hb : BufferOK e) (hc : CursorOK e) (hf : FindOK e st)
    (hesc : promptReference keys = PromptResult.cancelled) :
    ∃ e1 st1 rest, editorFind e st keys now = some (Outcome.returned e1 st1 rest) ∧
      e1.cx = e.cx ∧ e1.cy = e.cy ∧ e1.rowoff = e.rowoff ∧ e1.coloff = e.coloff ∧
      e1.row = e.row ∧ e1.numrows = e.numrows ∧ e1.dirty = e.dirty := by
  obtain ⟨e1, st1, rest, h, hs, _⟩ :=
    prompt_loop_spec (bytes "Search: ", bytes " (Use ESC / Arrows / Enter)")
      (some editorFindCallback) (Or.inr rfl) now keys [] e st hb hc hf
  have hres : promptReference.go keys [] = PromptResult.cancelled := hesc
  rw [hres] at h
  refine ⟨{ e1 with cx := e.cx, cy := e.cy, rowoff := e.rowoff, coloff := e.coloff }, st1, rest,
    ?_, rfl, rfl, rfl, rfl, hs.1, hs.2.1, hs.2.2.1⟩
  unfold editorFind editorPrompt
  simp only [h]

/-- The search of C13 on the lines `"foo"`, `"bar"`, `"foo"` from the cursor `(1, 2)`: the
keys `f`, `o`, Right move the cursor to row 2, and ESC brings it back to `(1, 2)`. -/
theorem editorFind_cancel_restores_witness :
    BufferOK (mkState [mkRow [102, 111, 111], mkRow [98, 97, 114], mkRow [102, 111, 111]] 1 2) ∧
    CursorOK (mkState [mkRow [102, 111, 111], mkRow [98, 97, 114], mkRow [102, 111, 111]] 1 2) ∧
    FindOK (mkState [mkRow [102, 111, 111], mkRow [98, 97, 114], mkRow [102, 111, 111]] 1 2)
      Statics.init ∧
    promptReference [102, 111, ARROW_RIGHT, 27, 5] = PromptResult.cancelled ∧
    (editorFind (mkState [mkRow [102, 111, 111], mkRow [98, 97, 114], mkRow [102, 111, 111]] 1 2)
      Statics.init [102, 111, ARROW_RIGHT] 0).map
        (fun o => match o with
          | Outcome.reading e1 _ => (e1.cy, e1.cx)
          | _ => (0, 0)) = some (2, 0) ∧
    ∃ e1 st1 rest, editorFind
        (mkState [mkRow [102, 111, 111], mkRow [98, 97, 114], mkRow [102, 111, 111]] 1 2)
        Statics.init [102, 111, ARROW_RIGHT, 27, 5] 0 = some (Outcome.returned e1 st1 rest) ∧
      e1.cx = 2 ∧ e1.cy = 1 ∧ e1.rowoff = 0 ∧ e1.coloff = 0 := by
  refine ⟨by decide, by decide, by decide, by decide, by decide, ?_⟩
  obtain ⟨e1, st1, rest, h, h1, h2, h3, h4, _⟩ :=
    editorFind_cancel_restores
      (mkState [mkRow [102, 111, 111], mkRow [98, 97, 114], mkRow [102, 111, 111]] 1 2)
      Statics.init [102, 111, ARROW_RIGHT, 27, 5] 0 (by decide) (by decide) (by decide)
      (by decide)
  exact ⟨e1, st1, rest, h, h1, h2, h3, h4⟩

/-! ## Every key is handled -/

theorem currentRow_returns (e : editorConfig) (hb : BufferOK e) (h0 : 0 ≤ e.cy) :
    ∃ r, currentRow e = some r := by
  unfold currentRow
  by_cases h : e.cy ≥ e.numrows
  · rw [if_pos h]; exact ⟨_, rfl⟩
  · rw [if_neg h]
    obtain ⟨r, hr, _⟩ := rowAt_of_lt e.row e.cy h0 (by rw [← hb.1]; omega)
    rw [hr]; exact ⟨_, rfl⟩

/-- The clamp at the end of `editorMoveCursor` returns and keeps the buffer and `cy`. -/
theorem moveCursor_clamp (e e1 : editorConfig) (r : Option erow) (key : Int)
    (hcur : currentRow e = some r) (hmove : editorMoveCursor.move e r key = some e1)
    (hb1 : BufferOK e1) (h1 : 0 ≤ e1.cy) :
    ∃ e2, editorMoveCursor e key = some e2 ∧ e2.row = e1.row ∧ e2.numrows = e1.numrows ∧
      e2.cy = e1.cy ∧ e2.rowoff = e1.rowoff ∧ e2.screenrows = e1.screenrows := by
  obtain ⟨r1, hr1⟩ := currentRow_returns e1 hb1 h1
  unfold editorMoveCursor
  simp only [hcur, hmove, hr1]
  split_ifs
  · exact ⟨_, rfl, rfl, rfl, rfl, rfl, rfl⟩
  · exact ⟨_, rfl, rfl, rfl, rfl, rfl, rfl⟩

/-- The keys Up and Down are handled from every row index `cy ≥ 0`, also one behind the
buffer. -/
theorem moveCursor_vertical (e : editorConfig) (key : Int) (hb : BufferOK e) (h0 : 0 ≤ e.cy)
    (hkey : key = ARROW_UP ∨ key = ARROW_DOWN) :
    ∃ e1, editorMoveCursor e key = some e1 ∧ e1.row = e.row ∧ e1.numrows = e.numrows ∧
      0 ≤ e1.cy ∧ e1.screenrows = e.screenrows := by
  obtain ⟨r, hr⟩ := currentRow_returns e hb h0
  rcases hkey with hk | hk
  · subst hk
    by_cases hz : e.cy ≠ 0
    · have hm : editorMoveCursor.move e r ARROW_UP = some { e with cy := e.cy - 1 } := by
        unfold editorMoveCursor.move
        rw [if_neg (by decide), if_neg (by decide), if_neg (by decide), if_pos rfl, if_pos hz]
      obtain ⟨e2, h2, hrow, hnum, hcy, _, hsr⟩ :=
        moveCursor_clamp e _ r ARROW_UP hr hm hb (by show 0 ≤ e.cy - 1; omega)
      exact ⟨e2, h2, hrow, hnum, by rw [hcy]; show 0 ≤ e.cy - 1; omega, hsr⟩
    · have hm : editorMoveCursor.move e r ARROW_UP = some e := by
        unfold editorMoveCursor.move
        rw [if_neg (by decide), if_neg (by decide), if_neg (by decide), if_pos rfl, if_neg hz]
      obtain ⟨e2, h2, hrow, hnum, hcy, _, hsr⟩ := moveCursor_clamp e _ r ARROW_UP hr hm hb h0
      exact ⟨e2, h2, hrow, hnum, by rw [hcy]; exact h0, hsr⟩
  · subst hk
    by_cases hz : e.cy < e.numrows
    · have hm : editorMoveCursor.move e r ARROW_DOWN = some { e with cy := e.cy + 1 } := by
        unfold editorMoveCursor.move
        rw [if_neg (by decide), if_pos rfl, if_pos hz]
      obtain ⟨e2, h2, hrow, hnum, hcy, _, hsr⟩ :=
        moveCursor_clamp e _ r ARROW_DOWN hr hm hb (by show 0 ≤ e.cy + 1; omega)
      exact ⟨e2, h2, hrow, hnum, by rw [hcy]; show 0 ≤ e.cy + 1; omega, hsr⟩
    · have hm : editorMoveCursor.move e r ARROW_DOWN = some e := by
        unfold editorMoveCursor.move
        rw [if_neg (by decide), if_pos rfl, if_neg hz]
      obtain ⟨e2, h2, hrow, hnum, hcy, _, hsr⟩ := moveCursor_clamp e _ r ARROW_DOWN hr hm hb h0
      exact ⟨e2, h2, hrow, hnum, by rw [hcy]; exact h0, hsr⟩

theorem moveCursor_vertical_times (key : Int) (hkey : key = ARROW_UP ∨ key = ARROW_DOWN)
    (n : Nat) : ∀ e : editorConfig, BufferOK e → 0 ≤ e.cy →
      ∃ e1, callTimes (fun s => editorMoveCursor s key) n e = some e1 := by
  induction n with
  | zero => intro e _ _; exact ⟨e, rfl⟩
  | succ n ih =>
    intro e hb h0
    obtain ⟨e1, h1, hrow, hnum, hcy, _⟩ := moveCursor_vertical e key hb h0 hkey
    have hb1 : BufferOK e1 := by unfold BufferOK; rw [hrow, hnum]; exact hb
    obtain ⟨e2, h2⟩ := ih e1 hb1 hcy
    exact ⟨e2, by simp only [callTimes, h1]; exact h2⟩

theorem editorDelRow_returns (e : editorConfig) (at_ : Int) (hn : e.numrows = e.row.length)
    (h0 : 0 ≤ at_) (h1 : at_ < e.numrows) : ∃ e1, editorDelRow e at_ = some e1 := by
  obtain ⟨r, hr, _⟩ := rowAt_of_lt e.row at_ h0 (by rw [← hn]; exact h1)
  unfold editorDelRow
  rw [if_neg (by omega)]
  simp only [hr]
  rw [if_neg (by omega)]
  exact ⟨_, rfl⟩

/-- In a valid state `editorDelChar` returns. -/
theorem editorDelChar_returns (e : editorConfig) (hb : BufferOK e) (hc : CursorOK e) :
    ∃ e1, editorDelChar e = some e1 := by
  by_cases hend : e.cy = e.numrows
  · exact ⟨e, by unfold editorDelChar; rw [if_pos hend]⟩
  · have hcy : e.cy < e.numrows := by have := hc.2.1; omega
    obtain ⟨row, hr, hmem, _, hsz, hcx0, _, _, hlt⟩ := cursor_row e hb hc hcy
    by_cases hcx : 0 < e.cx
    · exact ⟨_, editorDelChar_row e hb hc hcy hcx⟩
    · by_cases hz : e.cx = 0 ∧ e.cy = 0
      · exact ⟨e, by unfold editorDelChar; rw [if_neg hend, if_pos hz]⟩
      · have hcy0 := hc.1
        obtain ⟨prev, hp, _, _⟩ := rowAt_of_lt e.row (e.cy - 1) (by omega)
          (by have := hb.1; omega)
        obtain ⟨e3, h3⟩ := editorDelRow_returns
          { e with cx := prev.size,
                   row := e.row.set (e.cy - 1).toNat (editorUpdateRow { prev with
                     chars := prev.chars.take prev.size.toNat ++ row.chars.take row.size.toNat
                     size := prev.size + row.size }),
                   dirty := e.dirty + 1 }
          e.cy (by simp; exact hb.1) hcy0 hcy
        refine ⟨{ e3 with cy := e3.cy - 1 }, ?_⟩
        unfold editorDelChar
        rw [if_neg hend, if_neg hz]
        simp only [hr]
        rw [if_neg (by omega)]
        simp only [hp]
        unfold editorRowAppendString
        simp only [hp]
        rw [if_neg (by omega)]
        simp only [h3]

/-- In a valid state `editorInsertNewLine` and `editorInsertChar` return. -/
theorem insert_returns (e : editorConfig) (c : Int) (hb : BufferOK e) (hc : CursorOK e) :
    (∃ e1, editorInsertNewLine e = some e1) ∧ (∃ e1, editorInsertChar e c = some e1) := by
  refine ⟨?_, ?_⟩
  · by_cases hcx : e.cx = 0
    · exact ⟨_, editorInsertNewLine_cx0 e hb hc hcx⟩
    · have hcy : e.cy < e.numrows := by
        by_contra h
        exact hcx (hc.2.2.2 (by have := hc.2.1; omega))
      exact ⟨_, editorInsertNewLine_split e hb hc hcy hcx⟩
  · by_cases hcy : e.cy = e.numrows
    · exact ⟨_, editorInsertChar_end e c hb hc hcy⟩
    · exact ⟨_, editorInsertChar_row e c hb hc (by have := hc.2.1; omega)⟩

theorem save_write_returned (e : editorConfig) (st : Statics) (keys : List Int) (now : Int)
    (io : Option (List Nat)) : ∃ e1, editorSave.write e st keys now io = Outcome.returned e1 st keys := by
  unfold editorSave.write
  cases io with
  | none => exact ⟨_, rfl⟩
  | some err => exact ⟨_, rfl⟩

/-- In a valid state `editorSave` and `editorFind` return, or are still reading a key of
their prompt. -/
theorem prompts_return (e : editorConfig) (st : Statics) (keys : List Int) (now : Int)
    (io : Option (List Nat)) (hb : BufferOK e) (hc : CursorOK e) (hf : FindOK e st) :
    (∃ o, editorSave e st keys now io = some o ∧
      ((∃ e1 st1 keys1, o = Outcome.returned e1 st1 keys1) ∨
        (∃ e1 st1, o = Outcome.reading e1 st1))) ∧
    (∃ o, editorFind e st keys now = some o ∧
      ((∃ e1 st1 keys1, o = Outcome.returned e1 st1 keys1) ∨
        (∃ e1 st1, o = Outcome.reading e1 st1))) := by
  refine ⟨?_, ?_⟩
  · unfold editorSave
    cases hfn : e.filename with
    | some name =>
      obtain ⟨e1, h1⟩ := save_write_returned e st keys now io
      exact ⟨_, rfl, Or.inl ⟨e1, st, keys, h1⟩⟩
    | none =>
      obtain ⟨e1, st1, rest, h, _⟩ :=
        prompt_loop_spec (bytes "Save as: ", bytes " (ESC to cancel)") none (Or.inl rfl) now
          keys [] e st hb hc hf
      unfold editorPrompt
      simp only [h]
      cases promptReference.go keys [] with
      | input name =>
        obtain ⟨e2, h2⟩ := save_write_returned { e1 with filename := some name } st1 rest now io
        exact ⟨_, rfl, Or.inl ⟨e2, st1, rest, h2⟩⟩
      | cancelled => exact ⟨_, rfl, Or.inl ⟨_, _, _, rfl⟩⟩
      | reading buf => exact ⟨_, rfl, Or.inr ⟨_, _, rfl⟩⟩
  · obtain ⟨e1, st1, rest, h, _⟩ :=
      prompt_loop_spec (bytes "Search: ", bytes " (Use ESC / Arrows / Enter)")
        (some editorFindCallback) (Or.inr rfl) now keys [] e st hb hc hf
    unfold editorFind editorPrompt
    simp only [h]
    cases promptReference.go keys [] with
    | input name => exact ⟨_, rfl, Or.inl ⟨_, _, _, rfl⟩⟩
    | cancelled => exact ⟨_, rfl, Or.inl ⟨_, _, _, rfl⟩⟩
    | reading buf => exact ⟨_, rfl, Or.inr ⟨_, _, rfl⟩⟩

/-- In a valid state with `rowoff ≥ 0` and `screenrows ≥ 0` the `switch` of
`editorProcessKeypress` handles every key: it returns, or it is still reading a key of a
prompt. -/
theorem switch_returns (e : editorConfig) (st : Statics) (c : Int) (keys : List Int)
    (now : Int) (io : Option (List Nat)) (hb : BufferOK e) (hc : CursorOK e)
    (hf : FindOK e st) (hro : 0 ≤ e.rowoff) (hsr : 0 ≤ e.screenrows) :
    ∃ o, editorProcessKeypress.switch e st c keys now io = some o ∧
      ((∃ e1 st1 keys1, o = Outcome.returned e1 st1 keys1) ∨
        (∃ e1 st1, o = Outcome.reading e1 st1)) := by
  unfold editorProcessKeypress.switch
  by_cases h1 : c = ENTER
  · rw [if_pos h1]
    obtain ⟨e1, he1⟩ := (insert_returns e c hb hc).1
    simp only [he1]
    exact ⟨_, rfl, Or.inl ⟨_, _, _, rfl⟩⟩
  rw [if_neg h1]
  by_cases h2 : c = CTRL_KEY 115
  · rw [if_pos h2]
    exact (prompts_return e st keys now io hb hc hf).1
  rw [if_neg h2]
  by_cases h3 : c = CTRL_KEY 102
  · rw [if_pos h3]
    exact (prompts_return e st keys now io hb hc hf).2
  rw [if_neg h3]
  by_cases h4 : c = HOME_KEY
  · rw [if_pos h4]
    exact ⟨_, rfl, Or.inl ⟨_, _, _, rfl⟩⟩
  rw [if_neg h4]
  by_cases h5 : c = END_KEY
  · rw [if_pos h5]
    by_cases hcy : e.cy < e.numrows
    · obtain ⟨row, hr, _⟩ := cursor_row e hb hc hcy
      rw [if_pos hcy]
      simp only [hr]
      exact ⟨_, rfl, Or.inl ⟨_, _, _, rfl⟩⟩
    · rw [if_neg hcy]
      exact ⟨_, rfl, Or.inl ⟨_, _, _, rfl⟩⟩
  rw [if_neg h5]
  by_cases h6 : c = BACKSPACE ∨ c = CTRL_KEY 104 ∨ c = DEL_KEY
  · rw [if_pos h6]
    by_cases hdel : c = DEL_KEY
    · obtain ⟨e1, hm, hrow, hnum, _, hc1⟩ := editorMoveCursor_step e ARROW_RIGHT hb hc
      have hb1 : BufferOK e1 := by unfold BufferOK; rw [hrow, hnum]; exact hb
      obtain ⟨e2, hd2⟩ := editorDelChar_returns e1 hb1 hc1
      simp only [hdel, if_true, hm, hd2]
      exact ⟨_, rfl, Or.inl ⟨_, _, _, rfl⟩⟩
    · obtain ⟨e2, hd2⟩ := editorDelChar_returns e hb hc
      simp only [hdel, if_false, hd2]
      exact ⟨_, rfl, Or.inl ⟨_, _, _, rfl⟩⟩
  rw [if_neg h6]
  by_cases h7 : c = PAGE_UP ∨ c = PAGE_DOWN
  · rw [if_pos h7]
    by_cases hup : c = PAGE_UP
    · simp only [hup, if_true]
      rw [if_neg (by show ¬ e.screenrows < 0; omega)]
      obtain ⟨e2, h2⟩ := moveCursor_vertical_times ARROW_UP (Or.inl rfl) e.screenrows.toNat
        { e with cy := e.rowoff } hb hro
      simp only [h2]
      exact ⟨_, rfl, Or.inl ⟨_, _, _, rfl⟩⟩
    · have hdown : c = PAGE_DOWN := by
        rcases h7 with h | h
        · exact absurd h hup
        · exact h
      have hne : ¬ PAGE_DOWN = PAGE_UP := by decide
      simp only [hdown, hne, if_false]
      have hcall : ∀ e1 : editorConfig, e1.row = e.row → e1.numrows = e.numrows →
          (e.screenrows ≠ 0 → 0 ≤ e1.cy) →
          ∃ e2, callTimes (fun s => editorMoveCursor s ARROW_DOWN) e.screenrows.toNat e1 =
            some e2 := by
        intro e1 hrow hnum hcy
        by_cases hz : e.screenrows = 0
        · have h0 : e.screenrows.toNat = 0 := by omega
          rw [h0]
          exact ⟨e1, rfl⟩
        · exact moveCursor_vertical_times ARROW_DOWN (Or.inr rfl) e.screenrows.toNat e1
            (by unfold BufferOK; rw [hrow, hnum]; exact hb) (hcy hz)
      split_ifs with ha hb2 hb3
      · exact absurd hb2 (by show ¬ e.screenrows < 0; omega)
      · obtain ⟨e2, h2⟩ := hcall { e with cy := e.numrows } rfl rfl
          (fun _ => by show 0 ≤ e.numrows; rw [hb.1]; omega)
        simp only [h2]
        exact ⟨_, rfl, Or.inl ⟨_, _, _, rfl⟩⟩
      · exact absurd hb3 (by show ¬ e.screenrows < 0; omega)
      · obtain ⟨e2, h2⟩ := hcall { e with cy := e.rowoff + e.screenrows - 1 } rfl rfl
          (fun hz => by show 0 ≤ e.rowoff + e.screenrows - 1; omega)
        simp only [h2]
        exact ⟨_, rfl, Or.inl ⟨_, _, _, rfl⟩⟩
  rw [if_neg h7]
  by_cases h8 : c = ARROW_LEFT ∨ c = ARROW_DOWN ∨ c = ARROW_RIGHT ∨ c = ARROW_UP
  · rw [if_pos h8]
    obtain ⟨e1, hm, _⟩ := editorMoveCursor_step e c hb hc
    simp only [hm]
    exact ⟨_, rfl, Or.inl ⟨_, _, _, rfl⟩⟩
  rw [if_neg h8]
  by_cases h9 : c = CTRL_KEY 108 ∨ c = ESC
  · rw [if_pos h9]
    exact ⟨_, rfl, Or.inl ⟨_, _, _, rfl⟩⟩
  rw [if_neg h9]
  obtain ⟨e1, he1⟩ := (insert_returns e c hb hc).2
  simp only [he1]
  exact ⟨_, rfl, Or.inl ⟨_, _, _, rfl⟩⟩

/-- In a valid state with `rowoff ≥ 0` and `screenrows ≥ 0`, `editorProcessKeypress`
handles every key but Ctrl-Q by returning with the quit counter at `QUIT_TIMES`, unless it
is still reading a key of a prompt. -/
theorem processKeypress_resets (e : editorConfig) (st : Statics) (c : Int) (keys : List Int)
    (now : Int) (io : Option (List Nat)) (hb : BufferOK e) (hc : CursorOK e)
    (hf : FindOK e st) (hro : 0 ≤ e.rowoff) (hsr : 0 ≤ e.screenrows) (hq : c ≠ CTRL_KEY 113) :
    ∃ o, editorProcessKeypress e st c keys now io = some o ∧
      ((∃ e1 st1 keys1, o = Outcome.returned e1 st1 keys1 ∧ st1.quit_times = QUIT_TIMES) ∨
        (∃ e1 st1, o = Outcome.reading e1 st1)) := by
  obtain ⟨o, ho, hcase⟩ := switch_returns e st c keys now io hb hc hf hro hsr
  unfold editorProcessKeypress
  rw [if_neg hq, ho]
  rcases hcase with ⟨e1, st1, keys1, h⟩ | ⟨e1, st1, h⟩
  · subst h
    exact ⟨_, rfl, Or.inl ⟨_, _, _, rfl, rfl⟩⟩
  · subst h
    exact ⟨_, rfl, Or.inr ⟨_, _, rfl⟩⟩

/-! ## The quit guard -/

/-- One Ctrl-Q with unsaved changes and a positive counter is deferred. -/
theorem quit_deferred (e : editorConfig) (st : Statics) (keys : List Int) (now : Int)
    (io : Option (List Nat)) (hd : e.dirty ≠ 0) (hq : 0 < st.quit_times) :
    editorProcessKeypress e st (CTRL_KEY 113) keys now io =
      some (Outcome.returned (editorSetStatusMessage e (quitWarning st.quit_times) now)
        { st with quit_times := st.quit_times - 1 } keys) := by
  unfold editorProcessKeypress
  rw [if_pos rfl, if_pos ⟨hd, hq⟩]

/-- Ctrl-Q with the counter at 0 exits. -/
theorem quit_exits (e : editorConfig) (st : Statics) (keys : List Int) (now : Int)
    (io : Option (List Nat)) (hq : st.quit_times = 0) :
    editorProcessKeypress e st (CTRL_KEY 113) keys now io = some (Outcome.exited e 0) := by
  unfold editorProcessKeypress
  rw [if_pos rfl, if_neg (by omega)]

/-- With unsaved changes and the counter at `n`, the first `n` consecutive Ctrl-Q are all
deferred. -/
theorem quit_presses (now : Int) (io : Option (List Nat)) (k : Nat) :
    ∀ (e : editorConfig) (st : Statics), e.dirty ≠ 0 → 1 ≤ k → (k : Int) ≤ st.quit_times →
      pressSequence now io (List.replicate k (CTRL_KEY 113)) e st =
        some (Outcome.returned
          (editorSetStatusMessage e (quitWarning (st.quit_times - k + 1)) now)
          { st with quit_times := st.quit_times - k } []) := by
  induction k with
  | zero => intro e st _ h _; omega
  | succ k ih =>
    intro e st hd _ hk
    rw [List.replicate_succ, pressSequence, quit_deferred e st [] now io hd (by omega)]
    by_cases h0 : k = 0
    · subst h0
      simp [pressSequence]
    · have h := ih (editorSetStatusMessage e (quitWarning st.quit_times) now)
        { st with quit_times := st.quit_times - 1 } hd (by omega)
        (by show (k : Int) ≤ st.quit_times - 1; omega)
      simp only [h]
      have h1 : st.quit_times - 1 - (k : Int) + 1 = st.quit_times - ((k + 1 : Nat) : Int) + 1 := by
        push_cast; ring
      have h2 : st.quit_times - 1 - (k : Int) = st.quit_times - ((k + 1 : Nat) : Int) := by
        push_cast; ring
      simp only [h1, h2]
      rfl

/-- With unsaved changes and the counter at `n`, the consecutive Ctrl-Q number `n + 1`
exits. -/
theorem quit_exit_after (now : Int) (io : Option (List Nat)) (n : Nat) :
    ∀ (e : editorConfig) (st : Statics), e.dirty ≠ 0 → st.quit_times = n →
      ∃ e1, pressSequence now io (List.replicate (n + 1) (CTRL_KEY 113)) e st =
        some (Outcome.exited e1 0) := by
  induction n with
  | zero =>
    intro e st _ hq
    refine ⟨e, ?_⟩
    rw [List.replicate_succ, pressSequence, quit_exits e st [] now io (by simpa using hq)]
  | succ n ih =>
    intro e st hd hq
    obtain ⟨e1, h⟩ := ih (editorSetStatusMessage e (quitWarning st.quit_times) now)
      { st with quit_times := st.quit_times - 1 } hd
      (by show st.quit_times - 1 = (n : Int); rw [hq]; push_cast; omega)
    refine ⟨e1, ?_⟩
    rw [List.replicate_succ, pressSequence,
      quit_deferred e st [] now io hd (by rw [hq]; push_cast; omega)]
    exact h

/-- C16, counterexample: with unsaved changes and the counter just reset to
`QUIT_TIMES = 3`, the third consecutive Ctrl-Q is still deferred (it sets the warning for
one more press and leaves the counter at 0); the process does not exit. -/
theorem quit_third_press_deferred :
    QUIT_TIMES = 3 ∧ Statics.init.quit_times = QUIT_TIMES ∧
      ({ mkState [mkRow [97]] 0 1 with dirty := 1 } : editorConfig).dirty ≠ 0 ∧
      pressSequence 0 none [CTRL_KEY 113, CTRL_KEY 113, CTRL_KEY 113]
          { mkState [mkRow [97]] 0 1 with dirty := 1 } Statics.init =
        some (Outcome.returned
          (editorSetStatusMessage { mkState [mkRow [97]] 0 1 with dirty := 1 } (quitWarning 1) 0)
          { last_match := -1, direction := 1, quit_times := 0 } []) := by
  decide

/-- C16, amended: with `N = QUIT_TIMES = 3`, unsaved changes and the counter just reset,
each of the first `N` consecutive Ctrl-Q handled by `editorProcessKeypress` is deferred
(no exit; the warning with the number of presses still needed is set and the counter is
decremented, nothing else changes), and the consecutive Ctrl-Q number `N + 1` exits.
Every other key whose handling returns leaves the counter at `QUIT_TIMES`; and in a valid
state (with `rowoff ≥ 0` and `screenrows ≥ 0`) the handling of every other key does return,
unless it is still reading a key of the save or search prompt. -/
theorem quit_guard (e : editorConfig) (st : Statics) (now : Int) (io : Option (List Nat))
    (hd : e.dirty ≠ 0) (hq : st.quit_times = QUIT_TIMES) :
    (∀ k : Nat, 1 ≤ k → (k : Int) ≤ QUIT_TIMES →
      pressSequence now io (List.replicate k (CTRL_KEY 113)) e st =
        some (Outcome.returned
          (editorSetStatusMessage e (quitWarning (QUIT_TIMES - k + 1)) now)
          { st with quit_times := QUIT_TIMES - k } [])) ∧
    (∃ e1, pressSequence now io (List.replicate (QUIT_TIMES.toNat + 1) (CTRL_KEY 113)) e st =
      some (Outcome.exited e1 0)) ∧
    (∀ (e0 : editorConfig) (st0 : Statics) (c : Int) (keys : List Int) (e1 : editorConfig)
        (st1 : Statics) (keys1 : List Int), c ≠ CTRL_KEY 113 →
      editorProcessKeypress e0 st0 c keys now io = some (Outcome.returned e1 st1 keys1) →
      st1.quit_times = QUIT_TIMES) ∧
    (∀ (e0 : editorConfig) (st0 : Statics) (c : Int) (keys : List Int), BufferOK e0 →
        CursorOK e0 → FindOK e0 st0 → 0 ≤ e0.rowoff → 0 ≤ e0.screenrows → c ≠ CTRL_KEY 113 →
      ∃ o, editorProcessKeypress e0 st0 c keys now io = some o ∧
        ((∃ e1 st1 keys1, o = Outcome.returned e1 st1 keys1 ∧ st1.quit_times = QUIT_TIMES) ∨
          (∃ e1 st1, o = Outcome.reading e1 st1))) := by
  refine ⟨?_, ?_, ?_, ?_⟩
  · intro k hk1 hk2
    have h := quit_presses now io k e st hd hk1 (by rw [hq]; exact hk2)
    rw [hq] at h
    exact h
  · exact quit_exit_after now io QUIT_TIMES.toNat e st hd (by rw [hq]; decide)
  · intro e0 st0 c keys e1 st1 keys1 hc h
    unfold editorProcessKeypress at h
    rw [if_neg hc] at h
    split at h
    · injection h with h
      injection h with _ h2 _
      rw [← h2]
    · rename_i hne
      exact absurd h (hne e1 st1 keys1)
  · intro e0 st0 c keys hb hc hf hro hsr hq0
    exact processKeypress_resets e0 st0 c keys now io hb hc hf hro hsr hq0

/-- The quit guard of C16 on a one-line buffer with unsaved changes: three Ctrl-Q leave the
counter at 0, the fourth exits, and the key `x` pressed behind one Ctrl-Q resets the
counter to 3. -/
theorem quit_guard_witness :
    ({ mkState [mkRow [97]] 0 1 with dirty := 1 } : editorConfig).dirty ≠ 0 ∧
    Statics.init.quit_times = QUIT_TIMES ∧
    pressSequence 0 none (List.replicate 3 (CTRL_KEY 113))
        { mkState [mkRow [97]] 0 1 with dirty := 1 } Statics.init =
      some (Outcome.returned
        (editorSetStatusMessage { mkState [mkRow [97]] 0 1 with dirty := 1 } (quitWarning 1) 0)
        { Statics.init with quit_times := 0 } []) ∧
    (∃ e1, pressSequence 0 none (List.replicate 4 (CTRL_KEY 113))
        { mkState [mkRow [97]] 0 1 with dirty := 1 } Statics.init =
      some (Outcome.exited e1 0)) ∧
    (pressSequence 0 none [CTRL_KEY 113, 120]
        { mkState [mkRow [97]] 0 1 with dirty := 1 } Statics.init).map
      (fun o => match o with
        | Outcome.returned _ st1 _ => st1.quit_times
        | _ => -1) = some 3 := by
  have h := quit_guard { mkState [mkRow [97]] 0 1 with dirty := 1 } Statics.init 0 none
    (by decide) (by decide)
  exact ⟨by decide, by decide, h.1 3 (by decide) (by decide), h.2.1, by decide⟩


/-! ## The width of the status bar -/

theorem toDigitsCore_length (k : Nat) : ∀ (fuel n : Nat) (ds : List Char), n < 10 ^ (k + 1) →
    (Nat.toDigitsCore 10 fuel n ds).length ≤ ds.length + (k + 1) := by
  induction k with
  | zero =>
    intro fuel n ds hn
    cases fuel with
    | zero => simp [Nat.toDigitsCore]
    | succ fuel =>
      have h0 : n / 10 = 0 := by omega
      simp [Nat.toDigitsCore, h0]
  | succ k ih =>
    intro fuel n ds hn
    cases fuel with
    | zero => simp [Nat.toDigitsCore]
    | succ fuel =>
      simp only [Nat.toDigitsCore]
      split_ifs with h0
      · simp
      · have hlt : n / 10 < 10 ^ (k + 1) := by
          rw [Nat.div_lt_iff_lt_mul (by decide)]
          rw [pow_succ] at hn
          exact hn
        have h := ih fuel (n / 10) (Nat.digitChar (n % 10) :: ds) hlt
        simp at h
        omega

/-- The conversion `%d` of an `int` prints at most 11 bytes. -/
theorem fmtInt_length (n : Int) (h : IsInt n) : (fmtInt n).length ≤ 11 := by
  unfold IsInt at h
  unfold fmtInt Nat.toDigits
  split_ifs
  · have h1 := toDigitsCore_length 9 (n.natAbs + 1) n.natAbs [] (by omega)
    simp at h1 ⊢
    omega
  · have h1 := toDigitsCore_length 9 (n.toNat + 1) n.toNat [] (by omega)
    simp at h1 ⊢
    omega

/-- The left text of the status bar fits its 80-byte buffer. -/
theorem statusText_length (e : editorConfig) (hn : IsInt e.numrows) :
    (statusText e).length ≤ 49 := by
  have h1 := fmtInt_length e.numrows hn
  have h2 : ∀ s : List Nat, ((cstring s).take 20).length ≤ 20 := by
    intro s; simp
  have h4 : (bytes " - ").length = 3 := by decide
  have h5 : (bytes " lines ").length = 7 := by decide
  have h6 : (bytes "modified").length = 8 := by decide
  unfold statusText
  cases e.filename with
  | none =>
    have h3 := h2 (bytes "[No Name]")
    split_ifs <;> simp only [List.length_append, List.length_nil, h4, h5, h6] <;> omega
  | some name =>
    have h3 := h2 name
    split_ifs <;> simp only [List.length_append, List.length_nil, h4, h5, h6] <;> omega

/-- The counter of the status bar fits its 80-byte buffer. -/
theorem counterText_length (e : editorConfig) (hn : IsInt e.numrows) (hcy : IsInt (e.cy + 1)) :
    (counterText e).length ≤ 23 := by
  have h1 := fmtInt_length e.numrows hn
  have h2 := fmtInt_length (e.cy + 1) hcy
  have h4 : (bytes "/").length = 1 := by decide
  unfold counterText
  simp only [List.length_append, h4]
  omega

/-- The padding loop of `editorDrawStatusBar` fills the line up to `screencols`; when the
counter fits, the padding stops in front of it and the counter ends the line. -/
theorem statusBar_loop (rstatus : List Nat) (cols : Int) : ∀ (n : Nat) (len : Int) (ab : List Nat),
    n = (cols - len).toNat → len ≤ cols →
      ∃ pad, editorDrawStatusBar.loop rstatus rstatus.length cols n len ab = some (ab ++ pad) ∧
        (pad.length : Int) = cols - len ∧
        (len + rstatus.length ≤ cols →
          pad = List.replicate (cols - len - rstatus.length).toNat SPACE ++ rstatus) ∧
        (cols < len + rstatus.length → pad = List.replicate (cols - len).toNat SPACE) := by
  intro n
  induction n with
  | zero =>
    intro len ab hn hle
    have h0 : (cols - len).toNat = 0 := by omega
    refine ⟨[], by simp [editorDrawStatusBar.loop], by simp; omega, fun h => ?_, fun _ => ?_⟩
    · have hl : rstatus.length = 0 := by omega
      have h1 : (cols - len - (rstatus.length : Int)).toNat = 0 := by omega
      rw [h1]
      simp [List.length_eq_zero.mp hl]
    · rw [h0]; rfl
  | succ n ih =>
    intro len ab hn hle
    have hlt : len < cols := by omega
    simp only [editorDrawStatusBar.loop, if_pos hlt]
    by_cases heq : cols - len = rstatus.length
    · rw [if_pos heq]
      refine ⟨rstatus, by simp [abAppend], by omega, fun _ => ?_, fun h => by omega⟩
      have h1 : (cols - len - (rstatus.length : Int)).toNat = 0 := by omega
      rw [h1]
      rfl
    · rw [if_neg heq]
      have ha : abAppend ab [SPACE] 1 = some (ab ++ [SPACE]) := by
        simp [abAppend]
      simp only [ha]
      obtain ⟨pad, h1, h2, h3, h4⟩ := ih (len + 1) (ab ++ [SPACE]) (by omega) (by omega)
      refine ⟨SPACE :: pad, by rw [h1]; simp, by simp; omega, fun h => ?_, fun h => ?_⟩
      · rw [h3 (by omega)]
        have hk : (cols - len - (rstatus.length : Int)).toNat =
            (cols - (len + 1) - (rstatus.length : Int)).toNat + 1 := by omega
        rw [hk, List.replicate_succ]
        rfl
      · rw [h4 (by omega)]
        have hk : (cols - len).toNat = (cols - (len + 1)).toNat + 1 := by omega
        rw [hk, List.replicate_succ]

/-- C21: for every editor state with `screencols ≥ 0` (and `numrows`, `cy + 1` values of
an `int`), `editorDrawStatusBar` appends the inverted-video sequence `ESC [ 7 m`, then
exactly `screencols` bytes, then the reset sequence `ESC [ m` and `"\r\n"`.  These
`screencols` bytes start with the left status text truncated to `screencols`; whenever
this text and the counter `"cy+1/numrows"` together fit in `screencols`, the counter is
emitted and occupies the last columns, with nothing but spaces between the two; when they
do not fit, the rest of the line is spaces. -/
theorem editorDrawStatusBar_width (e : editorConfig) (ab : List Nat) (hcols : 0 ≤ e.screencols)
    (hn : IsInt e.numrows) (hcy : IsInt (e.cy + 1)) :
    ∃ pad, editorDrawStatusBar e ab =
        some (ab ++ [27, 91, 55, 109] ++ ((statusText e).take e.screencols.toNat ++ pad) ++
          [27, 91, 109] ++ [13, 10]) ∧
      ((((statusText e).take e.screencols.toNat ++ pad).length : Int) = e.screencols) ∧
      ((((statusText e).take e.screencols.toNat).length : Int) + (counterText e).length ≤
          e.screencols →
        pad = List.replicate (e.screencols - ((statusText e).take e.screencols.toNat).length -
          (counterText e).length).toNat SPACE ++ counterText e) ∧
      (e.screencols < (((statusText e).take e.screencols.toNat).length : Int) +
          (counterText e).length →
        pad = List.replicate (e.screencols -
          ((statusText e).take e.screencols.toNat).length).toNat SPACE) := by
  have hs := statusText_length e hn
  have hc := counterText_length e hn hcy
  have hst : (statusText e).take (80 - 1) = statusText e := by
    apply List.take_of_length_le; omega
  have hct : (counterText e).take (80 - 1) = counterText e := by
    apply List.take_of_length_le; omega
  have hlen : (((statusText e).take e.screencols.toNat).length : Int) =
      (if ((statusText e).length : Int) > e.screencols then e.screencols
        else ((statusText e).length : Int)) := by
    rw [List.length_take]
    split_ifs <;> omega
  have htake : (statusText e).take
      (if ((statusText e).length : Int) > e.screencols then e.screencols
        else ((statusText e).length : Int)).toNat = (statusText e).take e.screencols.toNat := by
    split_ifs with h
    · rfl
    · rw [List.take_of_length_le (by omega), List.take_of_length_le (by omega)]
  obtain ⟨pad, h1, h2, h3, h4⟩ := statusBar_loop (counterText e) e.screencols
    (e.screencols - (if ((statusText e).length : Int) > e.screencols then e.screencols
        else ((statusText e).length : Int))).toNat
    (if ((statusText e).length : Int) > e.screencols then e.screencols
        else ((statusText e).length : Int))
    (ab ++ [27, 91, 55, 109] ++ (statusText e).take e.screencols.toNat) rfl
    (by split_ifs <;> omega)
  refine ⟨pad, ?_, ?_, ?_, ?_⟩
  · unfold editorDrawStatusBar snprintf
    have ha1 : abAppend ab [27, 91, 55, 109] 4 = some (ab ++ [27, 91, 55, 109]) := by
      simp [abAppend]
    simp only [ha1, hst, hct]
    have ha2 : abAppend (ab ++ [27, 91, 55, 109]) (statusText e)
        (if ((statusText e).length : Int) > e.screencols then e.screencols
          else ((statusText e).length : Int)) =
        some (ab ++ [27, 91, 55, 109] ++ (statusText e).take e.screencols.toNat) := by
      unfold abAppend
      rw [if_neg (by split_ifs <;> omega), htake]
    simp only [ha2, h1]
    simp [abAppend]
  · rw [List.length_append]
    push_cast
    rw [h2, hlen]
    omega
  · intro h
    rw [hlen] at h ⊢
    exact h3 h
  · intro h
    rw [hlen] at h ⊢
    exact h4 h

/-- The status bar of C21 for the one-line buffer `"a"` without a file name in a window
of 30 columns: `"[No Name] - 1 lines "`, seven spaces, `"1/1"`. -/
theorem editorDrawStatusBar_width_witness :
    (0 : Int) ≤ ({ mkState [mkRow [97]] 0 0 with screencols := 30 } : editorConfig).screencols ∧
      IsInt ({ mkState [mkRow [97]] 0 0 with screencols := 30 } : editorConfig).numrows ∧
      IsInt (({ mkState [mkRow [97]] 0 0 with screencols := 30 } : editorConfig).cy + 1) ∧
      editorDrawStatusBar { mkState [mkRow [97]] 0 0 with screencols := 30 } [] =
        some ([27, 91, 55, 109] ++ bytes "[No Name] - 1 lines        1/1" ++ [27, 91, 109] ++
          [13, 10]) ∧
      ∃ pad, editorDrawStatusBar { mkState [mkRow [97]] 0 0 with screencols := 30 } [] =
        some ([] ++ [27, 91, 55, 109] ++
          ((statusText { mkState [mkRow [97]] 0 0 with screencols := 30 }).take
            ({ mkState [mkRow [97]] 0 0 with screencols := 30 } : editorConfig).screencols.toNat ++
            pad) ++ [27, 91, 109] ++ [13, 10]) := by
  obtain ⟨pad, h, _⟩ := editorDrawStatusBar_width
    { mkState [mkRow [97]] 0 0 with screencols := 30 } [] (by decide) (by decide) (by decide)
  exact ⟨by decide, by decide, by decide, by decide, pad, h⟩

/-! ## The render form and the column mapping -/

/-- One more iteration at the end of the loop of `editorRowCxtoRx`. -/
theorem cxtoRx_loop_succ (chars : List Nat) : ∀ (n : Nat) (j rx : Int), 0 ≤ j →
    editorRowCxtoRx.loop chars (n + 1) j rx =
      advance (chars.getD (j.toNat + n) 0) (editorRowCxtoRx.loop chars n j rx) := by
  intro n
  induction n with
  | zero => intro j rx _; simp [editorRowCxtoRx.loop]
  | succ n ih =>
    intro j rx hj
    have h := ih (j + 1) (advance (chars.getD j.toNat 0) rx) (by omega)
    have hk : (j + 1).toNat + n = j.toNat + (n + 1) := by omega
    rw [hk] at h
    rw [editorRowCxtoRx.loop, h, editorRowCxtoRx.loop]

/-- The column reached after `k` bytes, from column 0. -/
theorem cxtoRx_succ (chars : List Nat) (k : Nat) :
    editorRowCxtoRx.loop chars (k + 1) 0 0 =
      advance (chars.getD k 0) (editorRowCxtoRx.loop chars k 0 0) := by
  have h := cxtoRx_loop_succ chars k 0 0 (le_refl 0)
  simpa using h

theorem cxtoRx_nonneg (chars : List Nat) (k : Nat) : 0 ≤ editorRowCxtoRx.loop chars k 0 0 := by
  have h := cxtoRx_loop_ge chars k 0 0 (le_refl 0)
  omega

theorem cxtoRx_mono (chars : List Nat) (k : Nat) : ∀ n : Nat,
    editorRowCxtoRx.loop chars k 0 0 ≤ editorRowCxtoRx.loop chars (k + n) 0 0 := by
  intro n
  induction n with
  | zero => simp
  | succ n ih =>
    have h1 := cxtoRx_succ chars (k + n)
    have h2 := advance_gt (chars.getD (k + n) 0) _ (cxtoRx_nonneg chars (k + n))
    have hk : k + (n + 1) = k + n + 1 := by omega
    rw [hk, h1]
    omega

/-- The scan of `editorRowRxtoCx`, entered at byte `k` with the column reached there: it
stops at the byte that covers column `rx`, or runs to the end. -/
theorem rxtoCx_loop_covers (chars : List Nat) (rx : Int) : ∀ (n k : Nat),
    editorRowCxtoRx.loop chars k 0 0 ≤ rx →
      (rx < editorRowCxtoRx.loop chars (k + n) 0 0 →
        ∃ m : Nat, editorRowRxtoCx.loop chars rx n (k : Int)
            (editorRowCxtoRx.loop chars k 0 0) = (m : Int) ∧ k ≤ m ∧ m < k + n ∧
          editorRowCxtoRx.loop chars m 0 0 ≤ rx ∧ rx < editorRowCxtoRx.loop chars (m + 1) 0 0) ∧
      (editorRowCxtoRx.loop chars (k + n) 0 0 ≤ rx →
        editorRowRxtoCx.loop chars rx n (k : Int) (editorRowCxtoRx.loop chars k 0 0) =
          ((k + n : Nat) : Int)) := by
  intro n
  induction n with
  | zero =>
    intro k hk
    refine ⟨fun h => ?_, fun _ => ?_⟩
    · simp at h; omega
    · simp [editorRowRxtoCx.loop]
  | succ n ih =>
    intro k hk
    have hs := cxtoRx_succ chars k
    have hmono := cxtoRx_mono chars (k + 1) n
    have hkn : k + 1 + n = k + (n + 1) := by omega
    rw [hkn] at hmono
    have hget : chars.getD (k : Int).toNat 0 = chars.getD k 0 := by simp
    simp only [editorRowRxtoCx.loop, hget, ← hs]
    by_cases hgt : editorRowCxtoRx.loop chars (k + 1) 0 0 > rx
    · rw [if_pos hgt]
      refine ⟨fun _ => ⟨k, rfl, le_refl _, by omega, hk, hgt⟩, fun h => ?_⟩
      omega
    · rw [if_neg hgt]
      have h := ih (k + 1) (by omega)
      rw [hkn] at h
      have hc : ((k : Int) + 1) = ((k + 1 : Nat) : Int) := by push_cast; rfl
      rw [hc]
      refine ⟨fun h1 => ?_, fun h2 => h.2 h2⟩
      obtain ⟨m, hm, hkm, hmn, h3, h4⟩ := h.1 h1
      exact ⟨m, hm, by omega, by omega, h3, h4⟩

/-- C23: for every line (`size ≥ 0`) and every `rx ≥ 0`, with `r = editorRowRxtoCx(line, rx)`:
if `rx < editorRowCxtoRx(line, size)` then `0 ≤ r < size` and
`editorRowCxtoRx(line, r) ≤ rx < editorRowCxtoRx(line, r + 1)`, and no index up to `r` has
an accumulated column above `rx` (so `r` is the raw byte that covers column `rx`);
otherwise `r = size`. -/
theorem editorRowRxtoCx_covers (row : erow) (rx : Int) (hs : 0 ≤ row.size) (hrx : 0 ≤ rx) :
    (rx < editorRowCxtoRx row row.size →
      0 ≤ editorRowRxtoCx row rx ∧ editorRowRxtoCx row rx < row.size ∧
        editorRowCxtoRx row (editorRowRxtoCx row rx) ≤ rx ∧
        rx < editorRowCxtoRx row (editorRowRxtoCx row rx + 1) ∧
        ∀ j : Int, 0 ≤ j → j ≤ editorRowRxtoCx row rx → editorRowCxtoRx row j ≤ rx) ∧
    (¬ rx < editorRowCxtoRx row row.size → editorRowRxtoCx row rx = row.size) := by
  have h := rxtoCx_loop_covers row.chars rx row.size.toNat 0 (by simpa [editorRowCxtoRx.loop] using hrx)
  simp only [Nat.zero_add, editorRowCxtoRx.loop, Nat.cast_zero] at h
  unfold editorRowRxtoCx editorRowCxtoRx
  refine ⟨fun h1 => ?_, fun h2 => ?_⟩
  · obtain ⟨m, hm, _, hmn, h3, h4⟩ := h.1 h1
    rw [hm]
    have hm1 : ((m : Int) + 1).toNat = m + 1 := by omega
    refine ⟨by omega, by omega, by simpa using h3, by rw [hm1]; exact h4, ?_⟩
    intro j hj0 hjm
    have hmono := cxtoRx_mono row.chars j.toNat (m - j.toNat)
    have hk : j.toNat + (m - j.toNat) = m := by omega
    rw [hk] at hmono
    omega
  · rw [h.2 (by omega)]
    omega

/-- The claim of C23 on the line `"\tab"`: render column 5 lies in the tab (byte 0),
column 8 is the byte `a` (byte 1), and column 10 lies behind the line. -/
theorem editorRowRxtoCx_covers_witness :
    (0 : Int) ≤ (mkRow [9, 97, 98]).size ∧ (0 : Int) ≤ 5 ∧
      editorRowRxtoCx (mkRow [9, 97, 98]) 5 = 0 ∧ editorRowRxtoCx (mkRow [9, 97, 98]) 8 = 1 ∧
      editorRowRxtoCx (mkRow [9, 97, 98]) 10 = 3 ∧
      editorRowCxtoRx (mkRow [9, 97, 98]) (editorRowRxtoCx (mkRow [9, 97, 98]) 5) ≤ 5 ∧
      5 < editorRowCxtoRx (mkRow [9, 97, 98]) (editorRowRxtoCx (mkRow [9, 97, 98]) 5 + 1) := by
  have h := editorRowRxtoCx_covers (mkRow [9, 97, 98]) 5 (by decide) (by decide)
  have h1 := h.1 (by decide)
  exact ⟨by decide, by decide, by decide, by decide, by decide, h1.2.2.1, h1.2.2.2.1⟩

theorem tabExpansion_go_append (xs : List Nat) : ∀ (col : Nat) (ys : List Nat),
    tabExpansion.go col (xs ++ ys) =
      tabExpansion.go col xs ++ tabExpansion.go (col + (tabExpansion.go col xs).length) ys := by
  induction xs with
  | nil => intro col ys; simp [tabExpansion.go]
  | cons b bs ih =>
    intro col ys
    rw [List.cons_append]
    simp only [tabExpansion.go]
    by_cases hb : b = TAB
    · simp only [hb, if_true]
      rw [ih]
      simp [Nat.add_assoc]
    · simp only [hb, if_false]
      rw [ih]
      simp [Nat.add_assoc, Nat.add_comm]

theorem tabExpansion_go_length_le (s : List Nat) : ∀ col : Nat,
    (tabExpansion.go col s).length ≤ s.length + 7 * s.count TAB := by
  induction s with
  | nil => intro col; simp [tabExpansion.go]
  | cons b bs ih =>
    intro col
    simp only [tabExpansion.go]
    by_cases hb : b = TAB
    · simp only [hb, if_true]
      have h := ih (col + (8 - col % 8))
      simp
      omega
    · simp only [hb, if_false]
      have h := ih (col + 1)
      have hc : (b :: bs).count TAB = bs.count TAB := by
        rw [List.count_cons_of_ne (fun h => hb h.symm)]
      rw [hc]
      simp
      omega

/-- The pieces of a line around byte `j`. -/
theorem take_succ_getD (chars : List Nat) (j : Nat) (hj : j < chars.length) :
    chars.take (j + 1) = chars.take j ++ [chars.getD j 0] ∧
      chars = chars.take (j + 1) ++ chars.drop (j + 1) := by
  refine ⟨?_, (List.take_append_drop _ _).symm⟩
  rw [List.take_succ, List.getD_eq_getElem?_getD, List.getElem?_eq_getElem hj]
  simp

/-- The column that `editorRowCxtoRx` reaches after `k` bytes is the length of the tab
expansion of these bytes. -/
theorem cxtoRx_eq_expansion (chars : List Nat) : ∀ k : Nat, k ≤ chars.length →
    editorRowCxtoRx.loop chars k 0 0 = ((tabExpansion (chars.take k)).length : Int) := by
  intro k
  induction k with
  | zero => intro _; simp [editorRowCxtoRx.loop, tabExpansion, tabExpansion.go]
  | succ k ih =>
    intro hk
    have h1 := ih (by omega)
    have h2 := (take_succ_getD chars k (by omega)).1
    rw [cxtoRx_succ, h1, h2]
    unfold tabExpansion
    rw [tabExpansion_go_append]
    simp only [tabExpansion.go, Nat.zero_add, List.length_append]
    unfold advance TAB_STOP
    rw [Int.tmod_eq_emod (Int.ofNat_nonneg _) (by decide)]
    by_cases hb : chars.getD k 0 = TAB
    · simp only [hb, if_true]
      simp
      omega
    · simp only [hb, if_false]
      simp

/-- The tab expansion of a line, cut in front of and behind the expansion of byte `j`. -/
theorem tabExpansion_split (chars : List Nat) (j : Nat) (hj : j < chars.length) :
    ∃ rest, tabExpansion chars = tabExpansion (chars.take j) ++
      (tabExpansion.go (tabExpansion (chars.take j)).length [chars.getD j 0] ++ rest) := by
  obtain ⟨h1, h2⟩ := take_succ_getD chars j hj
  refine ⟨tabExpansion.go (0 + (tabExpansion.go 0 (chars.take (j + 1))).length)
    (chars.drop (j + 1)), ?_⟩
  have h3 : tabExpansion chars = tabExpansion.go 0 (chars.take (j + 1) ++ chars.drop (j + 1)) := by
    rw [← h2]; rfl
  rw [h3, tabExpansion_go_append, h1, tabExpansion_go_append]
  simp [tabExpansion]

/-- The render form that `editorUpdateRow` builds for a line is its tab expansion. -/
theorem editorUpdateRow_render (row : erow) (hs : row.size = row.chars.length) :
    (editorUpdateRow row).render = tabExpansion row.chars ∧
      (editorUpdateRow row).rsize = ((tabExpansion row.chars).length : Int) := by
  have h := updateRow_loop_eq row.chars []
  simp only [List.nil_append, List.length_nil] at h
  have ht : row.chars.take row.size.toNat = row.chars := by
    apply List.take_of_length_le; omega
  simp [editorUpdateRow, ht, h, tabExpansion]

/-- C22: for every raw line, the render form built by `editorUpdateRow` agrees with
`editorRowCxtoRx`: `rsize = editorRowCxtoRx(line, size)`, the length of `render`; for
every index `j < size` whose byte is not a tab, `render[editorRowCxtoRx(line, j)]` is that
byte; for every tab at index `j`, the render bytes at the columns from
`editorRowCxtoRx(line, j)` up to, not including, `editorRowCxtoRx(line, j + 1)` are all
spaces, and `editorRowCxtoRx(line, j + 1)` is the next multiple of 8 strictly greater than
`editorRowCxtoRx(line, j)`.  And `rsize ≤ size + 7 * tabs`, so `render` with its NUL fits
the `size + 7 * tabs + 1` bytes allocated for it. -/
theorem editorUpdateRow_agrees (row : erow) (hs : row.size = row.chars.length) :
    (editorUpdateRow row).rsize = editorRowCxtoRx row row.size ∧
    (editorUpdateRow row).rsize = (editorUpdateRow row).render.length ∧
    (∀ j : Nat, (j : Int) < row.size →
      0 ≤ editorRowCxtoRx row j ∧
      (row.chars.getD j 0 ≠ TAB →
        (editorUpdateRow row).render[(editorRowCxtoRx row j).toNat]? =
          some (row.chars.getD j 0)) ∧
      (row.chars.getD j 0 = TAB →
        (∀ col : Int, editorRowCxtoRx row j ≤ col → col < editorRowCxtoRx row (j + 1) →
          (editorUpdateRow row).render[col.toNat]? = some SPACE) ∧
        editorRowCxtoRx row j < editorRowCxtoRx row (j + 1) ∧
        editorRowCxtoRx row (j + 1) ≤ editorRowCxtoRx row j + TAB_STOP ∧
        editorRowCxtoRx row (j + 1) % TAB_STOP = 0)) ∧
    (editorUpdateRow row).rsize ≤ row.size + 7 * editorUpdateRow.tabs row ∧
    (editorUpdateRow row).rsize + 1 ≤ editorUpdateRow.capacity row := by
  obtain ⟨hren, hrs⟩ := editorUpdateRow_render row hs
  have ht : row.chars.take row.size.toNat = row.chars := by
    apply List.take_of_length_le; omega
  have hcap : (editorUpdateRow row).rsize ≤ row.size + 7 * editorUpdateRow.tabs row := by
    have h := tabExpansion_go_length_le row.chars 0
    rw [hrs, hs]
    unfold editorUpdateRow.tabs
    rw [ht]
    unfold tabExpansion
    omega
  refine ⟨?_, ?_, ?_, hcap, ?_⟩
  · rw [hrs]
    unfold editorRowCxtoRx
    rw [cxtoRx_eq_expansion row.chars row.size.toNat (by omega), ht]
  · rw [hrs, hren]
  · intro j hj
    have hjl : j < row.chars.length := by omega
    have hcj : editorRowCxtoRx row j = ((tabExpansion (row.chars.take j)).length : Int) := by
      unfold editorRowCxtoRx
      simpa using cxtoRx_eq_expansion row.chars j (by omega)
    have hcj1 : editorRowCxtoRx row (j + 1) =
        editorRowCxtoRx row j +
          ((tabExpansion.go (tabExpansion (row.chars.take j)).length
            [row.chars.getD j 0]).length : Int) := by
      rw [hcj]
      unfold editorRowCxtoRx
      have hk : ((j : Int) + 1).toNat = j + 1 := by omega
      rw [hk, cxtoRx_eq_expansion row.chars (j + 1) (by omega), (take_succ_getD row.chars j hjl).1]
      unfold tabExpansion
      rw [tabExpansion_go_append]
      simp
    obtain ⟨rest, hsplit⟩ := tabExpansion_split row.chars j hjl
    generalize row.chars.getD j 0 = b at hcj1 hsplit
    refine ⟨by rw [hcj]; exact Int.ofNat_nonneg _, ?_, ?_⟩
    · intro hb
      rw [hren, hcj, hsplit, Int.toNat_ofNat, List.getElem?_append_right (le_refl _)]
      simp [tabExpansion.go, hb]
    · intro hb
      have hlen : (tabExpansion.go (tabExpansion (row.chars.take j)).length
          [b]).length = 8 - (tabExpansion (row.chars.take j)).length % 8 := by
        simp [tabExpansion.go, hb]
      rw [hlen] at hcj1
      refine ⟨?_, by omega, by unfold TAB_STOP; omega, by unfold TAB_STOP; omega⟩
      intro col h1 h2
      rw [hren, hsplit]
      have hc : col.toNat = (tabExpansion (row.chars.take j)).length +
          (col.toNat - (tabExpansion (row.chars.take j)).length) := by omega
      rw [hc, List.getElem?_append_right (by omega)]
      simp only [Nat.add_sub_cancel_left, tabExpansion.go, hb, if_true, List.append_nil]
      rw [List.getElem?_append_left (by simp; omega)]
      rw [List.getElem?_replicate]
      rw [if_pos (by omega)]
  · unfold editorUpdateRow.capacity TAB_STOP
    omega

/-- The claim of C22 on the line `"a\tb"`: `render` is `a`, seven spaces, `b`, of length
9 = `editorRowCxtoRx(line, 3)`, within the 11 bytes allocated. -/
theorem editorUpdateRow_agrees_witness :
    (erow.mk 3 0 [97, 9, 98] []).size = ([97, 9, 98] : List Nat).length ∧
      (editorUpdateRow (erow.mk 3 0 [97, 9, 98] [])).render =
        [97, 32, 32, 32, 32, 32, 32, 32, 98] ∧
      (editorUpdateRow (erow.mk 3 0 [97, 9, 98] [])).rsize =
        editorRowCxtoRx (erow.mk 3 0 [97, 9, 98] []) (erow.mk 3 0 [97, 9, 98] []).size ∧
      (editorUpdateRow (erow.mk 3 0 [97, 9, 98] [])).rsize + 1 ≤
        editorUpdateRow.capacity (erow.mk 3 0 [97, 9, 98] []) ∧
      editorUpdateRow.capacity (erow.mk 3 0 [97, 9, 98] []) = 11 :=
  ⟨by decide, by decide,
    (editorUpdateRow_agrees (erow.mk 3 0 [97, 9, 98] []) (by decide)).1,
    (editorUpdateRow_agrees (erow.mk 3 0 [97, 9, 98] []) (by decide)).2.2.2.2, by decide⟩

/-! ## The cursor invariant under a key press -/

theorem cursorOK_of_row (e : editorConfig) (r : erow) (h0 : 0 ≤ e.cy) (h1 : e.cy < e.numrows)
    (hr : rowAt e.row e.cy = some r) (hx0 : 0 ≤ e.cx) (hx1 : e.cx ≤ r.size) : CursorOK e := by
  unfold CursorOK
  refine ⟨h0, by omega, fun _ => ?_, fun h => by omega⟩
  rw [hr]
  exact ⟨hx0, hx1⟩

theorem cursorOK_of_end (e : editorConfig) (h0 : 0 ≤ e.cy) (h1 : e.cy = e.numrows)
    (hx : e.cx = 0) : CursorOK e := by
  unfold CursorOK
  exact ⟨h0, by omega, fun h => by omega, fun _ => hx⟩

/-- A cursor with `0 ≤ cy ≤ numrows` that sits at column 0 is valid. -/
theorem cursorOK_of_cx0 (e : editorConfig) (hb : BufferOK e) (h0 : 0 ≤ e.cy)
    (h1 : e.cy ≤ e.numrows) (hx : e.cx = 0) : CursorOK e := by
  by_cases hlt : e.cy < e.numrows
  · obtain ⟨r, hr, hmem, _⟩ := rowAt_of_lt e.row e.cy h0 (by rw [← hb.1]; exact hlt)
    have hs := hb.2 r hmem
    exact cursorOK_of_row e r h0 hlt hr (by omega) (by omega)
  · exact cursorOK_of_end e h0 (by omega) hx

theorem rowAt_set_self (rows : List erow) (i : Int) (r : erow) (h0 : 0 ≤ i)
    (h1 : i < rows.length) : rowAt (rows.set i.toNat r) i = some r := by
  unfold rowAt
  rw [if_pos h0]
  exact List.getElem?_set_self (by omega)

/-- The units of the rows in front of a slot. -/
theorem cellsOfRows_take : ∀ (rows : List erow) (a : Nat),
    (cellsOfRows rows).take (3 * a) = cellsOfRows (rows.take a) := by
  intro rows
  induction rows with
  | nil => intro a; simp [cellsOfRows]
  | cons r rs ih =>
    intro a
    cases a with
    | zero => simp [cellsOfRows]
    | succ a =>
      have hk : 3 * (a + 1) = 3 * a + 1 + 1 + 1 := by omega
      rw [hk]
      simp [cellsOfRows, erow.toCells, ih]

theorem rowsOfCells_append (xs : List erow) (rest : List Cell) :
    rowsOfCells (cellsOfRows xs ++ rest) = xs ++ rowsOfCells rest := by
  induction xs with
  | nil => simp [cellsOfRows]
  | cons r rs ih => simp [cellsOfRows, erow.toCells, rowsOfCells, ih]

/-- The function `editorDelRow` on an existing row returns; it takes one off `numrows` and
leaves the rows in front of the deleted one, and the cursor, as they are. -/
theorem editorDelRow_before (e : editorConfig) (at_ : Int) (hn : e.numrows = e.row.length)
    (h0 : 0 ≤ at_) (h1 : at_ < e.numrows) :
    ∃ e1, editorDelRow e at_ = some e1 ∧ e1.numrows = e.numrows - 1 ∧ e1.cx = e.cx ∧
      e1.cy = e.cy ∧ ∀ i : Nat, i < at_.toNat → e1.row[i]? = e.row[i]? := by
  obtain ⟨r, hr, _, hget⟩ := rowAt_of_lt e.row at_ h0 (by rw [← hn]; exact h1)
  unfold editorDelRow
  rw [if_neg (by omega)]
  simp only [hr]
  rw [if_neg (by omega)]
  refine ⟨_, rfl, rfl, rfl, rfl, ?_⟩
  intro i hi
  show (List.take (e.numrows - 1).toNat (rowsOfCells (memmove
    (cellsOfRows (e.row.set at_.toNat (editorFreeRow r))) (EROW_UNITS * at_.toNat)
    (EROW_UNITS * (at_.toNat + 1)) (e.numrows - at_ - 1).toNat)))[i]? = e.row[i]?
  rw [editorFreeRow, set_getElem?_self r _ e.row hget]
  unfold memmove EROW_UNITS
  rw [cellsOfRows_take, rowsOfCells_append, List.getElem?_take_of_lt (by omega),
    List.getElem?_append_left (by simp; omega), List.getElem?_take_of_lt hi]

theorem cursorOK_cx_nonneg (e : editorConfig) (hb : BufferOK e) (hc : CursorOK e) : 0 ≤ e.cx := by
  by_cases h : e.cy < e.numrows
  · obtain ⟨_, _, _, _, _, h0, _⟩ := cursor_row e hb hc h
    exact h0
  · have := hc.2.2.2 (by have := hc.2.1; omega)
    omega

/-- In a valid state `editorDelChar` returns a state with a valid cursor, also when it
merges two rows. -/
theorem editorDelChar_cursorOK (e : editorConfig) (hb : BufferOK e) (hc : CursorOK e) :
    ∃ e1, editorDelChar e = some e1 ∧ CursorOK e1 := by
  by_cases hend : e.cy = e.numrows
  · exact ⟨e, by unfold editorDelChar; rw [if_pos hend], hc⟩
  · have hcy : e.cy < e.numrows := by have := hc.2.1; omega
    obtain ⟨row, hr, hmem, _, hsz, hcx0, hcx1, hline, hlt⟩ := cursor_row e hb hc hcy
    by_cases hcx : 0 < e.cx
    · refine ⟨_, editorDelChar_row e hb hc hcy hcx, ?_⟩
      refine cursorOK_of_row _ (mkRow (((lines e).getD e.cy.toNat []).eraseIdx (e.cx.toNat - 1)))
        hc.1 hcy (rowAt_set_self e.row e.cy _ hc.1 (by omega)) ?_ ?_
      · show 0 ≤ e.cx - 1; omega
      · show e.cx - 1 ≤ (mkRow (((lines e).getD e.cy.toNat []).eraseIdx (e.cx.toNat - 1))).size
        rw [mkRow_size, hline, List.length_eraseIdx]
        split <;> omega
    · by_cases hz : e.cx = 0 ∧ e.cy = 0
      · exact ⟨e, by unfold editorDelChar; rw [if_neg hend, if_pos hz], hc⟩
      · have hcy0 := hc.1
        obtain ⟨prev, hp, hpmem, _⟩ := rowAt_of_lt e.row (e.cy - 1) (by omega)
          (by have := hb.1; omega)
        have hpsz := hb.2 prev hpmem
        obtain ⟨e3, h3, hnum, h3x, h3y, hrows⟩ := editorDelRow_before
          { e with cx := prev.size,
                   row := e.row.set (e.cy - 1).toNat (editorUpdateRow { prev with
                     chars := prev.chars.take prev.size.toNat ++ row.chars.take row.size.toNat
                     size := prev.size + row.size }),
                   dirty := e.dirty + 1 }
          e.cy (by simp; exact hb.1) hcy0 hcy
        refine ⟨{ e3 with cy := e3.cy - 1 }, ?_, ?_⟩
        · unfold editorDelChar
          rw [if_neg hend, if_neg hz]
          simp only [hr]
          rw [if_neg (by omega)]
          simp only [hp]
          unfold editorRowAppendString
          simp only [hp]
          rw [if_neg (by omega)]
          simp only [h3]
        · have hget := hrows (e.cy - 1).toNat (by omega)
          rw [List.getElem?_set_self (by have := hb.1; omega)] at hget
          refine cursorOK_of_row _ _ (by show 0 ≤ e3.cy - 1; rw [h3y]; show 0 ≤ e.cy - 1; omega)
            (by show e3.cy - 1 < e3.numrows; rw [h3y, hnum]; show e.cy - 1 < e.numrows - 1; omega)
            (by
              show rowAt e3.row (e3.cy - 1) = _
              unfold rowAt
              rw [h3y, if_pos (by show 0 ≤ e.cy - 1; omega)]
              exact hget) ?_ ?_
          · show 0 ≤ e3.cx
            rw [h3x]; show 0 ≤ prev.size; omega
          · show e3.cx ≤ _
            rw [h3x, editorUpdateRow_size]
            show prev.size ≤ prev.size + row.size
            omega

/-- In a valid state `editorInsertNewLine` returns a state with a valid cursor. -/
theorem editorInsertNewLine_cursorOK (e : editorConfig) (hb : BufferOK e) (hc : CursorOK e) :
    ∃ e1, editorInsertNewLine e = some e1 ∧ CursorOK e1 := by
  have hn := hb.1
  have hcy0 := hc.1
  have hcy1 := hc.2.1
  by_cases hcx : e.cx = 0
  · refine ⟨_, editorInsertNewLine_cx0 e hb hc hcx, ?_⟩
    apply cursorOK_of_cx0
    · refine ⟨?_, ?_⟩
      · show e.numrows + 1 = ((e.row.take e.cy.toNat ++ mkRow [] :: e.row.drop e.cy.toNat).length : Int)
        simp
        omega
      · intro r hr
        have hr1 : r ∈ e.row.take e.cy.toNat ++ mkRow [] :: e.row.drop e.cy.toNat := hr
        rw [List.mem_append, List.mem_cons] at hr1
        rcases hr1 with h | h | h
        · exact hb.2 r (List.mem_of_mem_take h)
        · rw [h]; rfl
        · exact hb.2 r (List.mem_of_mem_drop h)
    · show 0 ≤ e.cy + 1; omega
    · show e.cy + 1 ≤ e.numrows + 1; omega
    · rfl
  · have hcy : e.cy < e.numrows := by
      by_contra h
      exact hcx (hc.2.2.2 (by omega))
    refine ⟨_, editorInsertNewLine_split e hb hc hcy hcx, ?_⟩
    apply cursorOK_of_cx0
    · refine ⟨?_, ?_⟩
      · show e.numrows + 1 = ((e.row.take e.cy.toNat ++
          mkRow (((lines e).getD e.cy.toNat []).take e.cx.toNat) ::
          mkRow (((lines e).getD e.cy.toNat []).drop e.cx.toNat) ::
          e.row.drop (e.cy.toNat + 1)).length : Int)
        simp
        omega
      · intro r hr
        have hr1 : r ∈ e.row.take e.cy.toNat ++
          mkRow (((lines e).getD e.cy.toNat []).take e.cx.toNat) ::
          mkRow (((lines e).getD e.cy.toNat []).drop e.cx.toNat) ::
          e.row.drop (e.cy.toNat + 1) := hr
        rw [List.mem_append, List.mem_cons, List.mem_cons] at hr1
        rcases hr1 with h | h | h | h
        · exact hb.2 r (List.mem_of_mem_take h)
        · rw [h]; rfl
        · rw [h]; rfl
        · exact hb.2 r (List.mem_of_mem_drop h)
    · show 0 ≤ e.cy + 1; omega
    · show e.cy + 1 ≤ e.numrows + 1; omega
    · rfl

/-- In a valid state `editorInsertChar` returns a state with a valid cursor. -/
theorem editorInsertChar_cursorOK (e : editorConfig) (c : Int) (hb : BufferOK e)
    (hc : CursorOK e) : ∃ e1, editorInsertChar e c = some e1 ∧ CursorOK e1 := by
  have hn := hb.1
  have hcy0 := hc.1
  by_cases hcy : e.cy = e.numrows
  · refine ⟨_, editorInsertChar_end e c hb hc hcy, ?_⟩
    refine cursorOK_of_row _ (mkRow [byteOfInt c]) hcy0
      (by show e.cy < e.numrows + 1; omega) ?_ (by show (0 : Int) ≤ 1; omega)
      (by show (1 : Int) ≤ (mkRow [byteOfInt c]).size; rw [mkRow_size]; simp)
    show rowAt (e.row ++ [mkRow [byteOfInt c]]) e.cy = _
    unfold rowAt
    rw [if_pos hcy0]
    have hk : e.cy.toNat = e.row.length := by omega
    rw [hk]
    simp
  · have hlt : e.cy < e.numrows := by have := hc.2.1; omega
    obtain ⟨row, hr, hmem, _, hsz, hcx0, hcx1, hline, _⟩ := cursor_row e hb hc hlt
    refine ⟨_, editorInsertChar_row e c hb hc hlt, ?_⟩
    refine cursorOK_of_row _ _ hcy0 hlt (rowAt_set_self e.row e.cy _ hcy0 (by omega))
      (by show 0 ≤ e.cx + 1; omega) ?_
    show e.cx + 1 ≤ (mkRow _).size
    rw [mkRow_size, hline]
    simp
    omega

/-- The clamp at the end of `editorMoveCursor` makes the cursor valid once `cy` is a row
index or the virtual line and `cx ≥ 0`. -/
theorem moveCursor_clamp_ok (e e1 : editorConfig) (r : Option erow) (key : Int)
    (hcur : currentRow e = some r) (hmove : editorMoveCursor.move e r key = some e1)
    (hb1 : BufferOK e1) (h0 : 0 ≤ e1.cy) (h1 : e1.cy ≤ e1.numrows) (hx : 0 ≤ e1.cx) :
    ∃ e2, editorMoveCursor e key = some e2 ∧ e2.row = e1.row ∧ e2.numrows = e1.numrows ∧
      CursorOK e2 := by
  unfold editorMoveCursor
  simp only [hcur, hmove]
  rw [currentRow_of_ok e1 hb1 h0 h1]
  simp only []
  by_cases hlt : e1.cy < e1.numrows
  · obtain ⟨r1, hr1, hmem, _⟩ := rowAt_of_lt e1.row e1.cy h0 (by rw [← hb1.1]; omega)
    have hs := hb1.2 r1 hmem
    rw [hr1]
    simp only []
    by_cases hgt : e1.cx > r1.size
    · rw [if_pos hgt]
      exact ⟨_, rfl, rfl, rfl, cursorOK_of_row _ r1 h0 hlt hr1 (by show 0 ≤ r1.size; omega)
        (le_refl _)⟩
    · rw [if_neg hgt]
      exact ⟨_, rfl, rfl, rfl, cursorOK_of_row _ r1 h0 hlt hr1 hx (by omega)⟩
  · rw [rowAt_of_ge e1.row e1.cy (by rw [← hb1.1]; omega)]
    simp only []
    by_cases hgt : e1.cx > 0
    · rw [if_pos hgt]
      exact ⟨_, rfl, rfl, rfl, cursorOK_of_end _ h0 (by show e1.cy = e1.numrows; omega) rfl⟩
    · rw [if_neg hgt]
      exact ⟨_, rfl, rfl, rfl, cursorOK_of_end _ h0 (by omega) (by omega)⟩

/-- One step Up or Down from any row index `0 ≤ cy ≤ numrows` with `cx ≥ 0`, whatever the
length of that row, ends with a valid cursor. -/
theorem moveCursor_vertical_ok (e : editorConfig) (key : Int) (hb : BufferOK e) (h0 : 0 ≤ e.cy)
    (h1 : e.cy ≤ e.numrows) (hx : 0 ≤ e.cx) (hkey : key = ARROW_UP ∨ key = ARROW_DOWN) :
    ∃ e1, editorMoveCursor e key = some e1 ∧ e1.row = e.row ∧ e1.numrows = e.numrows ∧
      CursorOK e1 := by
  obtain ⟨r, hr⟩ := currentRow_returns e hb h0
  rcases hkey with hk | hk
  · subst hk
    by_cases hz : e.cy ≠ 0
    · have hm : editorMoveCursor.move e r ARROW_UP = some { e with cy := e.cy - 1 } := by
        unfold editorMoveCursor.move
        rw [if_neg (by decide), if_neg (by decide), if_neg (by decide), if_pos rfl, if_pos hz]
      obtain ⟨e2, h2, hrow, hnum, hc2⟩ := moveCursor_clamp_ok e { e with cy := e.cy - 1 } r
        ARROW_UP hr hm hb (by show 0 ≤ e.cy - 1; omega) (by show e.cy - 1 ≤ e.numrows; omega) hx
      exact ⟨e2, h2, hrow, hnum, hc2⟩
    · have hm : editorMoveCursor.move e r ARROW_UP = some e := by
        unfold editorMoveCursor.move
        rw [if_neg (by decide), if_neg (by decide), if_neg (by decide), if_pos rfl, if_neg hz]
      exact moveCursor_clamp_ok e _ r ARROW_UP hr hm hb h0 h1 hx
  · subst hk
    by_cases hz : e.cy < e.numrows
    · have hm : editorMoveCursor.move e r ARROW_DOWN = some { e with cy := e.cy + 1 } := by
        unfold editorMoveCursor.move
        rw [if_neg (by decide), if_pos rfl, if_pos hz]
      obtain ⟨e2, h2, hrow, hnum, hc2⟩ := moveCursor_clamp_ok e { e with cy := e.cy + 1 } r
        ARROW_DOWN hr hm hb (by show 0 ≤ e.cy + 1; omega) (by show e.cy + 1 ≤ e.numrows; omega) hx
      exact ⟨e2, h2, hrow, hnum, hc2⟩
    · have hm : editorMoveCursor.move e r ARROW_DOWN = some e := by
        unfold editorMoveCursor.move
        rw [if_neg (by decide), if_pos rfl, if_neg hz]
      exact moveCursor_clamp_ok e _ r ARROW_DOWN hr hm hb h0 h1 hx

/-- Repeated calls of `editorMoveCursor` with one key keep a valid cursor valid. -/
theorem callTimes_cursorOK (key : Int) (n : Nat) : ∀ e : editorConfig, BufferOK e → CursorOK e →
    ∃ e1, callTimes (fun s => editorMoveCursor s key) n e = some e1 ∧ CursorOK e1 := by
  induction n with
  | zero => intro e _ hc; exact ⟨e, rfl, hc⟩
  | succ n ih =>
    intro e hb hc
    obtain ⟨e1, h1, hrow, hnum, _, hc1⟩ := editorMoveCursor_step e key hb hc
    have hb1 : BufferOK e1 := by unfold BufferOK; rw [hrow, hnum]; exact hb
    obtain ⟨e2, h2, hc2⟩ := ih e1 hb1 hc1
    exact ⟨e2, by simp only [callTimes, h1]; exact h2, hc2⟩

/-- The moves of Page Up and Page Down: at least one step Up or Down, from a row index
`0 ≤ cy ≤ numrows` with `cx ≥ 0`, ends with a valid cursor. -/
theorem page_moves_ok (key : Int) (hkey : key = ARROW_UP ∨ key = ARROW_DOWN) (n : Nat)
    (hn : 1 ≤ n) (e : editorConfig) (hb : BufferOK e) (h0 : 0 ≤ e.cy) (h1 : e.cy ≤ e.numrows)
    (hx : 0 ≤ e.cx) :
    ∃ e1, callTimes (fun s => editorMoveCursor s key) n e = some e1 ∧ CursorOK e1 := by
  cases n with
  | zero => omega
  | succ n =>
    obtain ⟨e1, hm, hrow, hnum, hc1⟩ := moveCursor_vertical_ok e key hb h0 h1 hx hkey
    have hb1 : BufferOK e1 := by unfold BufferOK; rw [hrow, hnum]; exact hb
    obtain ⟨e2, h2, hc2⟩ := callTimes_cursorOK key n e1 hb1 hc1
    exact ⟨e2, by simp only [callTimes, hm]; exact h2, hc2⟩

/-- The `switch` of `editorProcessKeypress` keeps the cursor valid for every key but save
and find, in a window of at least one row with `0 ≤ rowoff ≤ cy`. -/
theorem switch_cursorOK (e : editorConfig) (st : Statics) (c : Int) (keys : List Int)
    (now : Int) (io : Option (List Nat)) (hb : BufferOK e) (hc : CursorOK e)
    (hro : 0 ≤ e.rowoff) (hrc : e.rowoff ≤ e.cy) (hsr : 1 ≤ e.screenrows)
    (h2 : c ≠ CTRL_KEY 115) (h3 : c ≠ CTRL_KEY 102) :
    ∃ e1, editorProcessKeypress.switch e st c keys now io = some (Outcome.returned e1 st keys) ∧
      CursorOK e1 := by
  have hcx := cursorOK_cx_nonneg e hb hc
  have hcy0 := hc.1
  have hcy1 := hc.2.1
  unfold editorProcessKeypress.switch
  by_cases h1 : c = ENTER
  · rw [if_pos h1]
    obtain ⟨e1, he1, hc1⟩ := editorInsertNewLine_cursorOK e hb hc
    simp only [he1]
    exact ⟨_, rfl, hc1⟩
  rw [if_neg h1, if_neg h2, if_neg h3]
  by_cases h4 : c = HOME_KEY
  · rw [if_pos h4]
    exact ⟨_, rfl, cursorOK_of_cx0 { e with cx := 0 } hb hcy0 hcy1 rfl⟩
  rw [if_neg h4]
  by_cases h5 : c = END_KEY
  · rw [if_pos h5]
    by_cases hcy : e.cy < e.numrows
    · obtain ⟨row, hr, _, _, hsz, _⟩ := cursor_row e hb hc hcy
      rw [if_pos hcy]
      simp only [hr]
      exact ⟨_, rfl, cursorOK_of_row { e with cx := row.size } row hcy0 hcy hr
        (by show 0 ≤ row.size; omega) (le_refl _)⟩
    · rw [if_neg hcy]
      exact ⟨_, rfl, hc⟩
  rw [if_neg h5]
  by_cases h6 : c = BACKSPACE ∨ c = CTRL_KEY 104 ∨ c = DEL_KEY
  · rw [if_pos h6]
    by_cases hdel : c = DEL_KEY
    · obtain ⟨e1, hm, hrow, hnum, _, hc1⟩ := editorMoveCursor_step e ARROW_RIGHT hb hc
      have hb1 : BufferOK e1 := by unfold BufferOK; rw [hrow, hnum]; exact hb
      obtain ⟨e2, hd2, hc2⟩ := editorDelChar_cursorOK e1 hb1 hc1
      simp only [hdel, if_true, hm, hd2]
      exact ⟨_, rfl, hc2⟩
    · obtain ⟨e2, hd2, hc2⟩ := editorDelChar_cursorOK e hb hc
      simp only [hdel, if_false, hd2]
      exact ⟨_, rfl, hc2⟩
  rw [if_neg h6]
  by_cases h7 : c = PAGE_UP ∨ c = PAGE_DOWN
  · rw [if_pos h7]
    have hn1 : 1 ≤ e.screenrows.toNat := by omega
    by_cases hup : c = PAGE_UP
    · simp only [hup, if_true]
      rw [if_neg (by show ¬ e.screenrows < 0; omega)]
      obtain ⟨e2, hm, hc2⟩ := page_moves_ok ARROW_UP (Or.inl rfl) e.screenrows.toNat hn1
        { e with cy := e.rowoff } hb hro (by show e.rowoff ≤ e.numrows; omega) hcx
      simp only [hm]
      exact ⟨_, rfl, hc2⟩
    · have hdown : c = PAGE_DOWN := by
        rcases h7 with h | h
        · exact absurd h hup
        · exact h
      have hne : ¬ PAGE_DOWN = PAGE_UP := by decide
      simp only [hdown, hne, if_false]
      split_ifs with ha hb2 hb3
      · exact absurd hb2 (by show ¬ e.screenrows < 0; omega)
      · obtain ⟨e2, hm, hc2⟩ := page_moves_ok ARROW_DOWN (Or.inr rfl) e.screenrows.toNat hn1
          { e with cy := e.numrows } hb (by show 0 ≤ e.numrows; omega) (le_refl _) hcx
        simp only [hm]
        exact ⟨_, rfl, hc2⟩
      · exact absurd hb3 (by show ¬ e.screenrows < 0; omega)
      · obtain ⟨e2, hm, hc2⟩ := page_moves_ok ARROW_DOWN (Or.inr rfl) e.screenrows.toNat hn1
          { e with cy := e.rowoff + e.screenrows - 1 } hb
          (by show 0 ≤ e.rowoff + e.screenrows - 1; omega)
          (by
            have hle : ¬ e.rowoff + e.screenrows - 1 > e.numrows := ha
            show e.rowoff + e.screenrows - 1 ≤ e.numrows
            omega) hcx
        simp only [hm]
        exact ⟨_, rfl, hc2⟩
  rw [if_neg h7]
  by_cases h8 : c = ARROW_LEFT ∨ c = ARROW_DOWN ∨ c = ARROW_RIGHT ∨ c = ARROW_UP
  · rw [if_pos h8]
    obtain ⟨e1, hm, _, _, _, hc1⟩ := editorMoveCursor_step e c hb hc
    simp only [hm]
    exact ⟨_, rfl, hc1⟩
  rw [if_neg h8]
  by_cases h9 : c = CTRL_KEY 108 ∨ c = ESC
  · rw [if_pos h9]
    exact ⟨_, rfl, hc⟩
  rw [if_neg h9]
  obtain ⟨e1, he1, hc1⟩ := editorInsertChar_cursorOK e c hb hc
  simp only [he1]
  exact ⟨_, rfl, hc1⟩

/-- The row offset never becomes negative: `initEditor` sets it to 0, `editorFindCallback`
assigns `numrows`, and `editorScroll` keeps `rowoff ≥ 0` in a valid state. -/
theorem editorScroll_rowoff_nonneg (e : editorConfig) (hb : BufferOK e) (hc : CursorOK e)
    (hro : 0 ≤ e.rowoff) : ∃ e1, editorScroll e = some e1 ∧ 0 ≤ e1.rowoff := by
  obtain ⟨e1, h1, _, h3, _⟩ := editorScroll_fields e hb hc
  have hcy0 := hc.1
  refine ⟨e1, h1, ?_⟩
  rw [h3]
  split_ifs <;> omega

/-- Why `rowoff ≥ 0` is part of a well-formed state: were `rowoff` negative (a value that
the program does not produce), Page Up would set `cy = rowoff < 0` and the calls
`editorMoveCursor(ARROW_UP)` would address rows in front of the array. -/
theorem page_up_negative_rowoff :
    BufferOK { mkState [mkRow [97]] 0 0 with rowoff := -1 } ∧
      CursorOK { mkState [mkRow [97]] 0 0 with rowoff := -1 } ∧
      ViewportOK { mkState [mkRow [97]] 0 0 with rowoff := -1 } ∧
      1 ≤ ({ mkState [mkRow [97]] 0 0 with rowoff := -1 } : editorConfig).screenrows ∧
      PAGE_UP ≠ CTRL_KEY 113 ∧ PAGE_UP ≠ CTRL_KEY 115 ∧ PAGE_UP ≠ CTRL_KEY 102 ∧
      editorProcessKeypress { mkState [mkRow [97]] 0 0 with rowoff := -1 } Statics.init PAGE_UP
        [] 0 none = none ∧
      ¬ CursorOK { mkState [mkRow [97]] 0 0 with rowoff := -1, cy := -1 } := by
  decide

/-- C24: for every well-formed state (a consistent buffer and `rowoff ≥ 0`, as in every
state of a run) that satisfies the cursor invariant and the viewport invariant, with
`screenrows ≥ 1`, and for every key other than quit (Ctrl-Q), save (Ctrl-S) and find
(Ctrl-F), `editorProcessKeypress` returns, has read no further key, and the state it leaves
satisfies the cursor invariant again. -/
theorem editorProcessKeypress_cursorOK (e : editorConfig) (st : Statics) (c : Int)
    (keys : List Int) (now : Int) (io : Option (List Nat)) (hb : BufferOK e) (hc : CursorOK e)
    (hv : ViewportOK e) (hro : 0 ≤ e.rowoff) (hsr : 1 ≤ e.screenrows)
    (hq : c ≠ CTRL_KEY 113) (hs : c ≠ CTRL_KEY 115) (hf : c ≠ CTRL_KEY 102) :
    ∃ e1, editorProcessKeypress e st c keys now io =
        some (Outcome.returned e1 { st with quit_times := QUIT_TIMES } keys) ∧
      CursorOK e1 := by
  obtain ⟨e1, h1, hc1⟩ := switch_cursorOK e st c keys now io hb hc hro hv.1 hsr hs hf
  unfold editorProcessKeypress
  rw [if_neg hq, h1]
  exact ⟨e1, rfl, hc1⟩

/-- The claim of C24 on the lines `"ab"`, `"c"` with the cursor at `(1, 0)`: Backspace
merges the two lines and leaves the cursor at `(0, 2)`, a valid position. -/
theorem editorProcessKeypress_cursorOK_witness :
    BufferOK (mkState [mkRow [97, 98], mkRow [99]] 1 0) ∧
      CursorOK (mkState [mkRow [97, 98], mkRow [99]] 1 0) ∧
      ViewportOK (mkState [mkRow [97, 98], mkRow [99]] 1 0) ∧
      0 ≤ (mkState [mkRow [97, 98], mkRow [99]] 1 0).rowoff ∧
      1 ≤ (mkState [mkRow [97, 98], mkRow [99]] 1 0).screenrows ∧
      BACKSPACE ≠ CTRL_KEY 113 ∧ BACKSPACE ≠ CTRL_KEY 115 ∧ BACKSPACE ≠ CTRL_KEY 102 ∧
      ∃ e1, editorProcessKeypress (mkState [mkRow [97, 98], mkRow [99]] 1 0) Statics.init
          BACKSPACE [] 0 none =
          some (Outcome.returned e1 { Statics.init with quit_times := QUIT_TIMES } []) ∧
        CursorOK e1 :=
  ⟨by decide, by decide, by decide, by decide, by decide, by decide, by decide, by decide,
    editorProcessKeypress_cursorOK (mkState [mkRow [97, 98], mkRow [99]] 1 0) Statics.init
      BACKSPACE [] 0 none (by decide) (by decide) (by decide) (by decide) (by decide)
      (by decide) (by decide) (by decide)⟩

/-! ## Deleting a row that does not exist -/

/-- With `at < 0` or `at > numrows` the function `editorDelRow` returns at once. -/
theorem editorDelRow_outside (e : editorConfig) (at_ : Int) (h : at_ < 0 ∨ at_ > e.numrows) :
    editorDelRow e at_ = some e := by
  unfold editorDelRow
  rw [if_pos h]

/-- With `at = numrows` the guard of `editorDelRow` does not return: the body runs on the
slot behind the array. -/
theorem editorDelRow_numrows (e : editorConfig) (hn : e.numrows = e.row.length) :
    editorDelRow e e.numrows = none := by
  unfold editorDelRow
  rw [if_neg (by omega), rowAt_of_ge e.row e.numrows (by omega)]

/-- C25, evaluation at the failing input: on the lines `"a"`, `"b"` the calls
`editorDelRow(-1)` and `editorDelRow(3)` leave the state as it is, but `editorDelRow(2)`,
with `at = numrows`, passes the guard `at < 0 || at > e.numrows`: it frees the slot
`e.row[2]` behind the array and calls `memmove` with the count `sizeof(e.row) * -1`, so the
call is undefined and does not leave the state unchanged (`numrows--` and `dirty++` follow
in the body). -/
theorem editorDelRow_at_numrows_undefined :
    (mkState [mkRow [97], mkRow [98]] 0 0).numrows = 2 ∧
      editorDelRow (mkState [mkRow [97], mkRow [98]] 0 0) (-1) =
        some (mkState [mkRow [97], mkRow [98]] 0 0) ∧
      editorDelRow (mkState [mkRow [97], mkRow [98]] 0 0) 3 =
        some (mkState [mkRow [97], mkRow [98]] 0 0) ∧
      editorDelRow (mkState [mkRow [97], mkRow [98]] 0 0) 2 = none ∧
      editorDelRow (mkState [mkRow [97], mkRow [98]] 0 0) 2 ≠
        some (mkState [mkRow [97], mkRow [98]] 0 0) := by
  decide

end Editor
